import Mathlib

/-!
Verification of the ld65-rs linking core against its natural-language
specification.  The Rust sources under src/link/ (graph.rs, layout.rs,
symbol.rs, emit.rs) together with script/mod.rs, range.rs and object.rs are
shallowly embedded below: fallible operations (Rust panics / asserts) become
`Except LinkError`, machine integers become `Nat`/`Int`, slices become
`List Nat` with explicit bounds checks mirroring Rust's panicking indexing.
-/

namespace Ld65

/-- Fatal conditions of the linking core.  Every Rust `panic!` / `assert!`
in the embedded code is mapped to one of these constructors; `indexError`
stands for an out-of-bounds slice/array access or a failed `unwrap`, and
`outOfFuel` is an artifact of the fuel-indexed resolver model (shown
unreachable for sufficient fuel). -/
inductive LinkError where
  | segOverwrite (segName : String)
  | segAlignUnsupported (segName : String)
  | sectAlignUnsupported (objName : String)
  | memOverflow (memName : String)
  | cannotHandleSegment (objName segName : String)
  | unknownSegment (objName segName : String)
  | duplicateExport (name : String)
  | symbolNotExported (objName symName : String)
  | circularReference (symName : String)
  | addrSizeMismatch (symName : String)
  | addrSizeMismatchExpr
  | exprNull
  | exprValueOverflow
  | unknownSectionRef (objI objSectI : Nat)
  | indexError
  | unreachableState
  | outOfFuel
deriving Repr, DecidableEq

/-- Rust `assert!(cond, msg)`: succeed on `true`, abort with `e` on `false`. -/
def lassert (cond : Bool) (e : LinkError) : Except LinkError Unit :=
  if cond then .ok () else .error e

/-- Rust slice indexing `l[i]`: the element, or a fatal out-of-range abort. -/
def getIdx {α : Type} (l : List α) (i : Nat) : Except LinkError α :=
  match l.get? i with
  | some x => .ok x
  | none => .error .indexError

/-- Rust `l[i][j]` on a nested slice. -/
def getIdx2 {α : Type} (l : List (List α)) (i j : Nat) : Except LinkError α := do
  let row ← getIdx l i
  getIdx row j

/-- Rust `l[i] = x` on a slice (fatal when out of range). -/
def setIdx {α : Type} (l : List α) (i : Nat) (x : α) : Except LinkError (List α) :=
  if i < l.length then .ok (l.set i x) else .error .indexError

/-- Rust `v[i].push(x)` on a `Vec<Vec<_>>` (fatal when `i` is out of range). -/
def pushAt {α : Type} (l : List (List α)) (i : Nat) (x : α) :
    Except LinkError (List (List α)) := do
  let row ← getIdx l i
  setIdx l i (row ++ [x])

/-- Rust `a - b` on `usize` (fatal on underflow). -/
def checkedSub (a b : Nat) : Except LinkError Nat :=
  if b ≤ a then .ok (a - b) else .error .indexError

/-! ## range.rs -/

/-- Source `NonemptyRange`: a nonempty byte range given by inclusive
minimum and maximum (the constructor invariant `min ≤ max` is carried by the
script evaluator and is not needed by the embedded algorithms). -/
structure NonemptyRange where
  min : Nat
  max : Nat
deriving Repr, DecidableEq

/-- Source `NonemptyRange::len`. -/
def NonemptyRange.len (r : NonemptyRange) : Nat := r.max - r.min + 1

/-! ## script/mod.rs (validated configuration model) -/

/-- Source `LinkScriptSegmentStart`. -/
inductive LinkScriptSegmentStart where
  | unspecified
  | addr (a : Nat)
  | align (n : Nat)
deriving Repr, DecidableEq

/-- Source `LinkScriptMemory` (byte values as `Nat`). -/
structure LinkScriptMemory where
  name : String
  range : NonemptyRange
  filled : Bool
  fill_byte : Nat
  outfile_i : Nat
deriving Repr, DecidableEq

/-- Source `LinkScriptMemory::start`. -/
def LinkScriptMemory.start (m : LinkScriptMemory) : Nat := m.range.min

/-- Source `LinkScriptMemory::len`. -/
def LinkScriptMemory.len (m : LinkScriptMemory) : Nat := m.range.len

/-- Source `LinkScriptSegment`. -/
structure LinkScriptSegment where
  name : String
  start : LinkScriptSegmentStart
  bss : Bool
  fill_byte : Option Nat
  mem_i : Nat
deriving Repr, DecidableEq

/-- Source `LinkScript`. -/
structure LinkScript where
  outfiles : List String
  mems : List LinkScriptMemory
  segs : List LinkScriptSegment
deriving Repr, DecidableEq

/-! ## Parsed object model (xo65 tables as consumed by the core)

The object-file decoder is an external collaborator; the shapes below are
the tables the core reads from it: sections (declared segment name, raw
length, alignment, fragments), imports, exports, with string-table
indirection already resolved to the strings themselves.  Unary/binary
expression operators are opaque functions on `Int`, exactly the core's use
of `op.apply`. -/

/-- Expression tree (xo65 `Expr` as evaluated by symbol.rs / emit.rs). -/
inductive LinkExpr where
  | null
  | literal (value : Int)
  | symbol (import_idx : Nat)
  | sect (section_idx : Nat)
  | unary (op : Int → Int) (e : LinkExpr)
  | binary (op : Int → Int → Int) (lhs rhs : LinkExpr)

/-- Fragment body (xo65 `SectionFragmentBody` as matched in emit.rs). -/
inductive SectionFragmentBody where
  | literal (bytes : List Nat)
  | fill (len : Nat)
  | exprU8 (e : LinkExpr)
  | exprU16 (e : LinkExpr)
  | exprU24 (e : LinkExpr)
  | exprU32 (e : LinkExpr)
  | exprI8 (e : LinkExpr)
  | exprI16 (e : LinkExpr)
  | exprI24 (e : LinkExpr)
  | exprI32 (e : LinkExpr)

/-- One object-file section as the core reads it. -/
structure ObjSection where
  segment_name : String
  len : Nat
  align : Nat
  fragments : List SectionFragmentBody

/-- Source xo65 `Section::is_empty`: a section of declared size 0. -/
def ObjSection.is_empty (s : ObjSection) : Bool := s.len == 0

/-- One import-table entry. -/
structure ObjImport where
  name : String
  addr_size : Nat

/-- One export-table entry. -/
structure ObjExport where
  name : String
  addr_size : Nat
  expr : LinkExpr

/-- Source `Object`: one parsed object file. -/
structure Object where
  name : String
  sections : List ObjSection
  imports : List ObjImport
  exports : List ObjExport

/-! ## link/graph.rs -/

/-- Source `PREDEF_SEG_NAMES`: segment names ca65 emits by default. -/
def PREDEF_SEG_NAMES : List String := ["BSS", "CODE", "DATA", "NULL", "RODATA", "ZEROPAGE"]

/-- Source `LinkGraph`: the structural adjacency tables.  Entities are
referenced by position (`Nat`) exactly as the Rust newtype indices do. -/
structure LinkGraph where
  file_to_mems : List (List Nat)
  mem_to_segs : List (List Nat)
  seg_to_sects : List (List Nat)
  obj_to_sects : List (List Nat)
  mem_to_file : List Nat
  seg_to_mem : List Nat
  sect_to_seg : List Nat
  obj_sect_to_sect : List (List (Option Nat))
  sect_to_obj_sect : List (Nat × Nat)
  file_names : List String
  mem_names : List String
  seg_names : List String

/-- Source `LinkGraph::sect_count`. -/
def LinkGraph.sect_count (g : LinkGraph) : Nat := g.sect_to_seg.length

/-- Source `LinkGraph::obj_sect_to_sect` (the two indexings abort when out
of range, then the stored `Option` is returned). -/
def LinkGraph.objSectToSect (g : LinkGraph) (obj_i obj_sect_i : Nat) :
    Except LinkError (Option Nat) := do
  let row ← getIdx g.obj_sect_to_sect obj_i
  getIdx row obj_sect_i

/-- Source `LinkGraph::sect_to_obj_sect` accessor. -/
def LinkGraph.sectToObjSect (g : LinkGraph) (sect_i : Nat) :
    Except LinkError (Nat × Nat) :=
  getIdx g.sect_to_obj_sect sect_i

/-- Source segment-name lookup map: `HashMap` built from
`enumerate_segments`, so of segments sharing one name the last index wins. -/
def segNameToIdx (script : LinkScript) (name : String) : Option Nat :=
  (((script.segs.enum).filter (fun p => p.2.name == name)).map Prod.fst).getLast?

/-- Classification of one object section by its declared segment name, as in
`build_seg_obj_sect`: a name of the script maps to its segment; an unmapped
default-named section is dropped (`none`) when empty and fatal when not;
any other unmapped name is unconditionally fatal. -/
def classify_section (script : LinkScript) (objName segName : String) (isEmpty : Bool) :
    Except LinkError (Option Nat) :=
  match segNameToIdx script segName with
  | some seg_i => .ok (some seg_i)
  | none =>
    if PREDEF_SEG_NAMES.contains segName then
      if isEmpty then .ok none
      else .error (.cannotHandleSegment objName segName)
    else .error (.unknownSegment objName segName)

/-- Accumulator of `build_seg_obj_sect`: the five tables under construction
plus the running global section counter `sect_i`. -/
structure SegObjSectAcc where
  seg_to_sects : List (List Nat)
  obj_to_sects : List (List Nat)
  sect_to_seg : List Nat
  obj_sect_to_sect : List (List (Option Nat))
  sect_to_obj_sect : List (Nat × Nat)
  sect_i : Nat

/-- Inner loop of `build_seg_obj_sect` over one object's sections
(`obj_sect_i` is the local index of the head of the list; `row` accumulates
`obj_sect_to_sect_row`). -/
def buildSectLoop (script : LinkScript) (obj_i : Nat) (objName : String) :
    List ObjSection → Nat → SegObjSectAcc → List (Option Nat) →
    Except LinkError (SegObjSectAcc × List (Option Nat))
  | [], _, acc, row => .ok (acc, row)
  | s :: rest, obj_sect_i, acc, row => do
    match ← classify_section script objName s.segment_name s.is_empty with
    | none => buildSectLoop script obj_i objName rest (obj_sect_i + 1) acc (row ++ [none])
    | some seg_i => do
      let seg_to_sects ← pushAt acc.seg_to_sects seg_i acc.sect_i
      let obj_to_sects ← pushAt acc.obj_to_sects obj_i acc.sect_i
      let acc2 : SegObjSectAcc :=
        { seg_to_sects := seg_to_sects
          obj_to_sects := obj_to_sects
          sect_to_seg := acc.sect_to_seg ++ [seg_i]
          obj_sect_to_sect := acc.obj_sect_to_sect
          sect_to_obj_sect := acc.sect_to_obj_sect ++ [(obj_i, obj_sect_i)]
          sect_i := acc.sect_i + 1 }
      buildSectLoop script obj_i objName rest (obj_sect_i + 1) acc2 (row ++ [some acc.sect_i])

/-- Outer loop of `build_seg_obj_sect` over the objects in input order. -/
def buildObjLoop (script : LinkScript) :
    List Object → Nat → SegObjSectAcc → Except LinkError SegObjSectAcc
  | [], _, acc => .ok acc
  | obj :: rest, obj_i, acc => do
    let (acc2, row) ← buildSectLoop script obj_i obj.name obj.sections 0 acc []
    buildObjLoop script rest (obj_i + 1)
      { acc2 with obj_sect_to_sect := acc2.obj_sect_to_sect ++ [row] }

/-- Source `LinkGraph::build_seg_obj_sect`. -/
def build_seg_obj_sect (script : LinkScript) (objs : List Object) :
    Except LinkError SegObjSectAcc :=
  buildObjLoop script objs 0
    { seg_to_sects := List.replicate script.segs.length []
      obj_to_sects := List.replicate objs.length []
      sect_to_seg := []
      obj_sect_to_sect := []
      sect_to_obj_sect := []
      sect_i := 0 }

/-- Loop of `build_file_mem` over the script's memory regions. -/
def buildFileMemLoop : List LinkScriptMemory → Nat → List (List Nat) → List Nat →
    Except LinkError (List (List Nat) × List Nat)
  | [], _, ftm, mtf => .ok (ftm, mtf)
  | mem :: rest, mem_i, ftm, mtf => do
    let ftm ← pushAt ftm mem.outfile_i mem_i
    buildFileMemLoop rest (mem_i + 1) ftm (mtf ++ [mem.outfile_i])

/-- Source `LinkGraph::build_file_mem`. -/
def build_file_mem (script : LinkScript) :
    Except LinkError (List (List Nat) × List Nat) :=
  buildFileMemLoop script.mems 0 (List.replicate script.outfiles.length []) []

/-- Loop of `build_mem_seg` over the script's segments. -/
def buildMemSegLoop : List LinkScriptSegment → Nat → List (List Nat) → List Nat →
    Except LinkError (List (List Nat) × List Nat)
  | [], _, mts, stm => .ok (mts, stm)
  | seg :: rest, seg_i, mts, stm => do
    let mts ← pushAt mts seg.mem_i seg_i
    buildMemSegLoop rest (seg_i + 1) mts (stm ++ [seg.mem_i])

/-- Source `LinkGraph::build_mem_seg`. -/
def build_mem_seg (script : LinkScript) :
    Except LinkError (List (List Nat) × List Nat) :=
  buildMemSegLoop script.segs 0 (List.replicate script.mems.length []) []

/-- Source `LinkGraph::new`. -/
def LinkGraph.new (script : LinkScript) (objs : List Object) :
    Except LinkError LinkGraph := do
  let (file_to_mems, mem_to_file) ← build_file_mem script
  let (mem_to_segs, seg_to_mem) ← build_mem_seg script
  let acc ← build_seg_obj_sect script objs
  .ok { file_to_mems := file_to_mems
        mem_to_segs := mem_to_segs
        seg_to_sects := acc.seg_to_sects
        obj_to_sects := acc.obj_to_sects
        mem_to_file := mem_to_file
        seg_to_mem := seg_to_mem
        sect_to_seg := acc.sect_to_seg
        obj_sect_to_sect := acc.obj_sect_to_sect
        sect_to_obj_sect := acc.sect_to_obj_sect
        file_names := script.outfiles
        mem_names := script.mems.map LinkScriptMemory.name
        seg_names := script.segs.map LinkScriptSegment.name }

/-! ## link/layout.rs -/

/-- Source `LinkLayoutFile`. -/
structure LinkLayoutFile where
  len : Nat
deriving Repr, DecidableEq

/-- Source `LinkLayoutMemory`. -/
structure LinkLayoutMemory where
  file_off : Nat
  range : NonemptyRange
  output_len : Nat
  filled : Bool
  fill_byte : Nat
deriving Repr, DecidableEq

/-- Source `LinkLayoutMemory::start`. -/
def LinkLayoutMemory.start (m : LinkLayoutMemory) : Nat := m.range.min

/-- Source `LinkLayoutSegment`. -/
structure LinkLayoutSegment where
  start : Nat
  output_len : Nat
  fill_byte : Option Nat
deriving Repr, DecidableEq

/-- Source `LinkLayoutSection`. -/
structure LinkLayoutSection where
  start : Nat
  output_len : Nat
deriving Repr, DecidableEq

/-- Source `LinkLayout`. -/
structure LinkLayout where
  files : List LinkLayoutFile
  mems : List LinkLayoutMemory
  segs : List LinkLayoutSegment
  sects : List LinkLayoutSection
deriving Repr, DecidableEq

/-- Resolution of a segment's start policy against the region's address
cursor `addr` (the `match script_seg.start()` block of `LinkLayout::new`):
unspecified keeps the cursor; an explicit address must not undercut the
cursor (else a fatal overlap) and becomes the cursor; an alignment request
other than 1 is fatal. -/
def resolveSegStart (segName : String) (start : LinkScriptSegmentStart) (addr : Nat) :
    Except LinkError Nat :=
  match start with
  | .unspecified => .ok addr
  | .addr a => if addr ≤ a then .ok a else .error (.segOverwrite segName)
  | .align n => if n == 1 then .ok addr else .error (.segAlignUnsupported segName)

/-- Body of the section loop of `LinkLayout::new` for one section: check
unit alignment, record start address and output length (0 for BSS), add the
output length to the segment and region accumulators, check the region
capacity, and advance the cursor by the raw section length. -/
def layoutSectStep (objs : List Object) (graph : LinkGraph) (memName : String)
    (memCap : Nat) (bss : Bool) (sect_i : Nat) (addr : Nat)
    (lseg : LinkLayoutSegment) (lmem : LinkLayoutMemory)
    (sects : List (Option LinkLayoutSection)) :
    Except LinkError (Nat × LinkLayoutSegment × LinkLayoutMemory ×
      List (Option LinkLayoutSection)) := do
  let (obj_i, obj_sect_i) ← graph.sectToObjSect sect_i
  let obj ← getIdx objs obj_i
  let obj_sect ← getIdx obj.sections obj_sect_i
  lassert (obj_sect.align == 1) (.sectAlignUnsupported obj.name)
  let sect_len := obj_sect.len
  let output_len := if bss then 0 else sect_len
  let sects ← setIdx sects sect_i (some { start := addr, output_len := output_len })
  let lseg := { lseg with output_len := lseg.output_len + output_len }
  let lmem := { lmem with output_len := lmem.output_len + output_len }
  lassert (lmem.output_len ≤ memCap) (.memOverflow memName)
  .ok (addr + sect_len, lseg, lmem, sects)

/-- Section loop of `LinkLayout::new` over one segment's sections. -/
def layoutSectLoop (objs : List Object) (graph : LinkGraph) (memName : String)
    (memCap : Nat) (bss : Bool) :
    List Nat → Nat → LinkLayoutSegment → LinkLayoutMemory →
    List (Option LinkLayoutSection) →
    Except LinkError (Nat × LinkLayoutSegment × LinkLayoutMemory ×
      List (Option LinkLayoutSection))
  | [], addr, lseg, lmem, sects => .ok (addr, lseg, lmem, sects)
  | sect_i :: rest, addr, lseg, lmem, sects => do
    let (addr, lseg, lmem, sects) ←
      layoutSectStep objs graph memName memCap bss sect_i addr lseg lmem sects
    layoutSectLoop objs graph memName memCap bss rest addr lseg lmem sects

/-- Segment loop of `LinkLayout::new` over one region's segments. -/
def layoutSegLoop (script : LinkScript) (objs : List Object) (graph : LinkGraph)
    (memName : String) (memCap : Nat) :
    List Nat → Nat → LinkLayoutMemory → List (Option LinkLayoutSegment) →
    List (Option LinkLayoutSection) →
    Except LinkError (Nat × LinkLayoutMemory × List (Option LinkLayoutSegment) ×
      List (Option LinkLayoutSection))
  | [], addr, lmem, segs, sects => .ok (addr, lmem, segs, sects)
  | seg_i :: rest, addr, lmem, segs, sects => do
    let script_seg ← getIdx script.segs seg_i
    let bss := script_seg.bss
    let addr ← resolveSegStart ((graph.seg_names.getD seg_i "")) script_seg.start addr
    let lseg : LinkLayoutSegment :=
      { start := addr, output_len := 0, fill_byte := script_seg.fill_byte }
    let sect_is ← getIdx graph.seg_to_sects seg_i
    let (addr, lseg, lmem, sects) ←
      layoutSectLoop objs graph memName memCap bss sect_is addr lseg lmem sects
    let segs ← setIdx segs seg_i (some lseg)
    layoutSegLoop script objs graph memName memCap rest addr lmem segs sects

/-- Region loop of `LinkLayout::new` over one file's memory regions
(`file_off` is the running file-offset cursor). -/
def layoutMemLoop (script : LinkScript) (objs : List Object) (graph : LinkGraph) :
    List Nat → Nat → List (Option LinkLayoutMemory) →
    List (Option LinkLayoutSegment) → List (Option LinkLayoutSection) →
    Except LinkError (Nat × List (Option LinkLayoutMemory) ×
      List (Option LinkLayoutSegment) × List (Option LinkLayoutSection))
  | [], file_off, mems, segs, sects => .ok (file_off, mems, segs, sects)
  | mem_i :: rest, file_off, mems, segs, sects => do
    let script_mem ← getIdx script.mems mem_i
    let addr := script_mem.start
    let lmem : LinkLayoutMemory :=
      { file_off := file_off
        range := script_mem.range
        output_len := 0
        filled := script_mem.filled
        fill_byte := script_mem.fill_byte }
    let seg_is ← getIdx graph.mem_to_segs mem_i
    let (_, lmem, segs, sects) ←
      layoutSegLoop script objs graph script_mem.name script_mem.len
        seg_is addr lmem segs sects
    let lmem := if lmem.filled then { lmem with output_len := script_mem.len } else lmem
    let file_off := file_off + lmem.output_len
    let mems ← setIdx mems mem_i (some lmem)
    layoutMemLoop script objs graph rest file_off mems segs sects

/-- File loop of `LinkLayout::new` over the output files. -/
def layoutFileLoop (script : LinkScript) (objs : List Object) (graph : LinkGraph) :
    List Nat → List (Option LinkLayoutFile) → List (Option LinkLayoutMemory) →
    List (Option LinkLayoutSegment) → List (Option LinkLayoutSection) →
    Except LinkError (List (Option LinkLayoutFile) × List (Option LinkLayoutMemory) ×
      List (Option LinkLayoutSegment) × List (Option LinkLayoutSection))
  | [], files, mems, segs, sects => .ok (files, mems, segs, sects)
  | file_i :: rest, files, mems, segs, sects => do
    let mem_is ← getIdx graph.file_to_mems file_i
    let (file_off, mems, segs, sects) ←
      layoutMemLoop script objs graph mem_is 0 mems segs sects
    let files ← setIdx files file_i (some { len := file_off })
    layoutFileLoop script objs graph rest files mems segs sects

/-- Rust `Option::unwrap` mapped over a slice (the final collect of
`LinkLayout::new`): the unwrapped list, aborting at the first `none`. -/
def unwrapAll {α : Type} : List (Option α) → Except LinkError (List α)
  | [] => .ok []
  | none :: _ => .error .indexError
  | some x :: rest => do
    let r ← unwrapAll rest
    .ok (x :: r)

/-- Source `LinkLayout::new`. -/
def LinkLayout.new (script : LinkScript) (objs : List Object) (graph : LinkGraph) :
    Except LinkError LinkLayout := do
  let files0 : List (Option LinkLayoutFile) := List.replicate graph.file_names.length none
  let mems0 : List (Option LinkLayoutMemory) := List.replicate graph.mem_names.length none
  let segs0 : List (Option LinkLayoutSegment) := List.replicate graph.seg_names.length none
  let sects0 : List (Option LinkLayoutSection) := List.replicate graph.sect_count none
  let (files, mems, segs, sects) ←
    layoutFileLoop script objs graph (List.range graph.file_names.length)
      files0 mems0 segs0 sects0
  let files ← unwrapAll files
  let mems ← unwrapAll mems
  let segs ← unwrapAll segs
  let sects ← unwrapAll sects
  .ok { files := files, mems := mems, segs := segs, sects := sects }

/-! ## link/symbol.rs -/

/-- Source `SymbolEntry` (resolved). -/
structure SymbolEntry where
  addr_size : Nat
  value : Int

/-- Source `SymbolTable`: per object, per import slot, the resolved entry. -/
structure SymbolTable where
  table : List (List SymbolEntry)

/-- Source `SymbolTable::get`. -/
def SymbolTable.get (t : SymbolTable) (obj_i imp_i : Nat) : Except LinkError SymbolEntry :=
  getIdx2 t.table obj_i imp_i

/-- Source `ExportDesc`. -/
structure ExportDesc where
  obj_i : Nat
  addr_size : Nat
  expr : LinkExpr

/-- Source `Exports`: an insertion-ordered map from symbol name to export
descriptor (`indexmap::IndexMap` as an association list). -/
abbrev Exports := List (String × ExportDesc)

/-- Inner loop of `build_exports` over one object's export table; inserting
a name already present is the fatal duplicate-export condition. -/
def buildExportsInner (obj_i : Nat) : List ObjExport → Exports → Except LinkError Exports
  | [], acc => .ok acc
  | e :: rest, acc =>
    if (acc.find? (fun p => p.1 == e.name)).isSome then
      .error (.duplicateExport e.name)
    else
      buildExportsInner obj_i rest
        (acc ++ [(e.name, { obj_i := obj_i, addr_size := e.addr_size, expr := e.expr })])

/-- Outer loop of `build_exports` over the objects in input order. -/
def buildExportsLoop : List Object → Nat → Exports → Except LinkError Exports
  | [], _, acc => .ok acc
  | obj :: rest, obj_i, acc => do
    let acc ← buildExportsInner obj_i obj.exports acc
    buildExportsLoop rest (obj_i + 1) acc

/-- Source `build_exports`. -/
def build_exports (objs : List Object) : Except LinkError Exports :=
  buildExportsLoop objs 0 []

/-- Source `Exports::get_index_of`. -/
def exportIndexOf (exports : Exports) (name : String) : Option Nat :=
  exports.findIdx? (fun p => p.1 == name)

/-- Source `ResolveState`. -/
inductive ResolveState where
  | done (value : Int)
  | resolving
  | unresolved (export_i : Nat)
deriving Repr, DecidableEq

/-- Source `ResolveEntry`. -/
structure ResolveEntry where
  addr_size : Nat
  state : ResolveState
deriving Repr, DecidableEq

/-- Source `ResolveTable`. -/
abbrev ResolveTable := List (List ResolveEntry)

/-- Rust `table[obj_i][imp_i].state = st` (`IndexMut`: fatal out of range). -/
def setEntryState (t : ResolveTable) (obj_i imp_i : Nat) (st : ResolveState) :
    Except LinkError ResolveTable := do
  let row ← getIdx t obj_i
  let e ← getIdx row imp_i
  let row ← setIdx row imp_i { e with state := st }
  setIdx t obj_i row

/-- Source `Object::query_import_name`. -/
def queryImportName (objs : List Object) (obj_i imp_i : Nat) :
    Except LinkError String := do
  let obj ← getIdx objs obj_i
  let imp ← getIdx obj.imports imp_i
  .ok imp.name

/-- One pending call of the resolver: `Resolver::resolve_import` on a slot,
or `Resolver::resolve_expr` on an expression under the export `export_i`. -/
inductive ResolveTask where
  | imp (obj_i imp_i : Nat)
  | expr (export_i : Nat) (e : LinkExpr)

/-- Source `Resolver::resolve_import` / `Resolver::resolve_expr`: the two
mutually recursive functions merged into one, structurally recursive on an
explicit recursion budget `fuel` (the Rust recursion is unbounded; `fuel`
only models the call depth and is proved sufficient below, so `outOfFuel`
is unreachable for a large enough budget). -/
def resolveGo (objs : List Object) (graph : LinkGraph) (layout : LinkLayout)
    (exports : Exports) : Nat → ResolveTable → ResolveTask →
    Except LinkError (Int × ResolveTable)
  | 0, _, _ => .error .outOfFuel
  | fuel + 1, table, .imp obj_i imp_i => do
    let name ← queryImportName objs obj_i imp_i
    let entry ← getIdx2 table obj_i imp_i
    let (value, table) ←
      match entry.state with
      | .done v => pure ((v, table) : Int × ResolveTable)
      | .resolving => Except.error (.circularReference name)
      | .unresolved export_i => do
        let table ← setEntryState table obj_i imp_i .resolving
        let ed ← getIdx exports export_i
        lassert (entry.addr_size == ed.2.addr_size) (.addrSizeMismatch name)
        resolveGo objs graph layout exports fuel table (.expr export_i ed.2.expr)
    let table ← setEntryState table obj_i imp_i (.done value)
    .ok (value, table)
  | fuel + 1, table, .expr export_i e =>
    match e with
    | .null => .error .exprNull
    | .literal v => .ok (v, table)
    | .symbol import_idx => do
      let ed ← getIdx exports export_i
      let entry_nxt ← getIdx2 table ed.2.obj_i import_idx
      lassert (ed.2.addr_size == entry_nxt.addr_size) .addrSizeMismatchExpr
      resolveGo objs graph layout exports fuel table (.imp ed.2.obj_i import_idx)
    | .sect section_idx => do
      let ed ← getIdx exports export_i
      let s ← graph.objSectToSect ed.2.obj_i section_idx
      match s with
      | some sect_i => do
        let ls ← getIdx layout.sects sect_i
        .ok ((ls.start : Int), table)
      | none => .error (.unknownSectionRef ed.2.obj_i section_idx)
    | .unary op e1 => do
      let (v, table) ← resolveGo objs graph layout exports fuel table (.expr export_i e1)
      .ok (op v, table)
    | .binary op lhs rhs => do
      let (lv, table) ← resolveGo objs graph layout exports fuel table (.expr export_i lhs)
      let (rv, table) ← resolveGo objs graph layout exports fuel table (.expr export_i rhs)
      .ok (op lv rv, table)

/-- Source `Resolver::resolve_import` (entry point on one slot). -/
def resolve_import (objs : List Object) (graph : LinkGraph) (layout : LinkLayout)
    (exports : Exports) (fuel : Nat) (table : ResolveTable) (obj_i imp_i : Nat) :
    Except LinkError (Int × ResolveTable) :=
  resolveGo objs graph layout exports fuel table (.imp obj_i imp_i)

/-- Import prepass of `Resolver::solve` for one object: each import is bound
to the index of its export (fatal when the name is exported nowhere) and
marked unresolved. -/
def solveInitObj (exports : Exports) (objName : String) :
    List ObjImport → List ResolveEntry → Except LinkError (List ResolveEntry)
  | [], row => .ok row
  | imp :: rest, row =>
    match exportIndexOf exports imp.name with
    | some export_i =>
        solveInitObj exports objName rest
          (row ++ [{ addr_size := imp.addr_size, state := .unresolved export_i }])
    | none => .error (.symbolNotExported objName imp.name)

/-- Import prepass of `Resolver::solve` over all objects. -/
def solveInit (exports : Exports) : List Object → ResolveTable →
    Except LinkError ResolveTable
  | [], table => .ok table
  | obj :: rest, table => do
    let row ← solveInitObj exports obj.name obj.imports []
    solveInit exports rest (table ++ [row])

/-- Resolution loop of `Resolver::solve` over all (object, slot) pairs in
order. -/
def solveLoop (objs : List Object) (graph : LinkGraph) (layout : LinkLayout)
    (exports : Exports) (fuel : Nat) : List (Nat × Nat) → ResolveTable →
    Except LinkError ResolveTable
  | [], table => .ok table
  | (obj_i, imp_i) :: rest, table => do
    let (_, table) ← resolveGo objs graph layout exports fuel table (.imp obj_i imp_i)
    solveLoop objs graph layout exports fuel rest table

/-- The final collect of `Resolver::solve`: every entry must be `done`. -/
def finishTable (table : ResolveTable) : Except LinkError (List (List SymbolEntry)) :=
  table.mapM (fun row => row.mapM (fun e =>
    match e.state with
    | .done v => Except.ok { addr_size := e.addr_size, value := v : SymbolEntry }
    | _ => Except.error .unreachableState))

/-- Source `Resolver::solve` / `SymbolTable::new` (with the recursion
budget made explicit). -/
def SymbolTable.new (objs : List Object) (graph : LinkGraph) (layout : LinkLayout)
    (fuel : Nat) : Except LinkError SymbolTable := do
  let exports ← build_exports objs
  let table ← solveInit exports objs []
  let pairs := (List.range objs.length).flatMap (fun obj_i =>
    (List.range ((table.getD obj_i []).length)).map (fun imp_i => (obj_i, imp_i)))
  let table ← solveLoop objs graph layout exports fuel pairs table
  let table ← finishTable table
  .ok { table := table }

/-! ## link/emit.rs -/

/-- Rust `i64 → u8` `try_into`. -/
def tryIntoU8 (v : Int) : Option Int := if 0 ≤ v ∧ v ≤ 0xFF then some v else none

/-- Rust `i64 → u16` `try_into`. -/
def tryIntoU16 (v : Int) : Option Int := if 0 ≤ v ∧ v ≤ 0xFFFF then some v else none

/-- Source `U24::try_from` (`matches!(value, 0..=0xFFFFFF)`). -/
def U24.tryFrom (v : Int) : Option Int := if 0 ≤ v ∧ v ≤ 0xFFFFFF then some v else none

/-- Rust `i64 → u32` `try_into`. -/
def tryIntoU32 (v : Int) : Option Int := if 0 ≤ v ∧ v ≤ 0xFFFFFFFF then some v else none

/-- Rust `i64 → i8` `try_into`. -/
def tryIntoI8 (v : Int) : Option Int := if -0x80 ≤ v ∧ v ≤ 0x7F then some v else none

/-- Rust `i64 → i16` `try_into`. -/
def tryIntoI16 (v : Int) : Option Int := if -0x8000 ≤ v ∧ v ≤ 0x7FFF then some v else none

/-- Source `I24::try_from` (`matches!(value, -0x800000..=0x7FFFFF)`). -/
def I24.tryFrom (v : Int) : Option Int :=
  if -0x800000 ≤ v ∧ v ≤ 0x7FFFFF then some v else none

/-- Rust `i64 → i32` `try_into`. -/
def tryIntoI32 (v : Int) : Option Int :=
  if -0x80000000 ≤ v ∧ v ≤ 0x7FFFFFFF then some v else none

/-- Little-endian encoding in `w` bytes (Rust `to_le_bytes`, truncated to 3
bytes for the 24-bit wrappers): byte `i` of the two's-complement value. -/
def leBytes (w : Nat) (v : Int) : List Nat :=
  (List.range w).map (fun i => ((v % (2 ^ (8 * w))).toNat / 256 ^ i) % 256)

/-- Source `EmitAt::emit_at` for a byte slice: copy `data` at the cursor
(fatal when it does not fit) and advance the cursor. -/
def emit_bytes (buf : List Nat) (off : Nat) (data : List Nat) :
    Except LinkError (List Nat × Nat) := do
  lassert (decide (off + data.length ≤ buf.length)) .indexError
  .ok (buf.take off ++ data ++ buf.drop (off + data.length), off + data.length)

/-- Source `emit_fill`. -/
def emit_fill (buf : List Nat) (off : Nat) (len : Nat) (b : Nat) :
    Except LinkError (List Nat × Nat) :=
  emit_bytes buf off (List.replicate len b)

/-- Source `Emitter::eval_expr` (the emitter's expression evaluation over
the fully resolved symbol table). -/
def eval_expr (graph : LinkGraph) (layout : LinkLayout) (sym_table : SymbolTable)
    (obj_i : Nat) : LinkExpr → Except LinkError Int
  | .null => .error .exprNull
  | .literal v => .ok v
  | .symbol import_idx => do
    let e ← sym_table.get obj_i import_idx
    .ok e.value
  | .sect section_idx => do
    let s ← graph.objSectToSect obj_i section_idx
    match s with
    | some sect_i => do
      let ls ← getIdx layout.sects sect_i
      .ok (ls.start : Int)
    | none => .error (.unknownSectionRef obj_i section_idx)
  | .unary op e1 => do
    let v ← eval_expr graph layout sym_table obj_i e1
    .ok (op v)
  | .binary op lhs rhs => do
    let lv ← eval_expr graph layout sym_table obj_i lhs
    let rv ← eval_expr graph layout sym_table obj_i rhs
    .ok (op lv rv)

/-- The `emit_expr!` macro body for one sized expression fragment: range
check via the width's `try_into` (fatal overflow outside the range), then
the value's little-endian bytes at the cursor. -/
def emitExprFrag (tryFrom : Int → Option Int) (w : Nat) (v : Int)
    (buf : List Nat) (off : Nat) : Except LinkError (List Nat × Nat) :=
  match tryFrom v with
  | some v2 => emit_bytes buf off (leBytes w v2)
  | none => .error .exprValueOverflow

/-- One arm of the fragment match of `Emitter::emit_section`. -/
def emitFrag (graph : LinkGraph) (layout : LinkLayout) (sym_table : SymbolTable)
    (obj_i : Nat) (fill_byte : Nat) (frag : SectionFragmentBody)
    (buf : List Nat) (off : Nat) : Except LinkError (List Nat × Nat) :=
  match frag with
  | .literal lit => emit_bytes buf off lit
  | .fill len => emit_fill buf off len fill_byte
  | .exprU8 e => do
    let v ← eval_expr graph layout sym_table obj_i e
    emitExprFrag tryIntoU8 1 v buf off
  | .exprU16 e => do
    let v ← eval_expr graph layout sym_table obj_i e
    emitExprFrag tryIntoU16 2 v buf off
  | .exprU24 e => do
    let v ← eval_expr graph layout sym_table obj_i e
    emitExprFrag U24.tryFrom 3 v buf off
  | .exprU32 e => do
    let v ← eval_expr graph layout sym_table obj_i e
    emitExprFrag tryIntoU32 4 v buf off
  | .exprI8 e => do
    let v ← eval_expr graph layout sym_table obj_i e
    emitExprFrag tryIntoI8 1 v buf off
  | .exprI16 e => do
    let v ← eval_expr graph layout sym_table obj_i e
    emitExprFrag tryIntoI16 2 v buf off
  | .exprI24 e => do
    let v ← eval_expr graph layout sym_table obj_i e
    emitExprFrag I24.tryFrom 3 v buf off
  | .exprI32 e => do
    let v ← eval_expr graph layout sym_table obj_i e
    emitExprFrag tryIntoI32 4 v buf off

/-- Fragment loop of `Emitter::emit_section`. -/
def emitFragLoop (graph : LinkGraph) (layout : LinkLayout) (sym_table : SymbolTable)
    (obj_i : Nat) (fill_byte : Nat) :
    List SectionFragmentBody → List Nat → Nat → Except LinkError (List Nat × Nat)
  | [], buf, off => .ok (buf, off)
  | frag :: rest, buf, off => do
    let p ← emitFrag graph layout sym_table obj_i fill_byte frag buf off
    emitFragLoop graph layout sym_table obj_i fill_byte rest p.1 p.2

/-- Source `Emitter::emit_section`. -/
def emit_section (objs : List Object) (graph : LinkGraph) (layout : LinkLayout)
    (sym_table : SymbolTable) (buf : List Nat) (obj_i obj_sect_i fill_byte : Nat) :
    Except LinkError (List Nat) := do
  let obj ← getIdx objs obj_i
  let obj_sect ← getIdx obj.sections obj_sect_i
  let (buf, _) ←
    emitFragLoop graph layout sym_table obj_i fill_byte obj_sect.fragments buf 0
  .ok buf

/-- Rust `let buf = &mut buf[off..][..len]; f(buf)`: apply `f` to the
sub-slice in place (fatal when the range is out of bounds). -/
def sliceApply (buf : List Nat) (off len : Nat)
    (f : List Nat → Except LinkError (List Nat)) : Except LinkError (List Nat) := do
  lassert (decide (off + len ≤ buf.length)) .indexError
  let sub ← f ((buf.drop off).take len)
  .ok (buf.take off ++ sub ++ buf.drop (off + len))

/-- Section loop of `Emitter::emit_segment`. -/
def emitSectLoop (objs : List Object) (graph : LinkGraph) (layout : LinkLayout)
    (sym_table : SymbolTable) (seg_start : Nat) (fill_byte : Nat) :
    List Nat → List Nat → Except LinkError (List Nat)
  | [], buf => .ok buf
  | sect_i :: rest, buf => do
    let layout_sect ← getIdx layout.sects sect_i
    if layout_sect.output_len == 0 then
      emitSectLoop objs graph layout sym_table seg_start fill_byte rest buf
    else do
      let p ← graph.sectToObjSect sect_i
      let off ← checkedSub layout_sect.start seg_start
      let buf ← sliceApply buf off layout_sect.output_len
        (fun sub => emit_section objs graph layout sym_table sub p.1 p.2 fill_byte)
      emitSectLoop objs graph layout sym_table seg_start fill_byte rest buf

/-- Source `Emitter::emit_segment`. -/
def emit_segment (objs : List Object) (graph : LinkGraph) (layout : LinkLayout)
    (sym_table : SymbolTable) (buf : List Nat) (seg_i : Nat) (fill_byte : Nat) :
    Except LinkError (List Nat) := do
  let layout_seg ← getIdx layout.segs seg_i
  let sect_is ← getIdx graph.seg_to_sects seg_i
  emitSectLoop objs graph layout sym_table layout_seg.start fill_byte sect_is buf

/-- Segment loop of `Emitter::emit_memory`: a segment with a fill-byte
override has its whole range pre-filled with the override, which becomes
the fill byte for its fill-run fragments; otherwise the region's fill byte
(already in place) is used. -/
def emitSegLoop (objs : List Object) (graph : LinkGraph) (layout : LinkLayout)
    (sym_table : SymbolTable) (mem_start : Nat) (mem_fill : Nat) :
    List Nat → List Nat → Except LinkError (List Nat)
  | [], buf => .ok buf
  | seg_i :: rest, buf => do
    let layout_seg ← getIdx layout.segs seg_i
    if layout_seg.output_len == 0 then
      emitSegLoop objs graph layout sym_table mem_start mem_fill rest buf
    else do
      let off ← checkedSub layout_seg.start mem_start
      let buf ← sliceApply buf off layout_seg.output_len (fun sub =>
        match layout_seg.fill_byte with
        | some b =>
          emit_segment objs graph layout sym_table (List.replicate sub.length b) seg_i b
        | none => emit_segment objs graph layout sym_table sub seg_i mem_fill)
      emitSegLoop objs graph layout sym_table mem_start mem_fill rest buf

/-- Source `Emitter::emit_memory`. -/
def emit_memory (objs : List Object) (graph : LinkGraph) (layout : LinkLayout)
    (sym_table : SymbolTable) (buf : List Nat) (mem_i : Nat) :
    Except LinkError (List Nat) := do
  let layout_mem ← getIdx layout.mems mem_i
  let seg_is ← getIdx graph.mem_to_segs mem_i
  emitSegLoop objs graph layout sym_table layout_mem.start layout_mem.fill_byte seg_is buf

/-- Memory-region loop of `Emitter::emit_file`: a region with output is
pre-filled with its fill byte before its segments are emitted into it. -/
def emitMemLoop (objs : List Object) (graph : LinkGraph) (layout : LinkLayout)
    (sym_table : SymbolTable) : List Nat → List Nat → Except LinkError (List Nat)
  | [], buf => .ok buf
  | mem_i :: rest, buf => do
    let layout_mem ← getIdx layout.mems mem_i
    if layout_mem.output_len == 0 then
      emitMemLoop objs graph layout sym_table rest buf
    else do
      let buf ← sliceApply buf layout_mem.file_off layout_mem.output_len (fun sub =>
        emit_memory objs graph layout sym_table
          (List.replicate sub.length layout_mem.fill_byte) mem_i)
      emitMemLoop objs graph layout sym_table rest buf

/-- Source `Emitter::emit_file` / top-level `emit_file`. -/
def emit_file (objs : List Object) (graph : LinkGraph) (layout : LinkLayout)
    (sym_table : SymbolTable) (file_i : Nat) : Except LinkError (List Nat) := do
  let lf ← getIdx layout.files file_i
  let mem_is ← getIdx graph.file_to_mems file_i
  emitMemLoop objs graph layout sym_table mem_is (List.replicate lf.len 0)

/-! ## Concrete instances used by the claim theorems -/

/-- Script of the C2 scenario: one file, one region at 0x8000, a BSS
segment followed by a non-BSS segment with explicit start 0x8004. -/
def c2Script : LinkScript :=
  { outfiles := ["out.bin"]
    mems := [{ name := "MAIN", range := { min := 0x8000, max := 0x80FF },
               filled := false, fill_byte := 0, outfile_i := 0 }]
    segs := [{ name := "ZP", start := .unspecified, bss := true,
               fill_byte := none, mem_i := 0 },
             { name := "CODE", start := .addr 0x8004, bss := false,
               fill_byte := none, mem_i := 0 }] }

/-- Object of the C2 scenario: a BSS section of declared length 4 and a
code section of length 2. -/
def c2Obj : Object :=
  { name := "a.o"
    sections := [{ segment_name := "ZP", len := 4, align := 1, fragments := [] },
                 { segment_name := "CODE", len := 2, align := 1,
                   fragments := [.literal [1, 2]] }]
    imports := []
    exports := [] }

/-- Script of the classification scenarios: one region and one segment
named "SEG". -/
def c7Script : LinkScript :=
  { outfiles := ["out.bin"]
    mems := [{ name := "MAIN", range := { min := 0, max := 0xFF },
               filled := false, fill_byte := 0, outfile_i := 0 }]
    segs := [{ name := "SEG", start := .unspecified, bss := false,
               fill_byte := none, mem_i := 0 }] }

/-- An object with a single fragmentless section of the given declared
segment name and length. -/
def mkObj1 (segName : String) (len : Nat) : Object :=
  { name := "a.o"
    sections := [{ segment_name := segName, len := len, align := 1, fragments := [] }]
    imports := []
    exports := [] }

/-- The export descriptor built for export `e` of object `i` (the value
inserted by `build_exports`). -/
def mkDesc (i : Nat) (e : ObjExport) : ExportDesc :=
  { obj_i := i, addr_size := e.addr_size, expr := e.expr }

/-- Specification-side view of the export scan: the entries contributed by
a list of objects, the first one carrying object index `base`. -/
def entriesFrom : List Object → Nat → Exports
  | [], _ => []
  | o :: rest, i =>
    o.exports.map (fun e => (e.name, mkDesc i e)) ++ entriesFrom rest (i + 1)

/-- Specification-side view: every export entry of every object in scan
order. -/
def allExportEntries (objs : List Object) : Exports := entriesFrom objs 0

/-- Specification-side view: every exported symbol name in scan order. -/
def allExportNames (objs : List Object) : List String :=
  (objs.map (fun o => o.exports.map (fun e => e.name))).join

/-- Object exporting the single symbol `n` (as a literal 0) under the given
object name, used by the order-independence instances. -/
def mkExpObj (objName n : String) : Object :=
  { name := objName
    sections := []
    imports := []
    exports := [{ name := n, addr_size := 1, expr := .literal 0 }] }

/-- Size of an expression tree, weighting a symbol reference 2 (it spawns
one import resolution): the recursion-depth budget one evaluation of the
expression can consume beyond the budget accounted to unresolved slots. -/
def LinkExpr.size : LinkExpr → Nat
  | .null => 1
  | .literal _ => 1
  | .symbol _ => 2
  | .sect _ => 1
  | .unary _ e => e.size + 1
  | .binary _ l r => l.size + r.size + 1

/-- Recursion budget charged to one export index: 1 plus its expression's
size (0 expression when the index is out of range, where resolution aborts
before recursing anyway). -/
def edWeight (exports : Exports) (i : Nat) : Nat :=
  match exports.get? i with
  | some p => 1 + p.2.expr.size
  | none => 1

/-- Recursion budget charged to one resolve-table entry: positive only
while it is still unresolved. -/
def entryWeight (exports : Exports) (e : ResolveEntry) : Nat :=
  match e.state with
  | .unresolved export_i => edWeight exports export_i
  | _ => 0

/-- Total recursion budget charged to a resolve table. -/
def tableWeight (exports : Exports) (t : ResolveTable) : Nat :=
  (t.map (fun row => (row.map (entryWeight exports)).sum)).sum

/-- Recursion budget charged to a pending resolver call. -/
def taskWeight : ResolveTask → Nat
  | .imp _ _ => 1
  | .expr _ e => e.size

/-- Object A of the circular-reference scenario: imports "B", exports "A"
whose value is the imported "B". -/
def c3ObjA : Object :=
  { name := "a.o"
    sections := []
    imports := [{ name := "B", addr_size := 1 }]
    exports := [{ name := "A", addr_size := 1, expr := .symbol 0 }] }

/-- Object B of the circular-reference scenario: imports "A", exports "B"
whose value is the imported "A" — closing the cycle back to object A. -/
def c3ObjB : Object :=
  { name := "b.o"
    sections := []
    imports := [{ name := "A", addr_size := 1 }]
    exports := [{ name := "B", addr_size := 1, expr := .symbol 0 }] }

/-- An empty graph (the circular-reference scenario references no
sections). -/
def emptyGraph : LinkGraph :=
  { file_to_mems := [], mem_to_segs := [], seg_to_sects := [], obj_to_sects := []
    mem_to_file := [], seg_to_mem := [], sect_to_seg := []
    obj_sect_to_sect := [], sect_to_obj_sect := []
    file_names := [], mem_names := [], seg_names := [] }

/-- An empty layout to go with `emptyGraph`. -/
def emptyLayout : LinkLayout :=
  { files := [], mems := [], segs := [], sects := [] }

/-- Output length recorded for global section `i` in a layout table under
construction (0 when absent). -/
def readOut (sects : List (Option LinkLayoutSection)) (i : Nat) : Nat :=
  match sects.get? i with
  | some (some ls) => ls.output_len
  | _ => 0

/-- Script of the overflow scenario: region of capacity 4. -/
def c5Script : LinkScript :=
  { outfiles := ["out.bin"]
    mems := [{ name := "MAIN", range := { min := 0x8000, max := 0x8003 },
               filled := false, fill_byte := 0, outfile_i := 0 }]
    segs := [{ name := "SEG", start := .unspecified, bss := false,
               fill_byte := none, mem_i := 0 }] }

/-- Script of the segment-sum scenario: region of capacity 0x100, one
segment taking two sections. -/
def c5aScript : LinkScript :=
  { outfiles := ["out.bin"]
    mems := [{ name := "MAIN", range := { min := 0x8000, max := 0x80FF },
               filled := false, fill_byte := 0, outfile_i := 0 }]
    segs := [{ name := "SEG", start := .unspecified, bss := false,
               fill_byte := none, mem_i := 0 }] }

/-- An object with two fragmentless sections (lengths 3 and 4) in segment
"SEG". -/
def c5aObj : Object :=
  { name := "a.o"
    sections := [{ segment_name := "SEG", len := 3, align := 1, fragments := [] },
                 { segment_name := "SEG", len := 4, align := 1, fragments := [] }]
    imports := []
    exports := [] }

/-- Layout invariant of one memory region: the recorded region layout at
index `i` matches script region `i` — same range/filled/fill-byte, output
never above the declared capacity, and exactly the capacity when the
region is filled. -/
def MemOk (script : LinkScript) (i : Nat) (lm : LinkLayoutMemory) : Prop :=
  ∃ sm, script.mems.get? i = some sm ∧ lm.output_len ≤ sm.len
    ∧ (lm.filled = true → lm.output_len = sm.len)
    ∧ lm.range = sm.range ∧ lm.filled = sm.filled ∧ lm.fill_byte = sm.fill_byte

/-- The section row of segment `i` in the graph (empty when out of
range). -/
def rowOf (graph : LinkGraph) (i : Nat) : List Nat :=
  (graph.seg_to_sects.get? i).getD []

/-- Byte `k` of a segment's sub-buffer (segment laid out from address
`seg_start`) is covered by the content range of global section `s`. -/
def sectCovers (layout : LinkLayout) (seg_start k : Nat) (s : Nat) : Prop :=
  ∃ ls, layout.sects.get? s = some ls ∧ ls.output_len ≠ 0 ∧
    ls.start - seg_start ≤ k ∧ k < ls.start - seg_start + ls.output_len

/-- Byte `k` of a region's sub-buffer (region starting at address
`mem_start`) falls inside the emitted range of segment `g`. -/
def segCovers (layout : LinkLayout) (mem_start k : Nat) (g : Nat) : Prop :=
  ∃ lseg, layout.segs.get? g = some lseg ∧ lseg.output_len ≠ 0 ∧
    lseg.start - mem_start ≤ k ∧ k < lseg.start - mem_start + lseg.output_len

/-- The file windows of two laid-out memory regions (both with output) do
not overlap. -/
def memWindowsDisjoint (layout : LinkLayout) (m1 m2 : Nat) : Prop :=
  ∀ lm1 lm2, layout.mems.get? m1 = some lm1 → layout.mems.get? m2 = some lm2 →
    lm1.output_len ≠ 0 → lm2.output_len ≠ 0 →
    (lm1.file_off + lm1.output_len ≤ lm2.file_off
      ∨ lm2.file_off + lm2.output_len ≤ lm1.file_off)

/-- Script of the fill-byte scenario: one filled region of capacity 8 with
fill byte 0xEE holding a plain segment and a segment with fill-byte
override 0x77. -/
def c6Script : LinkScript :=
  { outfiles := ["out.bin"]
    mems := [{ name := "MAIN", range := { min := 0, max := 7 },
               filled := true, fill_byte := 0xEE, outfile_i := 0 }]
    segs := [{ name := "SEG1", start := .unspecified, bss := false,
               fill_byte := none, mem_i := 0 },
             { name := "SEG2", start := .unspecified, bss := false,
               fill_byte := some 0x77, mem_i := 0 }] }

/-- Object of the fill-byte scenario: a 2-byte literal section in SEG1 and
a 3-byte section in SEG2 whose fragments cover only its first byte. -/
def c6Obj : Object :=
  { name := "a.o"
    sections := [{ segment_name := "SEG1", len := 2, align := 1,
                   fragments := [.literal [1, 2]] },
                 { segment_name := "SEG2", len := 3, align := 1,
                   fragments := [.literal [9]] }]
    imports := []
    exports := [] }

/-- Strict lexicographic order on (object index, local section index)
pairs: the order in which global section identities are assigned. -/
def lexLt (p q : Nat × Nat) : Prop := p.1 < q.1 ∨ (p.1 = q.1 ∧ p.2 < q.2)

/-- The graph of the C8 witness instance (one object, one mapped
section). -/
def gC8 : LinkGraph :=
  (LinkGraph.new c7Script [mkObj1 "SEG" 4]).toOption.getD emptyGraph

/-- Number of bytes one fragment writes through the emitter's cursor: a
literal writes its bytes, a fill run its length, a sized expression
fragment exactly its declared width. -/
def fragLen : SectionFragmentBody → Nat
  | .literal lit => lit.length
  | .fill len => len
  | .exprU8 _ => 1
  | .exprU16 _ => 2
  | .exprU24 _ => 3
  | .exprU32 _ => 4
  | .exprI8 _ => 1
  | .exprI16 _ => 2
  | .exprI24 _ => 3
  | .exprI32 _ => 4

/-- The expression trees a fragment evaluates (none for literal and fill
fragments). -/
def fragExprs : SectionFragmentBody → List LinkExpr
  | .literal _ => []
  | .fill _ => []
  | .exprU8 e => [e]
  | .exprU16 e => [e]
  | .exprU24 e => [e]
  | .exprU32 e => [e]
  | .exprI8 e => [e]
  | .exprI16 e => [e]
  | .exprI24 e => [e]
  | .exprI32 e => [e]

/-- The fill byte `emit_memory` hands a segment: its own override when
set, the region's fill byte otherwise. -/
def effFill (fb : Option Nat) (memFill : Nat) : Nat := fb.getD memFill

/-- Well-formedness of one laid-out section for emission into a segment
window of `winLen` bytes: the layout row exists, and when the section has
output its window sits inside the segment window, its owner tables are in
range, its fragment lengths sum to its output length, and its expression
fragments never abort on an out-of-range table index. -/
def SectPre (objs : List Object) (graph : LinkGraph) (layout : LinkLayout)
    (st : SymbolTable) (seg_start winLen : Nat) (s : Nat) : Prop :=
  ∃ lsec, layout.sects.get? s = some lsec ∧
    (lsec.output_len ≠ 0 →
      seg_start ≤ lsec.start
      ∧ lsec.start - seg_start + lsec.output_len ≤ winLen
      ∧ ∃ p obj sect, graph.sect_to_obj_sect.get? s = some p
          ∧ objs.get? p.1 = some obj ∧ obj.sections.get? p.2 = some sect
          ∧ (sect.fragments.map fragLen).sum = lsec.output_len
          ∧ ∀ frag, frag ∈ sect.fragments → ∀ e, e ∈ fragExprs frag →
              eval_expr graph layout st p.1 e ≠ .error .indexError)

/-- Well-formedness of one laid-out segment for emission into a region
window of `winLen` bytes: when the segment has output its window sits
inside the region window, its section row exists, every section in it is
well formed for the segment window, and section content windows are
pairwise disjoint. -/
def SegPre (objs : List Object) (graph : LinkGraph) (layout : LinkLayout)
    (st : SymbolTable) (mem_start winLen : Nat) (g : Nat) : Prop :=
  ∃ lseg, layout.segs.get? g = some lseg ∧
    (lseg.output_len ≠ 0 →
      mem_start ≤ lseg.start
      ∧ lseg.start - mem_start + lseg.output_len ≤ winLen
      ∧ ∃ sect_is, graph.seg_to_sects.get? g = some sect_is
          ∧ (∀ s, s ∈ sect_is →
              SectPre objs graph layout st lseg.start lseg.output_len s)
          ∧ List.Pairwise (fun s1 s2 => ∀ k,
              ¬ (sectCovers layout lseg.start k s1
                 ∧ sectCovers layout lseg.start k s2)) sect_is)

/-- Well-formedness of one laid-out memory region for emission into a file
of `fileLen` bytes: when the region has output its file window fits in the
file, its segment row exists, every segment in it is well formed for the
region window, and segment content windows are pairwise disjoint. -/
def MemPre (objs : List Object) (graph : LinkGraph) (layout : LinkLayout)
    (st : SymbolTable) (fileLen : Nat) (m : Nat) : Prop :=
  ∃ lm, layout.mems.get? m = some lm ∧
    (lm.output_len ≠ 0 →
      lm.file_off + lm.output_len ≤ fileLen
      ∧ ∃ seg_is, graph.mem_to_segs.get? m = some seg_is
          ∧ (∀ g, g ∈ seg_is →
              SegPre objs graph layout st lm.start lm.output_len g)
          ∧ List.Pairwise (fun g1 g2 => ∀ k,
              ¬ (segCovers layout lm.start k g1
                 ∧ segCovers layout lm.start k g2)) seg_is)

/-- Well-formedness of the tables reaching `emit_file`: the file row
exists, every region of the file is well formed for the file's length, and
region file windows are pairwise disjoint.  This packages the tiling
preconditions: every emitted window is contained in its parent window and
windows at each level do not overlap, as holds when segments and sections
are placed contiguously in emitted-output order. -/
def EmitPre (objs : List Object) (graph : LinkGraph) (layout : LinkLayout)
    (st : SymbolTable) (file_i : Nat) : Prop :=
  ∃ lf mem_is, layout.files.get? file_i = some lf
    ∧ graph.file_to_mems.get? file_i = some mem_is
    ∧ (∀ m, m ∈ mem_is → MemPre objs graph layout st lf.len m)
    ∧ List.Pairwise (memWindowsDisjoint layout) mem_is

/-- Raw declared byte length of the object section behind global section
`s` (0 when a table reference is out of range). -/
def rawSectLen (objs : List Object) (graph : LinkGraph) (s : Nat) : Nat :=
  match graph.sect_to_obj_sect.get? s with
  | some p =>
    match objs.get? p.1 with
    | some obj =>
      match obj.sections.get? p.2 with
      | some sect => sect.len
      | none => 0
    | none => 0
  | none => 0

/-- Total raw byte length of the sections of segment `g`: how far the
layout's address cursor advances across the segment. -/
def segRawLen (objs : List Object) (graph : LinkGraph) (g : Nat) : Nat :=
  ((rowOf graph g).map (rawSectLen objs graph)).sum

/-- Replay of the layout's address cursor over one region's segments: each
segment's resolved start address equals the cursor at the moment the
segment is reached, the cursor then advancing by the segment's raw length
(as `LinkLayout::new` advances `addr` by each section's raw length). -/
def startsAtCursor (objs : List Object) (graph : LinkGraph)
    (layout : LinkLayout) : List Nat → Nat → Bool
  | [], _ => true
  | g :: rest, cursor =>
    (match layout.segs.get? g with
     | some lseg => lseg.start == cursor
     | none => true)
    && startsAtCursor objs graph layout rest (cursor + segRawLen objs graph g)

/-- Every memory region's segments start exactly at the address cursor, the
cursor starting at the region's start address. -/
def regionsStartAtCursor (objs : List Object) (graph : LinkGraph)
    (layout : LinkLayout) : Bool :=
  (List.range layout.mems.length).all (fun m =>
    match layout.mems.get? m, graph.mem_to_segs.get? m with
    | some lm, some seg_is => startsAtCursor objs graph layout seg_is lm.start
    | _, _ => true)

/-- Every section's fragment byte lengths sum to its raw declared byte
length. -/
def fragSumsMatch (objs : List Object) : Bool :=
  objs.all (fun obj => obj.sections.all (fun sect =>
    (sect.fragments.map fragLen).sum == sect.len))

/-- Script of the emission-bounds scenario: one non-filled region of
capacity 4 holding a BSS segment followed by a data segment, both with
unspecified starts. -/
def c10Script : LinkScript :=
  { outfiles := ["out.bin"]
    mems := [{ name := "MAIN", range := { min := 0, max := 3 },
               filled := false, fill_byte := 0, outfile_i := 0 }]
    segs := [{ name := "BSEG", start := .unspecified, bss := true,
               fill_byte := none, mem_i := 0 },
             { name := "DSEG", start := .unspecified, bss := false,
               fill_byte := none, mem_i := 0 }] }

/-- Object of the emission-bounds scenario: a 4-byte section in the BSS
segment (a fill run of its full length) and a 2-byte literal section in
the data segment. -/
def c10Obj : Object :=
  { name := "c.o"
    sections := [{ segment_name := "BSEG", len := 4, align := 1,
                   fragments := [.fill 4] },
                 { segment_name := "DSEG", len := 2, align := 1,
                   fragments := [.literal [0xAB, 0xCD]] }]
    imports := []
    exports := [] }

/-- Graph of the emission-bounds scenario. -/
def c10Graph : LinkGraph :=
  (LinkGraph.new c10Script [c10Obj]).toOption.getD emptyGraph

/-- Layout of the emission-bounds scenario. -/
def c10Layout : LinkLayout :=
  (LinkLayout.new c10Script [c10Obj] c10Graph).toOption.getD emptyLayout

/-- Symbol table of the emission-bounds scenario (no imports to solve). -/
def c10Sym : SymbolTable :=
  (SymbolTable.new [c10Obj] c10Graph c10Layout 9).toOption.getD { table := [] }

/-- Script of the well-tiled emission scenario: one non-filled region of
capacity 2 with a single data segment. -/
def c10bScript : LinkScript :=
  { outfiles := ["out.bin"]
    mems := [{ name := "MAIN", range := { min := 0, max := 1 },
               filled := false, fill_byte := 0, outfile_i := 0 }]
    segs := [{ name := "S", start := .unspecified, bss := false,
               fill_byte := none, mem_i := 0 }] }

/-- Object of the well-tiled emission scenario: one 2-byte literal
section. -/
def c10bObj : Object :=
  { name := "d.o"
    sections := [{ segment_name := "S", len := 2, align := 1,
                   fragments := [.literal [7, 8]] }]
    imports := []
    exports := [] }

/-- Graph of the well-tiled emission scenario. -/
def c10bGraph : LinkGraph :=
  (LinkGraph.new c10bScript [c10bObj]).toOption.getD emptyGraph

/-- Layout of the well-tiled emission scenario. -/
def c10bLayout : LinkLayout :=
  (LinkLayout.new c10bScript [c10bObj] c10bGraph).toOption.getD emptyLayout

/-- Symbol table of the well-tiled emission scenario. -/
def c10bSym : SymbolTable :=
  (SymbolTable.new [c10bObj] c10bGraph c10bLayout 9).toOption.getD { table := [] }

/-! ## Basic inversion lemmas for the embedded combinators -/

theorem getIdx_eq_ok {α : Type} {l : List α} {i : Nat} {x : α} :
    getIdx l i = .ok x ↔ l.get? i = some x := by
  unfold getIdx
  cases h : l.get? i <;> simp

theorem setIdx_eq_ok {α : Type} {l : List α} {i : Nat} {x : α} {l2 : List α} :
    setIdx l i x = .ok l2 ↔ i < l.length ∧ l2 = l.set i x := by
  unfold setIdx
  by_cases h : i < l.length <;> simp [h, eq_comm]

theorem lassert_eq_ok {c : Bool} {e : LinkError} {u : Unit} :
    lassert c e = .ok u ↔ c = true := by
  unfold lassert
  cases c <;> simp

theorem except_bind_ok {ε α β : Type} {m : Except ε α} {f : α → Except ε β} {b : β}
    (h : (m >>= f) = .ok b) : ∃ a, m = .ok a ∧ f a = .ok b := by
  cases m with
  | ok a => exact ⟨a, rfl, h⟩
  | error e => exact absurd h (by simp [Bind.bind, Except.bind])

theorem except_bind_ok_of {ε α β : Type} {m : Except ε α} {f : α → Except ε β} {a : α}
    (h : m = .ok a) : (m >>= f) = f a := by
  subst h; rfl

theorem getIdx_error {α : Type} {l : List α} {i : Nat} {e : LinkError}
    (h : getIdx l i = .error e) : e = .indexError := by
  unfold getIdx at h
  cases hl : l.get? i <;> rw [hl] at h
  · cases h
    rfl
  · cases h

theorem getIdx2_error {α : Type} {l : List (List α)} {i j : Nat} {e : LinkError}
    (h : getIdx2 l i j = .error e) : e = .indexError := by
  unfold getIdx2 at h
  cases h1 : getIdx l i with
  | ok row =>
    rw [except_bind_ok_of h1] at h
    exact getIdx_error h
  | error e2 =>
    rw [h1] at h
    simp only [Bind.bind, Except.bind] at h
    injection h with h
    subst h
    exact getIdx_error h1

theorem setIdx_error {α : Type} {l : List α} {i : Nat} {x : α} {e : LinkError}
    (h : setIdx l i x = .error e) : e = .indexError := by
  unfold setIdx at h
  by_cases hl : i < l.length <;> simp [hl] at h
  exact h.symm

theorem lassert_error {c : Bool} {e e2 : LinkError}
    (h : lassert c e = .error e2) : e2 = e := by
  unfold lassert at h
  cases c <;> simp at h
  exact h.symm

theorem setEntryState_error {t : ResolveTable} {o i : Nat} {st : ResolveState}
    {e : LinkError} (h : setEntryState t o i st = .error e) : e = .indexError := by
  unfold setEntryState at h
  cases h1 : getIdx t o with
  | error e2 =>
    rw [h1] at h
    simp only [Bind.bind, Except.bind] at h
    injection h with h
    subst h
    exact getIdx_error h1
  | ok row =>
    rw [except_bind_ok_of h1] at h
    cases h2 : getIdx row i with
    | error e2 =>
      rw [h2] at h
      simp only [Bind.bind, Except.bind] at h
      injection h with h
      subst h
      exact getIdx_error h2
    | ok ent =>
      rw [except_bind_ok_of h2] at h
      cases h3 : setIdx row i { ent with state := st } with
      | error e2 =>
        rw [h3] at h
        simp only [Bind.bind, Except.bind] at h
        injection h with h
        subst h
        exact setIdx_error h3
      | ok row2 =>
        rw [except_bind_ok_of h3] at h
        exact setIdx_error h

theorem queryImportName_error {objs : List Object} {o i : Nat} {e : LinkError}
    (h : queryImportName objs o i = .error e) : e = .indexError := by
  unfold queryImportName at h
  cases h1 : getIdx objs o with
  | error e2 =>
    rw [h1] at h
    simp only [Bind.bind, Except.bind] at h
    injection h with h
    subst h
    exact getIdx_error h1
  | ok obj =>
    rw [except_bind_ok_of h1] at h
    cases h2 : getIdx obj.imports i with
    | error e2 =>
      rw [h2] at h
      simp only [Bind.bind, Except.bind] at h
      injection h with h
      subst h
      exact getIdx_error h2
    | ok imp =>
      rw [except_bind_ok_of h2] at h
      simp [pure, Except.pure] at h

theorem objSectToSect_error {g : LinkGraph} {o i : Nat} {e : LinkError}
    (h : g.objSectToSect o i = .error e) : e = .indexError := by
  unfold LinkGraph.objSectToSect at h
  cases h1 : getIdx g.obj_sect_to_sect o with
  | error e2 =>
    rw [h1] at h
    simp only [Bind.bind, Except.bind] at h
    injection h with h
    subst h
    exact getIdx_error h1
  | ok row =>
    rw [except_bind_ok_of h1] at h
    exact getIdx_error h

theorem sum_map_set {α : Type} (f : α → Nat) :
    ∀ (l : List α) (i : Nat) (x a : α), l.get? i = some x →
      ((l.set i a).map f).sum + f x = (l.map f).sum + f a
  | [], i, _, _, h => by simp at h
  | b :: l, 0, x, a, h => by
    simp only [List.get?_cons_zero, Option.some.injEq] at h
    subst h
    simp only [List.set_cons_zero, List.map_cons, List.sum_cons]
    omega
  | b :: l, i + 1, x, a, h => by
    simp only [List.get?_cons_succ] at h
    have ih := sum_map_set f l i x a h
    simp only [List.set_cons_succ, List.map_cons, List.sum_cons]
    omega

theorem LinkExpr.size_pos (e : LinkExpr) : 1 ≤ e.size := by
  cases e <;> simp [LinkExpr.size] <;> omega

theorem getIdx2_ok {α : Type} {l : List (List α)} {i j : Nat} {x : α}
    (h : getIdx2 l i j = .ok x) :
    ∃ row, l.get? i = some row ∧ row.get? j = some x := by
  unfold getIdx2 at h
  cases h1 : getIdx l i with
  | error e =>
    rw [h1] at h
    simp [Bind.bind, Except.bind] at h
  | ok row =>
    rw [except_bind_ok_of h1] at h
    exact ⟨row, getIdx_eq_ok.mp h1, getIdx_eq_ok.mp h⟩

theorem setEntryState_ok {t : ResolveTable} {o i : Nat} {st : ResolveState}
    {e : ResolveEntry} {row : List ResolveEntry}
    (ho : t.get? o = some row) (hi : row.get? i = some e) :
    setEntryState t o i st = .ok (t.set o (row.set i { e with state := st })) := by
  have hlo : o < t.length := by
    by_contra hc
    rw [List.get?_eq_none.mpr (by omega)] at ho
    exact Option.noConfusion ho
  have hli : i < row.length := by
    by_contra hc
    rw [List.get?_eq_none.mpr (by omega)] at hi
    exact Option.noConfusion hi
  unfold setEntryState
  rw [except_bind_ok_of (getIdx_eq_ok.mpr ho)]
  rw [except_bind_ok_of (getIdx_eq_ok.mpr hi)]
  rw [except_bind_ok_of (setIdx_eq_ok.mpr ⟨hli, rfl⟩)]
  exact setIdx_eq_ok.mpr ⟨hlo, rfl⟩

theorem tableWeight_set (exports : Exports) {t : ResolveTable} {o i : Nat}
    {row : List ResolveEntry} {e : ResolveEntry} (st : ResolveState)
    (ho : t.get? o = some row) (hi : row.get? i = some e) :
    tableWeight exports (t.set o (row.set i { e with state := st })) +
      entryWeight exports e =
    tableWeight exports t + entryWeight exports { e with state := st } := by
  unfold tableWeight
  have h1 := sum_map_set (entryWeight exports) row i e { e with state := st } hi
  have h2 := sum_map_set (fun r => (r.map (entryWeight exports)).sum) t o row
    (row.set i { e with state := st }) ho
  simp only at h2
  omega

theorem setEntryState_ok_inv {t : ResolveTable} {o i : Nat} {st : ResolveState}
    {t2 : ResolveTable} (h : setEntryState t o i st = .ok t2) :
    ∃ row e, t.get? o = some row ∧ row.get? i = some e ∧
      t2 = t.set o (row.set i { e with state := st }) := by
  unfold setEntryState at h
  cases h1 : getIdx t o with
  | error e0 => rw [h1] at h; cases h
  | ok row =>
    rw [except_bind_ok_of h1] at h
    cases h2 : getIdx row i with
    | error e0 => rw [h2] at h; cases h
    | ok ent =>
      rw [except_bind_ok_of h2] at h
      cases h3 : setIdx row i { ent with state := st } with
      | error e0 => rw [h3] at h; cases h
      | ok row2 =>
        rw [except_bind_ok_of h3] at h
        obtain ⟨hlt, hr⟩ := setIdx_eq_ok.mp h3
        obtain ⟨hlt2, hr2⟩ := setIdx_eq_ok.mp h
        exact ⟨row, ent, getIdx_eq_ok.mp h1, getIdx_eq_ok.mp h2, by rw [hr2, hr]⟩

theorem setEntryState_weight_le (exports : Exports) {t : ResolveTable} {o i : Nat}
    {st : ResolveState} {t2 : ResolveTable}
    (h : setEntryState t o i st = .ok t2) (hst : entryWeight exports { addr_size := 0, state := st } = 0) :
    tableWeight exports t2 ≤ tableWeight exports t := by
  obtain ⟨row, e, ho, hi, ht2⟩ := setEntryState_ok_inv h
  have := tableWeight_set exports st ho hi
  have hw0 : entryWeight exports { e with state := st } = 0 := by
    cases st <;> simp_all [entryWeight]
  rw [ht2]
  omega

theorem resolveGo_no_fuel_exhaustion (objs : List Object) (graph : LinkGraph)
    (layout : LinkLayout) (exports : Exports) :
    ∀ (fuel : Nat) (table : ResolveTable) (task : ResolveTask),
      tableWeight exports table + taskWeight task ≤ fuel →
      resolveGo objs graph layout exports fuel table task ≠ .error .outOfFuel ∧
      (∀ v t2, resolveGo objs graph layout exports fuel table task = .ok (v, t2) →
        tableWeight exports t2 ≤ tableWeight exports table) := by
  intro fuel
  induction fuel with
  | zero =>
    intro table task hw
    exfalso
    have h1 : 1 ≤ taskWeight task := by
      cases task with
      | imp o i => simp [taskWeight]
      | expr ei e => simpa [taskWeight] using e.size_pos
    omega
  | succ fuel ih =>
    intro table task hw
    cases task with
    | imp obj_i imp_i =>
      simp only [resolveGo]
      cases hq : queryImportName objs obj_i imp_i with
      | error e0 =>
        simp only [hq, Bind.bind, Except.bind]
        have := queryImportName_error hq
        subst this
        exact ⟨(by intro hc; cases hc), (by intro v t2 hc; cases hc)⟩
      | ok name =>
        simp only [hq, Bind.bind, Except.bind]
        cases hE : getIdx2 table obj_i imp_i with
        | error e0 =>
          simp only [hE]
          have := getIdx2_error hE
          subst this
          exact ⟨(by intro hc; cases hc), (by intro v t2 hc; cases hc)⟩
        | ok entry =>
          simp only [hE]
          obtain ⟨row, ho, hi⟩ := getIdx2_ok hE
          cases hst : entry.state with
          | done v =>
            simp only [hst, pure, Except.pure]
            rw [setEntryState_ok ho hi]
            refine ⟨(by intro hc; cases hc), ?_⟩
            intro v2 t2 hok
            injection hok with hok
            injection hok with hv ht
            subst ht
            have hrel := tableWeight_set exports (.done v) ho hi
            have hd0 : entryWeight exports entry = 0 := by
              simp [entryWeight, hst]
            have hd1 : entryWeight exports
                { entry with state := ResolveState.done v } = 0 := by
              simp [entryWeight]
            omega
          | resolving =>
            simp only [hst]
            exact ⟨(by intro hc; cases hc), (by intro v t2 hc; cases hc)⟩
          | unresolved export_i =>
            simp only [hst]
            rw [setEntryState_ok ho hi]
            simp only [Bind.bind, Except.bind]
            cases hx : getIdx exports export_i with
            | error e0 =>
              simp only [hx]
              have := getIdx_error hx
              subst this
              exact ⟨(by intro hc; cases hc), (by intro v t2 hc; cases hc)⟩
            | ok ed =>
              simp only [hx]
              cases hla : lassert (entry.addr_size == ed.2.addr_size)
                  (.addrSizeMismatch name) with
              | error e0 =>
                simp only [hla]
                have := lassert_error hla
                subst this
                exact ⟨(by intro hc; cases hc), (by intro v t2 hc; cases hc)⟩
              | ok u =>
                simp only [hla]
                set t1 := table.set obj_i
                  (row.set imp_i { entry with state := ResolveState.resolving }) with ht1
                have hwrel := tableWeight_set exports .resolving ho hi
                rw [← ht1] at hwrel
                have hew : entryWeight exports entry = edWeight exports export_i := by
                  simp [entryWeight, hst]
                have hed : edWeight exports export_i = 1 + ed.2.expr.size := by
                  unfold edWeight
                  rw [getIdx_eq_ok.mp hx]
                have hres : entryWeight exports
                    { entry with state := ResolveState.resolving } = 0 := by
                  simp [entryWeight]
                have hw1 : tableWeight exports t1 + ed.2.expr.size ≤ fuel := by
                  simp only [taskWeight] at hw
                  omega
                have ihc := ih t1 (.expr export_i ed.2.expr)
                  (by simpa [taskWeight] using hw1)
                cases hr : resolveGo objs graph layout exports fuel t1
                    (.expr export_i ed.2.expr) with
                | error e0 =>
                  simp only [hr]
                  refine ⟨?_, (by intro v t2 hc; cases hc)⟩
                  intro hc
                  injection hc with hc
                  subst hc
                  exact ihc.1 hr
                | ok p =>
                  obtain ⟨v, t2⟩ := p
                  simp only [hr]
                  have hmono : tableWeight exports t2 ≤ tableWeight exports t1 :=
                    ihc.2 v t2 hr
                  cases hs2 : setEntryState t2 obj_i imp_i (.done v) with
                  | error e0 =>
                    simp only [hs2]
                    have := setEntryState_error hs2
                    subst this
                    exact ⟨(by intro hc; cases hc), (by intro v2 t3 hc; cases hc)⟩
                  | ok t3 =>
                    simp only [hs2, pure, Except.pure]
                    refine ⟨(by intro hc; cases hc), ?_⟩
                    intro v2 t4 hok
                    injection hok with hok
                    injection hok with hv ht
                    subst ht
                    have h3 : tableWeight exports t3 ≤ tableWeight exports t2 :=
                      setEntryState_weight_le exports hs2 (by simp [entryWeight])
                    omega
    | expr export_i e =>
      cases e with
      | null =>
        simp only [resolveGo]
        exact ⟨(by intro hc; cases hc), (by intro v t2 hc; cases hc)⟩
      | literal v =>
        simp only [resolveGo]
        refine ⟨(by intro hc; cases hc), ?_⟩
        intro v2 t2 hok
        injection hok with hok
        injection hok with hv ht
        subst ht
        exact le_refl _
      | symbol import_idx =>
        simp only [resolveGo]
        cases hx : getIdx exports export_i with
        | error e0 =>
          simp only [hx, Bind.bind, Except.bind]
          have := getIdx_error hx
          subst this
          exact ⟨(by intro hc; cases hc), (by intro v t2 hc; cases hc)⟩
        | ok ed =>
          simp only [hx, Bind.bind, Except.bind]
          cases hE : getIdx2 table ed.2.obj_i import_idx with
          | error e0 =>
            simp only [hE]
            have := getIdx2_error hE
            subst this
            exact ⟨(by intro hc; cases hc), (by intro v t2 hc; cases hc)⟩
          | ok entry =>
            simp only [hE]
            cases hla : lassert (ed.2.addr_size == entry.addr_size)
                .addrSizeMismatchExpr with
            | error e0 =>
              simp only [hla]
              have := lassert_error hla
              subst this
              exact ⟨(by intro hc; cases hc), (by intro v t2 hc; cases hc)⟩
            | ok u =>
              simp only [hla]
              have ihc := ih table (.imp ed.2.obj_i import_idx)
                (by simp only [taskWeight, LinkExpr.size] at hw ⊢; omega)
              exact ⟨ihc.1, ihc.2⟩
      | sect section_idx =>
        simp only [resolveGo]
        cases hx : getIdx exports export_i with
        | error e0 =>
          simp only [hx, Bind.bind, Except.bind]
          have := getIdx_error hx
          subst this
          exact ⟨(by intro hc; cases hc), (by intro v t2 hc; cases hc)⟩
        | ok ed =>
          simp only [hx, Bind.bind, Except.bind]
          cases hs : graph.objSectToSect ed.2.obj_i section_idx with
          | error e0 =>
            simp only [hs]
            have := objSectToSect_error hs
            subst this
            exact ⟨(by intro hc; cases hc), (by intro v t2 hc; cases hc)⟩
          | ok so =>
            simp only [hs]
            cases so with
            | none =>
              exact ⟨(by intro hc; cases hc), (by intro v t2 hc; cases hc)⟩
            | some sect_i =>
              cases hl : getIdx layout.sects sect_i with
              | error e0 =>
                simp only [hl, Bind.bind, Except.bind]
                have := getIdx_error hl
                subst this
                exact ⟨(by intro hc; cases hc), (by intro v t2 hc; cases hc)⟩
              | ok ls =>
                simp only [hl, Bind.bind, Except.bind]
                refine ⟨(by intro hc; cases hc), ?_⟩
                intro v2 t2 hok
                injection hok with hok
                injection hok with hv ht
                subst ht
                exact le_refl _
      | unary op e1 =>
        simp only [resolveGo]
        have ihc := ih table (.expr export_i e1)
          (by simp only [taskWeight, LinkExpr.size] at hw ⊢; omega)
        cases hr : resolveGo objs graph layout exports fuel table (.expr export_i e1) with
        | error e0 =>
          simp only [hr, Bind.bind, Except.bind]
          refine ⟨?_, (by intro v t2 hc; cases hc)⟩
          intro hc
          injection hc with hc
          subst hc
          exact ihc.1 hr
        | ok p =>
          obtain ⟨v, t2⟩ := p
          simp only [hr, Bind.bind, Except.bind]
          refine ⟨(by intro hc; cases hc), ?_⟩
          intro v2 t3 hok
          injection hok with hok
          injection hok with hv ht
          subst ht
          exact ihc.2 v t2 hr
      | binary op lhs rhs =>
        simp only [resolveGo]
        have hlp := lhs.size_pos
        have hrp := rhs.size_pos
        have ihc := ih table (.expr export_i lhs)
          (by simp only [taskWeight, LinkExpr.size] at hw ⊢; omega)
        cases hr : resolveGo objs graph layout exports fuel table (.expr export_i lhs) with
        | error e0 =>
          simp only [hr, Bind.bind, Except.bind]
          refine ⟨?_, (by intro v t2 hc; cases hc)⟩
          intro hc
          injection hc with hc
          subst hc
          exact ihc.1 hr
        | ok p =>
          obtain ⟨lv, t2⟩ := p
          simp only [hr, Bind.bind, Except.bind]
          have hm1 : tableWeight exports t2 ≤ tableWeight exports table :=
            ihc.2 lv t2 hr
          have ihc2 := ih t2 (.expr export_i rhs)
            (by simp only [taskWeight, LinkExpr.size] at hw ⊢; omega)
          cases hr2 : resolveGo objs graph layout exports fuel t2
              (.expr export_i rhs) with
          | error e0 =>
            simp only [hr2]
            refine ⟨?_, (by intro v t2 hc; cases hc)⟩
            intro hc
            injection hc with hc
            subst hc
            exact ihc2.1 hr2
          | ok p2 =>
            obtain ⟨rv, t3⟩ := p2
            simp only [hr2]
            refine ⟨(by intro hc; cases hc), ?_⟩
            intro v2 t4 hok
            injection hok with hok
            injection hok with hv ht
            subst ht
            exact le_trans (ihc2.2 rv t3 hr2) hm1

theorem layoutSectStep_ok_inv {objs : List Object} {graph : LinkGraph}
    {memName : String} {memCap : Nat} {bss : Bool} {sect_i addr : Nat}
    {lseg : LinkLayoutSegment} {lmem : LinkLayoutMemory}
    {sects : List (Option LinkLayoutSection)}
    {res : Nat × LinkLayoutSegment × LinkLayoutMemory × List (Option LinkLayoutSection)}
    (h : layoutSectStep objs graph memName memCap bss sect_i addr lseg lmem sects =
      .ok res) :
    ∃ p obj obj_sect,
      graph.sectToObjSect sect_i = .ok p ∧
      getIdx objs p.1 = .ok obj ∧
      getIdx obj.sections p.2 = .ok obj_sect ∧
      obj_sect.align = 1 ∧
      sect_i < sects.length ∧
      lmem.output_len + (if bss then 0 else obj_sect.len) ≤ memCap ∧
      res = (addr + obj_sect.len,
        { lseg with output_len := lseg.output_len + (if bss then 0 else obj_sect.len) },
        { lmem with output_len := lmem.output_len + (if bss then 0 else obj_sect.len) },
        sects.set sect_i
          (some { start := addr, output_len := if bss then 0 else obj_sect.len })) := by
  unfold layoutSectStep at h
  obtain ⟨p, hp, h⟩ := except_bind_ok h
  obtain ⟨oi, osi⟩ := p
  simp only at h
  obtain ⟨obj, hobj, h⟩ := except_bind_ok h
  obtain ⟨obj_sect, hos, h⟩ := except_bind_ok h
  obtain ⟨u, hu, h⟩ := except_bind_ok h
  obtain ⟨sects2, hset, h⟩ := except_bind_ok h
  obtain ⟨u2, hu2, h⟩ := except_bind_ok h
  obtain ⟨hlt, hs2⟩ := setIdx_eq_ok.mp hset
  have halign : obj_sect.align = 1 := by
    have := lassert_eq_ok.mp hu
    simpa using this
  have hcap : lmem.output_len + (if bss then 0 else obj_sect.len) ≤ memCap := by
    have := lassert_eq_ok.mp hu2
    simpa using this
  refine ⟨(oi, osi), obj, obj_sect, hp, hobj, hos, halign, hlt, hcap, ?_⟩
  simp only [pure, Except.pure, Except.ok.injEq] at h
  rw [← h, hs2]

theorem layoutSectLoop_spec (objs : List Object) (graph : LinkGraph)
    (memName : String) (memCap : Nat) (bss : Bool) :
    ∀ (sect_is : List Nat) (addr : Nat) (lseg : LinkLayoutSegment)
      (lmem : LinkLayoutMemory) (sects : List (Option LinkLayoutSection))
      (addr' : Nat) (lseg' : LinkLayoutSegment) (lmem' : LinkLayoutMemory)
      (sects' : List (Option LinkLayoutSection)),
      layoutSectLoop objs graph memName memCap bss sect_is addr lseg lmem sects =
        .ok (addr', lseg', lmem', sects') →
      sects'.length = sects.length
      ∧ (∀ i, i ∉ sect_is → sects'.get? i = sects.get? i)
      ∧ (lmem.output_len ≤ memCap → lmem'.output_len ≤ memCap)
      ∧ lmem'.range = lmem.range ∧ lmem'.filled = lmem.filled
      ∧ lmem'.fill_byte = lmem.fill_byte
      ∧ lseg'.start = lseg.start ∧ lseg'.fill_byte = lseg.fill_byte
      ∧ (sect_is.Nodup →
          lseg'.output_len = lseg.output_len + (sect_is.map (readOut sects')).sum
          ∧ lmem'.output_len = lmem.output_len + (sect_is.map (readOut sects')).sum) := by
  intro sect_is
  induction sect_is with
  | nil =>
    intro addr lseg lmem sects addr' lseg' lmem' sects' h
    unfold layoutSectLoop at h
    simp only [Except.ok.injEq, Prod.mk.injEq] at h
    obtain ⟨h1, h2, h3, h4⟩ := h
    subst h1; subst h2; subst h3; subst h4
    simp
  | cons s rest ih =>
    intro addr lseg lmem sects addr' lseg' lmem' sects' h
    unfold layoutSectLoop at h
    obtain ⟨q, hstep, h⟩ := except_bind_ok h
    obtain ⟨addr1, lseg1, lmem1, sects1⟩ := q
    simp only at h
    obtain ⟨p, obj, obj_sect, hp, hobj, hos, halign, hlt, hcap, hres⟩ :=
      layoutSectStep_ok_inv hstep
    simp only [Prod.mk.injEq] at hres
    obtain ⟨ha1, hl1, hm1, hs1⟩ := hres
    have hrec := ih addr1 lseg1 lmem1 sects1 addr' lseg' lmem' sects' h
    obtain ⟨hlen, hframe, hbound, hr1, hr2, hr3, hr4, hr5, hsum⟩ := hrec
    have hlen0 : sects1.length = sects.length := by
      rw [hs1, List.length_set]
    refine ⟨by rw [hlen, hlen0], ?_, ?_, by rw [hr1, hm1], by rw [hr2, hm1],
      by rw [hr3, hm1], by rw [hr4, hl1], by rw [hr5, hl1], ?_⟩
    · intro i hi
      have hi1 : i ∉ rest := fun hc => hi (List.mem_cons_of_mem _ hc)
      have hi2 : i ≠ s := fun hc => hi (hc ▸ List.mem_cons_self _ _)
      rw [hframe i hi1, hs1, List.get?_set_ne _ _ (Ne.symm hi2)]
    · intro _
      apply hbound
      rw [hm1]
      exact hcap
    · intro hnd
      have hnds : s ∉ rest := (List.nodup_cons.mp hnd).1
      have hndr : rest.Nodup := (List.nodup_cons.mp hnd).2
      obtain ⟨hsum1, hsum2⟩ := hsum hndr
      have hread : readOut sects' s = (if bss then 0 else obj_sect.len) := by
        unfold readOut
        rw [hframe s hnds, hs1, List.get?_set_eq_of_lt _ hlt]
      constructor
      · rw [hsum1, hl1]
        simp only [List.map_cons, List.sum_cons, hread]
        omega
      · rw [hsum2, hm1]
        simp only [List.map_cons, List.sum_cons, hread]
        omega

theorem layoutSegLoop_spec (script : LinkScript) (objs : List Object)
    (graph : LinkGraph) (memName : String) (memCap : Nat) :
    ∀ (seg_is : List Nat) (addr : Nat) (lmem : LinkLayoutMemory)
      (segs : List (Option LinkLayoutSegment))
      (sects : List (Option LinkLayoutSection))
      (addr' : Nat) (lmem' : LinkLayoutMemory)
      (segs' : List (Option LinkLayoutSegment))
      (sects' : List (Option LinkLayoutSection)),
      layoutSegLoop script objs graph memName memCap seg_is addr lmem segs sects =
        .ok (addr', lmem', segs', sects') →
      segs'.length = segs.length
      ∧ sects'.length = sects.length
      ∧ (lmem.output_len ≤ memCap → lmem'.output_len ≤ memCap)
      ∧ lmem'.range = lmem.range ∧ lmem'.filled = lmem.filled
      ∧ lmem'.fill_byte = lmem.fill_byte
      ∧ (∀ i, i ∉ seg_is → segs'.get? i = segs.get? i)
      ∧ (∀ j, (∀ i, i ∈ seg_is → j ∉ rowOf graph i) → sects'.get? j = sects.get? j)
      ∧ (seg_is.Nodup → (seg_is.map (rowOf graph)).join.Nodup →
          ∀ i, i ∈ seg_is → ∃ lseg, segs'.get? i = some (some lseg) ∧
            lseg.output_len = ((rowOf graph i).map (readOut sects')).sum) := by
  intro seg_is
  induction seg_is with
  | nil =>
    intro addr lmem segs sects addr' lmem' segs' sects' h
    unfold layoutSegLoop at h
    simp only [Except.ok.injEq, Prod.mk.injEq] at h
    obtain ⟨h1, h2, h3, h4⟩ := h
    subst h1; subst h2; subst h3; subst h4
    simp
  | cons g rest ih =>
    intro addr lmem segs sects addr' lmem' segs' sects' h
    unfold layoutSegLoop at h
    obtain ⟨script_seg, hss, h⟩ := except_bind_ok h
    obtain ⟨addr1, hstart, h⟩ := except_bind_ok h
    obtain ⟨row, hrow, h⟩ := except_bind_ok h
    obtain ⟨q, hloop, h⟩ := except_bind_ok h
    obtain ⟨addr2, lseg1, lmem1, sects1⟩ := q
    simp only at h
    obtain ⟨segs1, hset, h⟩ := except_bind_ok h
    obtain ⟨hglt, hsegs1⟩ := setIdx_eq_ok.mp hset
    have hrowOf : rowOf graph g = row := by
      unfold rowOf
      rw [getIdx_eq_ok.mp hrow]
      rfl
    obtain ⟨hlen1, hframe1, hbound1, hq1, hq2, hq3, _, _, hsum1⟩ :=
      layoutSectLoop_spec objs graph memName memCap script_seg.bss row addr1
        _ lmem sects addr2 lseg1 lmem1 sects1 hloop
    obtain ⟨hlen2, hlen3, hbound2, hw1, hw2, hw3, hframe2, hframe3, hsum2⟩ :=
      ih addr2 lmem1 segs1 sects1 addr' lmem' segs' sects' h
    refine ⟨by rw [hlen2, hsegs1, List.length_set], by rw [hlen3, hlen1], ?_,
      by rw [hw1, hq1], by rw [hw2, hq2], by rw [hw3, hq3], ?_, ?_, ?_⟩
    · intro hb
      exact hbound2 (hbound1 hb)
    · intro i hi
      have hi1 : i ∉ rest := fun hc => hi (List.mem_cons_of_mem _ hc)
      have hi2 : i ≠ g := fun hc => hi (hc ▸ List.mem_cons_self _ _)
      rw [hframe2 i hi1, hsegs1, List.get?_set_ne _ _ (Ne.symm hi2)]
    · intro j hj
      have hj1 : ∀ i, i ∈ rest → j ∉ rowOf graph i :=
        fun i hc => hj i (List.mem_cons_of_mem _ hc)
      have hj2 : j ∉ row := by
        rw [← hrowOf]
        exact hj g (List.mem_cons_self _ _)
      rw [hframe3 j hj1, hframe1 j hj2]
    · intro hnd hjoin
      have hndg : g ∉ rest := (List.nodup_cons.mp hnd).1
      have hndr : rest.Nodup := (List.nodup_cons.mp hnd).2
      simp only [List.map_cons, List.join_cons, List.nodup_append, hrowOf] at hjoin
      obtain ⟨hrownd, hjoinr, hdisj⟩ := hjoin
      intro i hi
      rcases List.mem_cons.mp hi with hig | hir
      · subst hig
        obtain ⟨hseq, hmeq⟩ := hsum1 hrownd
        have hread : ∀ j, j ∈ row → readOut sects' j = readOut sects1 j := by
          intro j hjr
          unfold readOut
          rw [hframe3 j (fun k hk hcontra => hdisj hjr (by
            rw [List.mem_join]
            exact ⟨rowOf graph k, List.mem_map_of_mem _ hk, hcontra⟩))]
        have hgseg : segs'.get? i = some (some lseg1) := by
          rw [hframe2 i hndg, hsegs1, List.get?_set_eq_of_lt _ hglt]
        refine ⟨lseg1, hgseg, ?_⟩
        rw [hrowOf, hseq]
        simp only [Nat.zero_add]
        exact (List.map_congr_left hread).symm ▸ rfl
      · exact hsum2 hndr hjoinr i hir

theorem layoutMemLoop_memOk (script : LinkScript) (objs : List Object)
    (graph : LinkGraph) :
    ∀ (mem_is : List Nat) (file_off : Nat) (mems : List (Option LinkLayoutMemory))
      (segs : List (Option LinkLayoutSegment))
      (sects : List (Option LinkLayoutSection))
      (fo' : Nat) (mems' : List (Option LinkLayoutMemory))
      (segs' : List (Option LinkLayoutSegment))
      (sects' : List (Option LinkLayoutSection)),
      layoutMemLoop script objs graph mem_is file_off mems segs sects =
        .ok (fo', mems', segs', sects') →
      (∀ i lm, mems.get? i = some (some lm) → MemOk script i lm) →
      (∀ i lm, mems'.get? i = some (some lm) → MemOk script i lm) := by
  intro mem_is
  induction mem_is with
  | nil =>
    intro file_off mems segs sects fo' mems' segs' sects' h hP
    unfold layoutMemLoop at h
    simp only [Except.ok.injEq, Prod.mk.injEq] at h
    obtain ⟨h1, h2, h3, h4⟩ := h
    subst h2
    exact hP
  | cons m rest ih =>
    intro file_off mems segs sects fo' mems' segs' sects' h hP
    unfold layoutMemLoop at h
    obtain ⟨script_mem, hsm, h⟩ := except_bind_ok h
    obtain ⟨seg_is, hsegis, h⟩ := except_bind_ok h
    obtain ⟨q, hloop, h⟩ := except_bind_ok h
    obtain ⟨addr2, lmem1, segs1, sects1⟩ := q
    simp only at h
    obtain ⟨mems1, hset, h⟩ := except_bind_ok h
    obtain ⟨hmlt, hmems1⟩ := setIdx_eq_ok.mp hset
    obtain ⟨_, _, hbound, hq1, hq2, hq3, _, _, _⟩ :=
      layoutSegLoop_spec script objs graph script_mem.name script_mem.len
        seg_is script_mem.start _ segs sects addr2 lmem1 segs1 sects1 hloop
    refine ih _ mems1 segs1 sects1 fo' mems' segs' sects' h ?_
    intro i lm hget
    by_cases hieq : i = m
    · subst hieq
      rw [hmems1, List.get?_set_eq_of_lt _ hmlt] at hget
      simp only [Option.some.injEq] at hget
      subst hget
      refine ⟨script_mem, getIdx_eq_ok.mp hsm, ?_⟩
      by_cases hf : lmem1.filled = true
      · rw [if_pos hf]
        exact ⟨Nat.le_refl _, fun _ => rfl, hq1, hq2, hq3⟩
      · rw [if_neg hf]
        exact ⟨hbound (by simp), fun hc => absurd hc hf, hq1, hq2, hq3⟩
    · rw [hmems1, List.get?_set_ne _ _ (fun hc => hieq hc.symm)] at hget
      exact hP i lm hget

theorem layoutFileLoop_memOk (script : LinkScript) (objs : List Object)
    (graph : LinkGraph) :
    ∀ (file_is : List Nat) (files : List (Option LinkLayoutFile))
      (mems : List (Option LinkLayoutMemory))
      (segs : List (Option LinkLayoutSegment))
      (sects : List (Option LinkLayoutSection))
      (files' : List (Option LinkLayoutFile))
      (mems' : List (Option LinkLayoutMemory))
      (segs' : List (Option LinkLayoutSegment))
      (sects' : List (Option LinkLayoutSection)),
      layoutFileLoop script objs graph file_is files mems segs sects =
        .ok (files', mems', segs', sects') →
      (∀ i lm, mems.get? i = some (some lm) → MemOk script i lm) →
      (∀ i lm, mems'.get? i = some (some lm) → MemOk script i lm) := by
  intro file_is
  induction file_is with
  | nil =>
    intro files mems segs sects files' mems' segs' sects' h hP
    unfold layoutFileLoop at h
    simp only [Except.ok.injEq, Prod.mk.injEq] at h
    obtain ⟨h1, h2, h3, h4⟩ := h
    subst h2
    exact hP
  | cons f rest ih =>
    intro files mems segs sects files' mems' segs' sects' h hP
    unfold layoutFileLoop at h
    obtain ⟨mem_is, hmi, h⟩ := except_bind_ok h
    obtain ⟨q, hloop, h⟩ := except_bind_ok h
    obtain ⟨fo1, mems1, segs1, sects1⟩ := q
    simp only at h
    obtain ⟨files1, hfset, h⟩ := except_bind_ok h
    exact ih files1 mems1 segs1 sects1 files' mems' segs' sects' h
      (layoutMemLoop_memOk script objs graph mem_is 0 mems segs sects
        fo1 mems1 segs1 sects1 hloop hP)

theorem unwrapAll_get?_some {α : Type} : ∀ {l : List (Option α)} {l2 : List α},
    unwrapAll l = .ok l2 → ∀ i x, l2.get? i = some x → l.get? i = some (some x) := by
  intro l
  induction l with
  | nil =>
    intro l2 h i x hx
    unfold unwrapAll at h
    simp only [Except.ok.injEq] at h
    subst h
    simp at hx
  | cons o rest ih =>
    intro l2 h i x hx
    cases o with
    | none =>
      unfold unwrapAll at h
      cases h
    | some a =>
      unfold unwrapAll at h
      obtain ⟨r, hr, h⟩ := except_bind_ok h
      simp only [Except.ok.injEq] at h
      subst h
      cases i with
      | zero =>
        simp only [List.get?_cons_zero, Option.some.injEq] at hx
        subst hx
        rfl
      | succ i =>
        simp only [List.get?_cons_succ] at hx ⊢
        exact ih hr i x hx

theorem unwrapAll_length {α : Type} : ∀ {l : List (Option α)} {l2 : List α},
    unwrapAll l = .ok l2 → l2.length = l.length := by
  intro l
  induction l with
  | nil =>
    intro l2 h
    unfold unwrapAll at h
    simp only [Except.ok.injEq] at h
    subst h
    rfl
  | cons o rest ih =>
    intro l2 h
    cases o with
    | none =>
      unfold unwrapAll at h
      cases h
    | some a =>
      unfold unwrapAll at h
      obtain ⟨r, hr, h⟩ := except_bind_ok h
      simp only [Except.ok.injEq] at h
      subst h
      simp [ih hr]

theorem LinkLayout_new_ok_inv {script : LinkScript} {objs : List Object}
    {graph : LinkGraph} {layout : LinkLayout}
    (h : LinkLayout.new script objs graph = .ok layout) :
    ∃ files1 mems1 segs1 sects1,
      layoutFileLoop script objs graph (List.range graph.file_names.length)
        (List.replicate graph.file_names.length none)
        (List.replicate graph.mem_names.length none)
        (List.replicate graph.seg_names.length none)
        (List.replicate graph.sect_count none) = .ok (files1, mems1, segs1, sects1)
      ∧ unwrapAll files1 = .ok layout.files
      ∧ unwrapAll mems1 = .ok layout.mems
      ∧ unwrapAll segs1 = .ok layout.segs
      ∧ unwrapAll sects1 = .ok layout.sects := by
  unfold LinkLayout.new at h
  obtain ⟨q, hloop, h⟩ := except_bind_ok h
  obtain ⟨files1, mems1, segs1, sects1⟩ := q
  simp only at h
  obtain ⟨files2, hf, h⟩ := except_bind_ok h
  obtain ⟨mems2, hm, h⟩ := except_bind_ok h
  obtain ⟨segs2, hs, h⟩ := except_bind_ok h
  obtain ⟨sects2, hx, h⟩ := except_bind_ok h
  simp only [pure, Except.pure, Except.ok.injEq] at h
  subst h
  exact ⟨files1, mems1, segs1, sects1, hloop, hf, hm, hs, hx⟩

theorem LinkLayout_new_memOk {script : LinkScript} {objs : List Object}
    {graph : LinkGraph} {layout : LinkLayout}
    (h : LinkLayout.new script objs graph = .ok layout) :
    ∀ i lm, layout.mems.get? i = some lm → MemOk script i lm := by
  obtain ⟨files1, mems1, segs1, sects1, hloop, hf, hm, hs, hx⟩ :=
    LinkLayout_new_ok_inv h
  intro i lm hget
  have h1 : mems1.get? i = some (some lm) := unwrapAll_get?_some hm i lm hget
  refine layoutFileLoop_memOk script objs graph _ _ _ _ _ _ _ _ _ hloop ?_ i lm h1
  intro j lm2 hget2
  rcases Nat.lt_or_ge j (graph.mem_names.length) with hj | hj
  · rw [List.get?_eq_get (by simpa using hj)] at hget2
    simp [List.get_replicate] at hget2
  · rw [List.get?_eq_none.mpr (by simpa using hj)] at hget2
    cases hget2

theorem set_get_self {α : Type} : ∀ (l : List α) (i : Nat) (x : α),
    l.get? i = some x → l.set i x = l
  | [], _, _, h => by simp at h
  | a :: l, 0, x, h => by
    simp only [List.get?_cons_zero, Option.some.injEq] at h
    subst h
    rfl
  | a :: l, i + 1, x, h => by
    simp only [List.get?_cons_succ] at h
    simp [List.set, set_get_self l i x h]

theorem get?_drop_add {α : Type} : ∀ (l : List α) (n m : Nat),
    (l.drop n).get? m = l.get? (n + m)
  | _, 0, _ => by simp
  | [], n + 1, m => by simp
  | a :: l, n + 1, m => by
    simp only [List.drop_succ_cons, List.get?_cons_succ, Nat.succ_add]
    exact get?_drop_add l n m

theorem splice_length {α : Type} (buf data : List α) (off : Nat)
    (h : off + data.length ≤ buf.length) :
    (buf.take off ++ data ++ buf.drop (off + data.length)).length = buf.length := by
  simp only [List.length_append, List.length_take, List.length_drop]
  omega

theorem splice_get? {α : Type} (buf data : List α) (off k : Nat)
    (h : off + data.length ≤ buf.length) :
    (buf.take off ++ data ++ buf.drop (off + data.length)).get? k =
      if k < off then buf.get? k
      else if k < off + data.length then data.get? (k - off)
      else buf.get? k := by
  have hto : (buf.take off).length = off := by
    simp only [List.length_take]
    omega
  by_cases h1 : k < off
  · rw [if_pos h1, List.append_assoc, List.get?_append (by omega), List.get?_take h1]
  · rw [if_neg h1, List.append_assoc, List.get?_append_right (by omega), hto]
    by_cases h2 : k < off + data.length
    · rw [if_pos h2, List.get?_append (by omega)]
    · rw [if_neg h2, List.get?_append_right (by omega), get?_drop_add]
      congr 1
      omega

theorem emit_bytes_ok_inv {buf data buf' : List Nat} {off off' : Nat}
    (h : emit_bytes buf off data = .ok (buf', off')) :
    off + data.length ≤ buf.length
    ∧ buf' = buf.take off ++ data ++ buf.drop (off + data.length)
    ∧ off' = off + data.length := by
  unfold emit_bytes at h
  obtain ⟨u, hu, h⟩ := except_bind_ok h
  have hb : off + data.length ≤ buf.length := by
    have := lassert_eq_ok.mp hu
    simpa using this
  simp only [pure, Except.pure, Except.ok.injEq, Prod.mk.injEq] at h
  exact ⟨hb, h.1.symm, h.2.symm⟩

theorem emit_bytes_length {buf data buf' : List Nat} {off off' : Nat}
    (h : emit_bytes buf off data = .ok (buf', off')) : buf'.length = buf.length := by
  obtain ⟨hb, h1, _⟩ := emit_bytes_ok_inv h
  rw [h1]
  exact splice_length buf data off hb

theorem emitExprFrag_length {f : Int → Option Int} {w : Nat} {v : Int}
    {buf buf' : List Nat} {off off' : Nat}
    (h : emitExprFrag f w v buf off = .ok (buf', off')) : buf'.length = buf.length := by
  unfold emitExprFrag at h
  cases hf : f v with
  | some v2 =>
    rw [hf] at h
    exact emit_bytes_length h
  | none => rw [hf] at h; cases h

theorem emitFrag_length {graph : LinkGraph} {layout : LinkLayout}
    {st : SymbolTable} {obj_i fb : Nat} {frag : SectionFragmentBody}
    {buf buf' : List Nat} {off off' : Nat}
    (h : emitFrag graph layout st obj_i fb frag buf off = .ok (buf', off')) :
    buf'.length = buf.length := by
  cases frag <;> unfold emitFrag at h
  case literal lit => exact emit_bytes_length h
  case fill len => exact emit_bytes_length h
  all_goals
    obtain ⟨v, hv, h⟩ := except_bind_ok h
  all_goals
    exact emitExprFrag_length h

theorem emitFragLoop_length {graph : LinkGraph} {layout : LinkLayout}
    {st : SymbolTable} {obj_i fb : Nat} :
    ∀ {frags : List SectionFragmentBody} {buf buf' : List Nat} {off off' : Nat},
      emitFragLoop graph layout st obj_i fb frags buf off = .ok (buf', off') →
      buf'.length = buf.length := by
  intro frags
  induction frags with
  | nil =>
    intro buf buf' off off' h
    unfold emitFragLoop at h
    simp only [Except.ok.injEq, Prod.mk.injEq] at h
    rw [← h.1]
  | cons frag rest ih =>
    intro buf buf' off off' h
    unfold emitFragLoop at h
    obtain ⟨p, hstep, h⟩ := except_bind_ok h
    obtain ⟨buf1, off1⟩ := p
    rw [ih h, emitFrag_length hstep]

theorem emit_section_length {objs : List Object} {graph : LinkGraph}
    {layout : LinkLayout} {st : SymbolTable} {buf buf' : List Nat}
    {obj_i obj_sect_i fb : Nat}
    (h : emit_section objs graph layout st buf obj_i obj_sect_i fb = .ok buf') :
    buf'.length = buf.length := by
  unfold emit_section at h
  obtain ⟨obj, hobj, h⟩ := except_bind_ok h
  obtain ⟨obj_sect, hos, h⟩ := except_bind_ok h
  obtain ⟨q, hloop, h⟩ := except_bind_ok h
  obtain ⟨buf1, off1⟩ := q
  simp only [pure, Except.pure, Except.ok.injEq] at h
  rw [← h]
  exact emitFragLoop_length hloop

theorem sliceApply_ok_inv {buf buf' : List Nat} {off len : Nat}
    {f : List Nat → Except LinkError (List Nat)}
    (h : sliceApply buf off len f = .ok buf') :
    off + len ≤ buf.length
    ∧ ∃ sub', f ((buf.drop off).take len) = .ok sub'
      ∧ buf' = buf.take off ++ sub' ++ buf.drop (off + len) := by
  unfold sliceApply at h
  obtain ⟨u, hu, h⟩ := except_bind_ok h
  have hb : off + len ≤ buf.length := by
    have := lassert_eq_ok.mp hu
    simpa using this
  obtain ⟨sub', hsub, h⟩ := except_bind_ok h
  simp only [pure, Except.pure, Except.ok.injEq] at h
  exact ⟨hb, sub', hsub, h.symm⟩

theorem sub_extract_length {α : Type} (buf : List α) (off len : Nat)
    (h : off + len ≤ buf.length) : ((buf.drop off).take len).length = len := by
  simp only [List.length_take, List.length_drop]
  omega

theorem sliceApply_spec {buf buf' : List Nat} {off len : Nat}
    {f : List Nat → Except LinkError (List Nat)}
    (h : sliceApply buf off len f = .ok buf')
    (hf : ∀ sub sub2, sub.length = len → f sub = .ok sub2 →
      sub2.length = sub.length) :
    off + len ≤ buf.length ∧ buf'.length = buf.length
    ∧ (∀ k, k < off ∨ off + len ≤ k → buf'.get? k = buf.get? k)
    ∧ ∃ sub', f ((buf.drop off).take len) = .ok sub' ∧ sub'.length = len ∧
        (∀ j, j < len → buf'.get? (off + j) = sub'.get? j) := by
  obtain ⟨hb, sub', hsub, heq⟩ := sliceApply_ok_inv h
  have hsublen : ((buf.drop off).take len).length = len := sub_extract_length buf off len hb
  have hsub'len : sub'.length = len := by
    rw [hf _ _ hsublen hsub, hsublen]
  have hsplice : off + sub'.length ≤ buf.length := by omega
  subst hsub'len
  refine ⟨hb, ?_, ?_, sub', hsub, rfl, ?_⟩
  · rw [heq]
    exact splice_length buf sub' off hsplice
  · intro k hk
    rw [heq, splice_get? buf sub' off k hsplice]
    rcases hk with hk | hk
    · rw [if_pos hk]
    · rw [if_neg (by omega), if_neg (by omega)]
  · intro j hj
    rw [heq, splice_get? buf sub' off (off + j) hsplice]
    rw [if_neg (by omega), if_pos (by omega)]
    congr 1
    omega

theorem emitSectLoop_spec {objs : List Object} {graph : LinkGraph}
    {layout : LinkLayout} {st : SymbolTable} {seg_start fb : Nat} :
    ∀ {sect_is : List Nat} {buf buf' : List Nat},
      emitSectLoop objs graph layout st seg_start fb sect_is buf = .ok buf' →
      buf'.length = buf.length
      ∧ (∀ k, (∀ s, s ∈ sect_is → ¬ sectCovers layout seg_start k s) →
          buf'.get? k = buf.get? k) := by
  intro sect_is
  induction sect_is with
  | nil =>
    intro buf buf' h
    unfold emitSectLoop at h
    simp only [Except.ok.injEq] at h
    subst h
    exact ⟨rfl, fun k _ => rfl⟩
  | cons s rest ih =>
    intro buf buf' h
    unfold emitSectLoop at h
    obtain ⟨ls, hls, h⟩ := except_bind_ok h
    by_cases hz : (ls.output_len == 0) = true
    · rw [if_pos hz] at h
      obtain ⟨hlen, hframe⟩ := ih h
      exact ⟨hlen, fun k hk =>
        hframe k (fun s2 hs2 => hk s2 (List.mem_cons_of_mem _ hs2))⟩
    · rw [if_neg hz] at h
      obtain ⟨p, hp, h⟩ := except_bind_ok h
      obtain ⟨off, hoff, h⟩ := except_bind_ok h
      obtain ⟨buf1, hsa, h⟩ := except_bind_ok h
      obtain ⟨hlen1, hframe1⟩ := ih h
      have hemit : ∀ sub sub2, sub.length = ls.output_len →
          emit_section objs graph layout st sub p.1 p.2 fb = .ok sub2 →
          sub2.length = sub.length := fun _ _ _ he => emit_section_length he
      obtain ⟨hb, hlenp, houts, _⟩ := sliceApply_spec hsa hemit
      have hoffv : off = ls.start - seg_start := by
        unfold checkedSub at hoff
        by_cases hc : seg_start ≤ ls.start
        · rw [if_pos hc] at hoff
          injection hoff with hoff
          omega
        · rw [if_neg hc] at hoff
          cases hoff
      refine ⟨by rw [hlen1, hlenp], ?_⟩
      intro k hk
      have hkc := hk s (List.mem_cons_self _ _)
      rw [hframe1 k (fun s2 hs2 => hk s2 (List.mem_cons_of_mem _ hs2))]
      apply houts
      by_cases h1 : k < off
      · exact Or.inl h1
      · right
        rw [hoffv]
        by_contra hcon
        exact hkc ⟨ls, getIdx_eq_ok.mp hls, by simpa using hz, by omega, by omega⟩

theorem emit_segment_spec {objs : List Object} {graph : LinkGraph}
    {layout : LinkLayout} {st : SymbolTable} {buf buf' : List Nat}
    {seg_i fb : Nat}
    (h : emit_segment objs graph layout st buf seg_i fb = .ok buf') :
    ∃ lseg sect_is, getIdx layout.segs seg_i = .ok lseg
      ∧ getIdx graph.seg_to_sects seg_i = .ok sect_is
      ∧ buf'.length = buf.length
      ∧ (∀ k, (∀ s, s ∈ sect_is → ¬ sectCovers layout lseg.start k s) →
          buf'.get? k = buf.get? k) := by
  unfold emit_segment at h
  obtain ⟨lseg, hseg, h⟩ := except_bind_ok h
  obtain ⟨sect_is, hsis, h⟩ := except_bind_ok h
  obtain ⟨hlen, hframe⟩ := emitSectLoop_spec h
  exact ⟨lseg, sect_is, hseg, hsis, hlen, hframe⟩

theorem emit_segment_length {objs : List Object} {graph : LinkGraph}
    {layout : LinkLayout} {st : SymbolTable} {buf buf' : List Nat}
    {seg_i fb : Nat}
    (h : emit_segment objs graph layout st buf seg_i fb = .ok buf') :
    buf'.length = buf.length := by
  obtain ⟨_, _, _, _, hlen, _⟩ := emit_segment_spec h
  exact hlen

theorem get?_replicate_lt {α : Type} (b : α) {n j : Nat} (h : j < n) :
    (List.replicate n b).get? j = some b := by
  rw [List.get?_eq_get (by simpa using h)]
  simp [List.get_replicate]

theorem window_get? {α : Type} (buf : List α) (off len j : Nat) (hj : j < len) :
    ((buf.drop off).take len).get? j = buf.get? (off + j) := by
  rw [List.get?_take hj, get?_drop_add]

theorem emitSegLoop_spec {objs : List Object} {graph : LinkGraph}
    {layout : LinkLayout} {st : SymbolTable} {mem_start mem_fill : Nat} :
    ∀ {seg_is : List Nat} {buf buf' : List Nat},
      emitSegLoop objs graph layout st mem_start mem_fill seg_is buf = .ok buf' →
      buf'.length = buf.length
      ∧ (∀ k, (∀ g, g ∈ seg_is → ¬ segCovers layout mem_start k g) →
          buf'.get? k = buf.get? k)
      ∧ (List.Pairwise (fun g1 g2 => ∀ k, ¬ (segCovers layout mem_start k g1 ∧
            segCovers layout mem_start k g2)) seg_is →
         ∀ g, g ∈ seg_is → ∀ lseg, layout.segs.get? g = some lseg →
           lseg.output_len ≠ 0 →
           ∀ k, lseg.start - mem_start ≤ k →
             k < lseg.start - mem_start + lseg.output_len →
           (∀ sect_is, graph.seg_to_sects.get? g = some sect_is →
             ∀ s, s ∈ sect_is →
               ¬ sectCovers layout lseg.start (k - (lseg.start - mem_start)) s) →
           (∀ b, lseg.fill_byte = some b → buf'.get? k = some b)
           ∧ (lseg.fill_byte = none → buf'.get? k = buf.get? k)) := by
  intro seg_is
  induction seg_is with
  | nil =>
    intro buf buf' h
    unfold emitSegLoop at h
    simp only [Except.ok.injEq] at h
    subst h
    exact ⟨rfl, fun k _ => rfl, fun _ g hg => absurd hg (List.not_mem_nil g)⟩
  | cons g2 rest ih =>
    intro buf buf' h
    unfold emitSegLoop at h
    obtain ⟨lseg2, hlseg2, h⟩ := except_bind_ok h
    by_cases hz : (lseg2.output_len == 0) = true
    · rw [if_pos hz] at h
      obtain ⟨hlen, hframe, hval⟩ := ih h
      refine ⟨hlen, ?_, ?_⟩
      · intro k hk
        exact hframe k (fun g hg => hk g (List.mem_cons_of_mem _ hg))
      · intro hpw g hg lseg hget hnz k hk1 hk2 hunc
        rcases List.mem_cons.mp hg with hgg | hgr
        · subst hgg
          rw [getIdx_eq_ok.mp hlseg2] at hget
          injection hget with hget
          subst hget
          exact absurd (by simpa using hz) hnz
        · exact hval (List.pairwise_cons.mp hpw).2
            g hgr lseg hget hnz k hk1 hk2 hunc
    · rw [if_neg hz] at h
      obtain ⟨off, hoff, h⟩ := except_bind_ok h
      obtain ⟨buf1, hsa, h⟩ := except_bind_ok h
      obtain ⟨hlen1, hframe1, hval1⟩ := ih h
      have hoffv : off = lseg2.start - mem_start := by
        unfold checkedSub at hoff
        by_cases hc : mem_start ≤ lseg2.start
        · rw [if_pos hc] at hoff
          injection hoff with hoff
          omega
        · rw [if_neg hc] at hoff
          cases hoff
      have hemit : ∀ (sub sub2 : List Nat), sub.length = lseg2.output_len →
          (match lseg2.fill_byte with
            | some b => emit_segment objs graph layout st
                (List.replicate sub.length b) g2 b
            | none => emit_segment objs graph layout st sub g2 mem_fill) = .ok sub2 →
          sub2.length = sub.length := by
        intro sub sub2 hsl he
        cases hfb : lseg2.fill_byte with
        | some b =>
          rw [hfb] at he
          rw [emit_segment_length he]
          simp
        | none =>
          rw [hfb] at he
          exact emit_segment_length he
      obtain ⟨hb, hlenp, houts, sub', hsub', hsub'len, hins⟩ :=
        sliceApply_spec hsa hemit
      have hnz2 : lseg2.output_len ≠ 0 := by simpa using hz
      have hcov2 : ∀ k, off ≤ k → k < off + lseg2.output_len →
          segCovers layout mem_start k g2 := by
        intro k h1 h2
        exact ⟨lseg2, getIdx_eq_ok.mp hlseg2, hnz2, by omega, by omega⟩
      refine ⟨by rw [hlen1, hlenp], ?_, ?_⟩
      · intro k hk
        rw [hframe1 k (fun g hg => hk g (List.mem_cons_of_mem _ hg))]
        apply houts
        by_cases h1 : k < off
        · exact Or.inl h1
        · right
          by_contra hcon
          exact hk g2 (List.mem_cons_self _ _) (hcov2 k (by omega) (by omega))
      · intro hpw g hg lseg hget hnz k hk1 hk2 hunc
        rcases List.mem_cons.mp hg with hgg | hgr
        · subst hgg
          have hle : lseg = lseg2 := by
            rw [getIdx_eq_ok.mp hlseg2] at hget
            injection hget with h2
            exact h2.symm
          subst hle
          have hkoff1 : off ≤ k := by omega
          have hkoff2 : k < off + lseg.output_len := by omega
          have hkrest : buf'.get? k = buf1.get? k := by
            apply hframe1
            intro g' hg' hcov'
            exact (List.pairwise_cons.mp hpw).1 g' hg' k
              ⟨hcov2 k hkoff1 hkoff2, hcov'⟩
          set j := k - off with hj
          have hkeq : k = off + j := by omega
          have hj2 : j < lseg.output_len := by omega
          have hbuf1 : buf1.get? k = sub'.get? j := by
            rw [hkeq]
            exact hins j hj2
          cases hfb : lseg.fill_byte with
          | some b =>
            refine ⟨?_, by intro hc; cases hc⟩
            intro b2 hb2
            injection hb2 with hb2
            subst hb2
            rw [hfb] at hsub'
            obtain ⟨lseg3, sect_is3, hl3, hs3, _, hframe3⟩ := emit_segment_spec hsub'
            have hl3e : lseg3 = lseg := by
              have := getIdx_eq_ok.mp hl3
              rw [getIdx_eq_ok.mp hlseg2] at this
              injection this with this
              rw [this]
            have hsubrep : sub'.get? j = (List.replicate
                ((buf.drop off).take lseg.output_len).length b).get? j := by
              apply hframe3
              intro s hs
              rw [hl3e]
              have hje : j = k - (lseg.start - mem_start) := by omega
              rw [hje]
              exact hunc sect_is3 (getIdx_eq_ok.mp hs3) s hs
            rw [hkrest, hbuf1, hsubrep, get?_replicate_lt]
            rw [sub_extract_length buf off lseg.output_len hb]
            exact hj2
          | none =>
            refine ⟨(by intro b2 hb2; cases hb2), ?_⟩
            intro _
            rw [hfb] at hsub'
            obtain ⟨lseg3, sect_is3, hl3, hs3, _, hframe3⟩ := emit_segment_spec hsub'
            have hl3e : lseg3 = lseg := by
              have := getIdx_eq_ok.mp hl3
              rw [getIdx_eq_ok.mp hlseg2] at this
              injection this with this
              rw [this]
            have hsubw : sub'.get? j = ((buf.drop off).take lseg.output_len).get? j := by
              apply hframe3
              intro s hs
              rw [hl3e]
              have hje : j = k - (lseg.start - mem_start) := by omega
              rw [hje]
              exact hunc sect_is3 (getIdx_eq_ok.mp hs3) s hs
            rw [hkrest, hbuf1, hsubw, window_get? buf off lseg.output_len j hj2, hkeq]
        · have hcovg : segCovers layout mem_start k g :=
            ⟨lseg, hget, hnz, hk1, hk2⟩
          have hkeep : buf1.get? k = buf.get? k := by
            apply houts
            by_cases h1 : k < off
            · exact Or.inl h1
            · right
              by_contra hcon
              exact (List.pairwise_cons.mp hpw).1 g hgr k
                ⟨hcov2 k (by omega) (by omega), hcovg⟩
          obtain ⟨hv1, hv2⟩ := hval1 (List.pairwise_cons.mp hpw).2
            g hgr lseg hget hnz k hk1 hk2 hunc
          exact ⟨hv1, fun hfb => by rw [hv2 hfb, hkeep]⟩

theorem emit_memory_spec {objs : List Object} {graph : LinkGraph}
    {layout : LinkLayout} {st : SymbolTable} {buf buf' : List Nat} {mem_i : Nat}
    (h : emit_memory objs graph layout st buf mem_i = .ok buf') :
    ∃ layout_mem seg_is, getIdx layout.mems mem_i = .ok layout_mem
      ∧ getIdx graph.mem_to_segs mem_i = .ok seg_is
      ∧ buf'.length = buf.length
      ∧ (∀ k, (∀ g, g ∈ seg_is → ¬ segCovers layout layout_mem.start k g) →
          buf'.get? k = buf.get? k)
      ∧ (List.Pairwise (fun g1 g2 => ∀ k,
            ¬ (segCovers layout layout_mem.start k g1 ∧
               segCovers layout layout_mem.start k g2)) seg_is →
         ∀ g, g ∈ seg_is → ∀ lseg, layout.segs.get? g = some lseg →
           lseg.output_len ≠ 0 →
           ∀ k, lseg.start - layout_mem.start ≤ k →
             k < lseg.start - layout_mem.start + lseg.output_len →
           (∀ sect_is, graph.seg_to_sects.get? g = some sect_is →
             ∀ s, s ∈ sect_is →
               ¬ sectCovers layout lseg.start (k - (lseg.start - layout_mem.start)) s) →
           (∀ b, lseg.fill_byte = some b → buf'.get? k = some b)
           ∧ (lseg.fill_byte = none → buf'.get? k = buf.get? k)) := by
  unfold emit_memory at h
  obtain ⟨layout_mem, hlm, h⟩ := except_bind_ok h
  obtain ⟨seg_is, hsi, h⟩ := except_bind_ok h
  obtain ⟨hlen, hframe, hval⟩ := emitSegLoop_spec h
  exact ⟨layout_mem, seg_is, hlm, hsi, hlen, hframe, hval⟩

theorem emit_memory_length {objs : List Object} {graph : LinkGraph}
    {layout : LinkLayout} {st : SymbolTable} {buf buf' : List Nat} {mem_i : Nat}
    (h : emit_memory objs graph layout st buf mem_i = .ok buf') :
    buf'.length = buf.length := by
  obtain ⟨_, _, _, _, hlen, _⟩ := emit_memory_spec h
  exact hlen

theorem emitMemLoop_spec {objs : List Object} {graph : LinkGraph}
    {layout : LinkLayout} {st : SymbolTable} :
    ∀ {mem_is : List Nat} {buf buf' : List Nat},
      emitMemLoop objs graph layout st mem_is buf = .ok buf' →
      buf'.length = buf.length
      ∧ (∀ k, (∀ m, m ∈ mem_is → ∀ lmem, layout.mems.get? m = some lmem →
          lmem.output_len ≠ 0 →
          ¬ (lmem.file_off ≤ k ∧ k < lmem.file_off + lmem.output_len)) →
          buf'.get? k = buf.get? k)
      ∧ (List.Pairwise (memWindowsDisjoint layout) mem_is →
         ∀ m, m ∈ mem_is → ∀ lmem, layout.mems.get? m = some lmem →
           lmem.output_len ≠ 0 →
           ∃ sub', emit_memory objs graph layout st
               (List.replicate lmem.output_len lmem.fill_byte) m = .ok sub'
             ∧ ∀ j, j < lmem.output_len →
                 buf'.get? (lmem.file_off + j) = sub'.get? j) := by
  intro mem_is
  induction mem_is with
  | nil =>
    intro buf buf' h
    unfold emitMemLoop at h
    simp only [Except.ok.injEq] at h
    subst h
    exact ⟨rfl, fun k _ => rfl, fun _ m hm => absurd hm (List.not_mem_nil m)⟩
  | cons m2 rest ih =>
    intro buf buf' h
    unfold emitMemLoop at h
    obtain ⟨lmem2, hlm2, h⟩ := except_bind_ok h
    by_cases hz : (lmem2.output_len == 0) = true
    · rw [if_pos hz] at h
      obtain ⟨hlen, hframe, hval⟩ := ih h
      refine ⟨hlen, ?_, ?_⟩
      · intro k hk
        exact hframe k (fun m hm => hk m (List.mem_cons_of_mem _ hm))
      · intro hpw m hm lmem hget hnz
        rcases List.mem_cons.mp hm with hmm | hmr
        · subst hmm
          rw [getIdx_eq_ok.mp hlm2] at hget
          injection hget with hget
          subst hget
          exact absurd (by simpa using hz) hnz
        · exact hval (List.pairwise_cons.mp hpw).2 m hmr lmem hget hnz
    · rw [if_neg hz] at h
      obtain ⟨buf1, hsa, h⟩ := except_bind_ok h
      obtain ⟨hlen1, hframe1, hval1⟩ := ih h
      have hemit : ∀ (sub sub2 : List Nat), sub.length = lmem2.output_len →
          emit_memory objs graph layout st
            (List.replicate sub.length lmem2.fill_byte) m2 = .ok sub2 →
          sub2.length = sub.length := by
        intro sub sub2 hsl he
        rw [emit_memory_length he]
        simp
      obtain ⟨hb, hlenp, houts, sub', hsub', hsub'len, hins⟩ :=
        sliceApply_spec hsa hemit
      have hnz2 : lmem2.output_len ≠ 0 := by simpa using hz
      refine ⟨by rw [hlen1, hlenp], ?_, ?_⟩
      · intro k hk
        rw [hframe1 k (fun m hm => hk m (List.mem_cons_of_mem _ hm))]
        apply houts
        by_cases h1 : k < lmem2.file_off
        · exact Or.inl h1
        · right
          by_contra hcon
          exact hk m2 (List.mem_cons_self _ _) lmem2 (getIdx_eq_ok.mp hlm2) hnz2
            (by omega)
      · intro hpw m hm lmem hget hnz
        rcases List.mem_cons.mp hm with hmm | hmr
        · subst hmm
          have hle : lmem = lmem2 := by
            rw [getIdx_eq_ok.mp hlm2] at hget
            injection hget with h2
            exact h2.symm
          subst hle
          have hwin : ((buf.drop lmem.file_off).take lmem.output_len).length =
              lmem.output_len := sub_extract_length _ _ _ hb
          rw [hwin] at hsub'
          refine ⟨sub', hsub', ?_⟩
          intro j hj
          have hrest : buf'.get? (lmem.file_off + j) =
              buf1.get? (lmem.file_off + j) := by
            apply hframe1
            intro m' hm' lmem' hget' hnz'
            intro hcon
            rcases (List.pairwise_cons.mp hpw).1 m' hm' lmem lmem'
              (getIdx_eq_ok.mp hlm2) hget' hnz hnz' with hd | hd
            · omega
            · omega
          rw [hrest]
          exact hins j hj
        · obtain ⟨sub2, hsub2, hv⟩ := hval1 (List.pairwise_cons.mp hpw).2
            m hmr lmem hget hnz
          refine ⟨sub2, hsub2, ?_⟩
          intro j hj
          have hkeep : buf1.get? (lmem.file_off + j) =
              buf.get? (lmem.file_off + j) := by
            apply houts
            rcases (List.pairwise_cons.mp hpw).1 m hmr lmem2 lmem
              (getIdx_eq_ok.mp hlm2) hget hnz2 hnz with hd | hd
            · right
              omega
            · left
              omega
          rw [hv j hj]

theorem buildSectLoop_summary (script : LinkScript) (obj_i : Nat) (objName : String) :
    ∀ (sections : List ObjSection) (k : Nat) (acc : SegObjSectAcc)
      (row : List (Option Nat)) (acc2 : SegObjSectAcc) (row2 : List (Option Nat)),
      buildSectLoop script obj_i objName sections k acc row = .ok (acc2, row2) →
      ∃ new_sto new_row,
        acc2.sect_to_obj_sect = acc.sect_to_obj_sect ++ new_sto
        ∧ row2 = row ++ new_row
        ∧ new_row.length = sections.length
        ∧ acc2.sect_i = acc.sect_i + new_sto.length
        ∧ acc2.obj_sect_to_sect = acc.obj_sect_to_sect
        ∧ (∀ j sct, sections.get? j = some sct →
            (new_row.get? j = some none ↔
              classify_section script objName sct.segment_name sct.is_empty = .ok none))
        ∧ (∀ j s, new_row.get? j = some (some s) →
            acc.sect_i ≤ s ∧ new_sto.get? (s - acc.sect_i) = some (obj_i, k + j))
        ∧ (∀ d p, new_sto.get? d = some p → p.1 = obj_i ∧
            ∃ j, p.2 = k + j ∧ new_row.get? j = some (some (acc.sect_i + d)))
        ∧ List.Pairwise lexLt new_sto
        ∧ (∀ p, p ∈ new_sto → p.1 = obj_i ∧ k ≤ p.2) := by
  intro sections
  induction sections with
  | nil =>
    intro k acc row acc2 row2 h
    unfold buildSectLoop at h
    simp only [Except.ok.injEq, Prod.mk.injEq] at h
    obtain ⟨h1, h2⟩ := h
    subst h1
    subst h2
    refine ⟨[], [], by simp, by simp, rfl, by simp, rfl, ?_, ?_, ?_, by simp, by simp⟩
    · intro j sct hj
      simp at hj
    · intro j s hj
      simp at hj
    · intro d p hd
      simp at hd
  | cons sct rest ih =>
    intro k acc row acc2 row2 h
    unfold buildSectLoop at h
    cases hcl : classify_section script objName sct.segment_name sct.is_empty with
    | error e =>
      rw [hcl] at h
      cases h
    | ok cls =>
      rw [hcl] at h
      simp only [Bind.bind, Except.bind] at h
      cases cls with
      | none =>
        obtain ⟨new_sto, new_row, h1, h2, h3, h4, h5, h6, h7, h8, h9, h10⟩ := ih _ _ _ _ _ h
        refine ⟨new_sto, none :: new_row, h1, (by rw [h2]; simp), (by simp [h3]),
          h4, h5, ?_, ?_, ?_, h9,
          fun p hp => ⟨(h10 p hp).1, by have hx := (h10 p hp).2; omega⟩⟩
        · intro j sct2 hj
          cases j with
          | zero =>
            simp only [List.get?_cons_zero, Option.some.injEq] at hj
            subst hj
            simp [hcl]
          | succ j =>
            simp only [List.get?_cons_succ] at hj ⊢
            exact h6 j sct2 hj
        · intro j s hj
          cases j with
          | zero => simp at hj
          | succ j =>
            simp only [List.get?_cons_succ] at hj
            obtain ⟨ha, hb⟩ := h7 j s hj
            have hkj : k + 1 + j = k + (j + 1) := by omega
            rw [hkj] at hb
            exact ⟨ha, hb⟩
        · intro d p hd
          obtain ⟨hp1, j, hp2, hp3⟩ := h8 d p hd
          exact ⟨hp1, j + 1, by omega, by simpa using hp3⟩
      | some seg_i =>
        obtain ⟨sts, hsts, h⟩ := except_bind_ok h
        obtain ⟨ots, hots, h⟩ := except_bind_ok h
        obtain ⟨new_sto, new_row, h1, h2, h3, h4, h5, h6, h7, h8, h9, h10⟩ :=
          ih _ _ _ _ _ h
        simp only at h1 h4 h5 h6 h7 h8
        refine ⟨(obj_i, k) :: new_sto, some acc.sect_i :: new_row,
          (by rw [h1]; simp), (by rw [h2]; simp),
          (by simp [h3]), (by simp only [List.length_cons]; omega), h5,
          ?_, ?_, ?_, ?_, ?_⟩
        · intro j sct2 hj
          cases j with
          | zero =>
            simp only [List.get?_cons_zero, Option.some.injEq] at hj
            subst hj
            simp [hcl]
          | succ j =>
            simp only [List.get?_cons_succ] at hj ⊢
            exact h6 j sct2 hj
        · intro j s hj
          cases j with
          | zero =>
            simp only [List.get?_cons_zero, Option.some.injEq] at hj
            subst hj
            refine ⟨le_refl _, ?_⟩
            simp
          | succ j =>
            simp only [List.get?_cons_succ] at hj
            obtain ⟨ha, hb⟩ := h7 j s hj
            have hs1 : acc.sect_i ≤ s := by omega
            refine ⟨hs1, ?_⟩
            have hkj : k + 1 + j = k + (j + 1) := by omega
            rw [hkj] at hb
            have hd : s - acc.sect_i = (s - (acc.sect_i + 1)) + 1 := by omega
            rw [hd, List.get?_cons_succ]
            exact hb
        · intro d p hd
          cases d with
          | zero =>
            simp only [List.get?_cons_zero, Option.some.injEq] at hd
            subst hd
            refine ⟨rfl, 0, by omega, ?_⟩
            simp
          | succ d =>
            simp only [List.get?_cons_succ] at hd
            obtain ⟨hp1, j, hp2, hp3⟩ := h8 d p hd
            refine ⟨hp1, j + 1, by omega, ?_⟩
            have hsd : acc.sect_i + 1 + d = acc.sect_i + (d + 1) := by omega
            rw [hsd] at hp3
            simp only [List.get?_cons_succ]
            exact hp3
        · rw [List.pairwise_cons]
          refine ⟨?_, h9⟩
          intro p hp
          obtain ⟨hp1, hp2⟩ := h10 p hp
          right
          exact ⟨hp1.symm, by omega⟩
        · intro p hp
          rcases List.mem_cons.mp hp with hp | hp
          · subst hp
            exact ⟨rfl, le_refl _⟩
          · obtain ⟨hp1, hp2⟩ := h10 p hp
            exact ⟨hp1, by omega⟩

theorem buildObjLoop_summary (script : LinkScript) :
    ∀ (objsRest : List Object) (obj_i : Nat) (acc : SegObjSectAcc)
      (acc2 : SegObjSectAcc),
      buildObjLoop script objsRest obj_i acc = .ok acc2 →
      acc.sect_i = acc.sect_to_obj_sect.length →
      ∃ new_sto new_oss,
        acc2.sect_to_obj_sect = acc.sect_to_obj_sect ++ new_sto
        ∧ acc2.obj_sect_to_sect = acc.obj_sect_to_sect ++ new_oss
        ∧ new_oss.length = objsRest.length
        ∧ acc2.sect_i = acc.sect_i + new_sto.length
        ∧ List.Pairwise lexLt new_sto
        ∧ (∀ p, p ∈ new_sto → obj_i ≤ p.1)
        ∧ (∀ t r, new_oss.get? t = some r → ∃ obj, objsRest.get? t = some obj
            ∧ r.length = obj.sections.length
            ∧ (∀ l sct, obj.sections.get? l = some sct →
                (r.get? l = some none ↔
                  classify_section script obj.name sct.segment_name sct.is_empty =
                    .ok none))
            ∧ (∀ l s, r.get? l = some (some s) →
                acc2.sect_to_obj_sect.get? s = some (obj_i + t, l)))
        ∧ (∀ d p, new_sto.get? d = some p → ∃ t r, p.1 = obj_i + t
            ∧ new_oss.get? t = some r
            ∧ r.get? p.2 = some (some (acc.sect_i + d))) := by
  intro objsRest
  induction objsRest with
  | nil =>
    intro obj_i acc acc2 h hinv
    unfold buildObjLoop at h
    simp only [Except.ok.injEq] at h
    subst h
    refine ⟨[], [], by simp, by simp, rfl, by simp, by simp, by simp, ?_, ?_⟩
    · intro t r ht
      simp at ht
    · intro d p hd
      simp at hd
  | cons obj rest ih =>
    intro obj_i acc acc2 h hinv
    unfold buildObjLoop at h
    obtain ⟨q, hinner, h⟩ := except_bind_ok h
    obtain ⟨acc1, row1⟩ := q
    simp only at h
    obtain ⟨sto_o, rowo, g1, g2, g3, g4, g5, g6, g7, g8, g9, g10⟩ :=
      buildSectLoop_summary script obj_i obj.name obj.sections 0 acc [] acc1 row1
        hinner
    simp only [List.nil_append] at g2
    rw [← g2] at g3 g6 g7 g8
    have hinv2 : acc1.sect_i + 0 =
        (acc1.obj_sect_to_sect ++ [row1]).length * 0 + acc1.sect_to_obj_sect.length := by
      simp [g1, g4, hinv]
    obtain ⟨sto_r, oss_r, f1, f2, f3, f4, f5, f6, f7, f8⟩ :=
      ih (obj_i + 1) { acc1 with obj_sect_to_sect := acc1.obj_sect_to_sect ++ [row1] }
        acc2 h (by simp [g1, g4, hinv])
    simp only at f1 f2 f3 f4
    have hstolen : acc.sect_to_obj_sect.length = acc.sect_i := hinv.symm
    refine ⟨sto_o ++ sto_r, row1 :: oss_r, ?_, ?_, by simp [f3], ?_,
      ?_, ?_, ?_, ?_⟩
    · rw [f1, g1, List.append_assoc]
    · rw [f2, g5, List.append_assoc]
      simp
    · rw [f4, g4]
      simp only [List.length_append]
      omega
    · rw [List.pairwise_append]
      refine ⟨g9, f5, ?_⟩
      intro p hp q hq
      obtain ⟨hp1, _⟩ := g10 p hp
      have hq1 := f6 q hq
      left
      omega
    · intro p hp
      rcases List.mem_append.mp hp with hp | hp
      · obtain ⟨hp1, _⟩ := g10 p hp
        omega
      · have := f6 p hp
        omega
    · intro t r ht
      cases t with
      | zero =>
        simp only [List.get?_cons_zero, Option.some.injEq] at ht
        subst ht
        refine ⟨obj, by simp, g3, ?_, ?_⟩
        · intro l sct hl
          exact g6 l sct hl
        · intro l s hl
          obtain ⟨hs1, hs2⟩ := g7 l s hl
          have hdlt : s - acc.sect_i < sto_o.length := by
            by_contra hc
            rw [List.get?_eq_none.mpr (by omega)] at hs2
            cases hs2
          rw [f1, g1]
          rw [List.append_assoc, List.get?_append_right (by omega), hstolen]
          rw [List.get?_append (by omega)]
          have hz : 0 + l = l := by omega
          rw [hz] at hs2
          simpa using hs2
      | succ t =>
        simp only [List.get?_cons_succ] at ht
        obtain ⟨obj2, ho2, hr2, hcls2, hval2⟩ := f7 t r ht
        refine ⟨obj2, by simpa using ho2, hr2, hcls2, ?_⟩
        intro l s hl
        have := hval2 l s hl
        have he : obj_i + 1 + t = obj_i + (t + 1) := by omega
        rw [he] at this
        exact this
    · intro d p hd
      by_cases hdlt : d < sto_o.length
      · rw [List.get?_append hdlt] at hd
        obtain ⟨hp1, j, hp2, hp3⟩ := g8 d p hd
        refine ⟨0, row1, by omega, rfl, ?_⟩
        have hz : 0 + j = j := by omega
        rw [hp2, hz]
        exact hp3
      · rw [List.get?_append_right (by omega)] at hd
        obtain ⟨t, r, hp1, hp2, hp3⟩ := f8 (d - sto_o.length) p hd
        refine ⟨t + 1, r, by omega, by simpa using hp2, ?_⟩
        have he : acc1.sect_i + (d - sto_o.length) = acc.sect_i + d := by
          rw [g4]
          omega
        rw [he] at hp3
        exact hp3

/-! ## Claim theorems -/

/-- C1: during layout a segment's start policy is resolved against the
region's address cursor exactly as specified: "unspecified" leaves the
cursor unchanged; an explicit start address succeeds with the cursor set to
it when it is ≥ the cursor and is a fatal overlap error otherwise; an
alignment request succeeds (cursor unchanged) exactly when the requested
alignment is 1 and is a fatal unsupported-alignment error otherwise. -/
theorem C1_segment_start_policy (segName : String) (addr a n : Nat) :
    resolveSegStart segName .unspecified addr = .ok addr
    ∧ resolveSegStart segName (.addr a) addr =
        (if addr ≤ a then .ok a else .error (.segOverwrite segName))
    ∧ resolveSegStart segName (.align n) addr =
        (if n = 1 then .ok addr else .error (.segAlignUnsupported segName)) := by
  refine ⟨rfl, rfl, ?_⟩
  by_cases h : n = 1 <;> simp [resolveSegStart, h]

/-- C4: a sized expression fragment is range-checked against its declared
width before emission — a 3-byte unsigned fragment accepts exactly
0..=0xFFFFFF and a 3-byte signed fragment exactly -0x800000..=0x7FFFFF
(anything else is a fatal overflow, never a truncation); a 2-byte unsigned
fragment evaluating to 0x10000 is a fatal overflow; an in-range value is
written little-endian in exactly its declared width (1, 2, 3 or 4 bytes). -/
theorem C4_expr_fragment_width_check (v : Int) (buf : List Nat) (off : Nat)
    (graph : LinkGraph) (layout : LinkLayout) (st : SymbolTable) (obj_i fb : Nat) :
    (emitFragLoop graph layout st obj_i fb [.exprU24 (.literal v)] buf off =
      if 0 ≤ v ∧ v ≤ 0xFFFFFF then emit_bytes buf off (leBytes 3 v)
      else .error .exprValueOverflow)
    ∧ (emitFragLoop graph layout st obj_i fb [.exprI24 (.literal v)] buf off =
      if -0x800000 ≤ v ∧ v ≤ 0x7FFFFF then emit_bytes buf off (leBytes 3 v)
      else .error .exprValueOverflow)
    ∧ (emitFragLoop graph layout st obj_i fb [.exprU16 (.literal 0x10000)] buf off =
      .error .exprValueOverflow)
    ∧ (emitFragLoop graph layout st obj_i fb [.exprU8 (.literal v)] buf off =
      if 0 ≤ v ∧ v ≤ 0xFF then emit_bytes buf off (leBytes 1 v)
      else .error .exprValueOverflow)
    ∧ (emitFragLoop graph layout st obj_i fb [.exprU32 (.literal v)] buf off =
      if 0 ≤ v ∧ v ≤ 0xFFFFFFFF then emit_bytes buf off (leBytes 4 v)
      else .error .exprValueOverflow)
    ∧ (∀ w : Nat, (leBytes w v).length = w)
    ∧ leBytes 3 0x123456 = [0x56, 0x34, 0x12]
    ∧ leBytes 2 (-2) = [0xFE, 0xFF] := by
  have hone : ∀ (m : Except LinkError (List Nat × Nat)),
      (m >>= fun p => emitFragLoop graph layout st obj_i fb [] p.1 p.2) = m := by
    intro m
    cases m with
    | ok p => rfl
    | error e => rfl
  refine ⟨?_, ?_, ?_, ?_, ?_, ?_, by decide, by decide⟩
  · by_cases h : 0 ≤ v ∧ v ≤ 0xFFFFFF
    · rw [if_pos h]
      have he : emitFrag graph layout st obj_i fb (.exprU24 (.literal v)) buf off =
          emit_bytes buf off (leBytes 3 v) := by
        simp [emitFrag, eval_expr, emitExprFrag, U24.tryFrom, h, bind, Except.bind]
      rw [show emitFragLoop graph layout st obj_i fb [.exprU24 (.literal v)] buf off =
        (emitFrag graph layout st obj_i fb (.exprU24 (.literal v)) buf off >>= fun p =>
          emitFragLoop graph layout st obj_i fb [] p.1 p.2) from rfl, he, hone]
    · rw [if_neg h]
      simp [emitFragLoop, emitFrag, eval_expr, emitExprFrag, U24.tryFrom, h,
        bind, Except.bind]
  · by_cases h : -0x800000 ≤ v ∧ v ≤ 0x7FFFFF
    · rw [if_pos h]
      have he : emitFrag graph layout st obj_i fb (.exprI24 (.literal v)) buf off =
          emit_bytes buf off (leBytes 3 v) := by
        simp [emitFrag, eval_expr, emitExprFrag, I24.tryFrom, h, bind, Except.bind]
      rw [show emitFragLoop graph layout st obj_i fb [.exprI24 (.literal v)] buf off =
        (emitFrag graph layout st obj_i fb (.exprI24 (.literal v)) buf off >>= fun p =>
          emitFragLoop graph layout st obj_i fb [] p.1 p.2) from rfl, he, hone]
    · rw [if_neg h]
      simp [emitFragLoop, emitFrag, eval_expr, emitExprFrag, I24.tryFrom, h,
        bind, Except.bind]
  · simp [emitFragLoop, emitFrag, eval_expr, emitExprFrag, tryIntoU16, bind, Except.bind]
  · by_cases h : 0 ≤ v ∧ v ≤ 0xFF
    · rw [if_pos h]
      have he : emitFrag graph layout st obj_i fb (.exprU8 (.literal v)) buf off =
          emit_bytes buf off (leBytes 1 v) := by
        simp [emitFrag, eval_expr, emitExprFrag, tryIntoU8, h, bind, Except.bind]
      rw [show emitFragLoop graph layout st obj_i fb [.exprU8 (.literal v)] buf off =
        (emitFrag graph layout st obj_i fb (.exprU8 (.literal v)) buf off >>= fun p =>
          emitFragLoop graph layout st obj_i fb [] p.1 p.2) from rfl, he, hone]
    · rw [if_neg h]
      simp [emitFragLoop, emitFrag, eval_expr, emitExprFrag, tryIntoU8, h,
        bind, Except.bind]
  · by_cases h : 0 ≤ v ∧ v ≤ 0xFFFFFFFF
    · rw [if_pos h]
      have he : emitFrag graph layout st obj_i fb (.exprU32 (.literal v)) buf off =
          emit_bytes buf off (leBytes 4 v) := by
        simp [emitFrag, eval_expr, emitExprFrag, tryIntoU32, h, bind, Except.bind]
      rw [show emitFragLoop graph layout st obj_i fb [.exprU32 (.literal v)] buf off =
        (emitFrag graph layout st obj_i fb (.exprU32 (.literal v)) buf off >>= fun p =>
          emitFragLoop graph layout st obj_i fb [] p.1 p.2) from rfl, he, hone]
    · rw [if_neg h]
      simp [emitFragLoop, emitFrag, eval_expr, emitExprFrag, tryIntoU32, h,
        bind, Except.bind]
  · intro w
    simp [leBytes]

/-- C2: laying out a section of a BSS segment records output length 0 for
it (and adds nothing to the segment's and region's output accumulators) but
still advances the address cursor by the section's raw declared length;
consequently, in the concrete scenario of a BSS segment holding one section
of declared length 4 at 0x8000 followed by a non-BSS segment with explicit
start address 0x8004, the layout succeeds and the non-BSS section's
absolute start address is 0x8004 = BSS start + 4. -/
theorem C2_bss_reserves_address_space :
    (∀ (objs : List Object) (graph : LinkGraph) (memName : String)
      (memCap sect_i addr : Nat) (lseg : LinkLayoutSegment) (lmem : LinkLayoutMemory)
      (sects : List (Option LinkLayoutSection))
      (res : Nat × LinkLayoutSegment × LinkLayoutMemory × List (Option LinkLayoutSection)),
      layoutSectStep objs graph memName memCap true sect_i addr lseg lmem sects = .ok res →
      ∃ p obj obj_sect,
        graph.sectToObjSect sect_i = .ok p ∧
        getIdx objs p.1 = .ok obj ∧
        getIdx obj.sections p.2 = .ok obj_sect ∧
        res.1 = addr + obj_sect.len ∧
        res.2.2.2 = sects.set sect_i (some { start := addr, output_len := 0 }) ∧
        res.2.1.output_len = lseg.output_len ∧
        res.2.2.1.output_len = lmem.output_len)
    ∧ ((do
        let g ← LinkGraph.new c2Script [c2Obj]
        let l ← LinkLayout.new c2Script [c2Obj] g
        pure l.sects : Except LinkError (List LinkLayoutSection))) =
      .ok [{ start := 0x8000, output_len := 0 }, { start := 0x8004, output_len := 2 }] := by
  constructor
  · intro objs graph memName memCap sect_i addr lseg lmem sects res h
    unfold layoutSectStep at h
    obtain ⟨p, hp, h⟩ := except_bind_ok h
    obtain ⟨oi, osi⟩ := p
    simp only at h
    obtain ⟨obj, hobj, h⟩ := except_bind_ok h
    obtain ⟨obj_sect, hos, h⟩ := except_bind_ok h
    obtain ⟨u, hu, h⟩ := except_bind_ok h
    simp only [if_pos rfl, if_true] at h
    obtain ⟨sects2, hset, h⟩ := except_bind_ok h
    obtain ⟨u2, hu2, h⟩ := except_bind_ok h
    simp only [pure, Except.pure, Except.ok.injEq] at h
    refine ⟨(oi, osi), obj, obj_sect, hp, hobj, hos, ?_, ?_, ?_, ?_⟩ <;>
      rw [← h] <;> simp_all [setIdx_eq_ok]
  · rfl

/-- C7: graph construction classifies every object section by its declared
segment name — a name of the script's segment map is assigned normally
(a fresh global identity is appended to all five tables); a name not in
the script but in the closed six-name assembler-default list is silently
dropped when the section is empty and fatal when non-empty; any other
unknown name is unconditionally fatal, shown concretely for an empty
section (so emptiness does not save a non-default name). -/
theorem C7_section_classification :
    (∀ (script : LinkScript) (obj_i : Nat) (objName : String) (s : ObjSection)
      (rest : List ObjSection) (k : Nat) (acc : SegObjSectAcc) (row : List (Option Nat)),
      (∀ seg_i, segNameToIdx script s.segment_name = some seg_i →
        buildSectLoop script obj_i objName (s :: rest) k acc row =
          ((pushAt acc.seg_to_sects seg_i acc.sect_i) >>= fun sts =>
           (pushAt acc.obj_to_sects obj_i acc.sect_i) >>= fun ots =>
           buildSectLoop script obj_i objName rest (k + 1)
             { seg_to_sects := sts
               obj_to_sects := ots
               sect_to_seg := acc.sect_to_seg ++ [seg_i]
               obj_sect_to_sect := acc.obj_sect_to_sect
               sect_to_obj_sect := acc.sect_to_obj_sect ++ [(obj_i, k)]
               sect_i := acc.sect_i + 1 } (row ++ [some acc.sect_i])))
      ∧ (segNameToIdx script s.segment_name = none →
          PREDEF_SEG_NAMES.contains s.segment_name = true →
          (s.len = 0 →
            buildSectLoop script obj_i objName (s :: rest) k acc row =
              buildSectLoop script obj_i objName rest (k + 1) acc (row ++ [none]))
          ∧ (s.len ≠ 0 →
            buildSectLoop script obj_i objName (s :: rest) k acc row =
              .error (.cannotHandleSegment objName s.segment_name)))
      ∧ (segNameToIdx script s.segment_name = none →
          PREDEF_SEG_NAMES.contains s.segment_name = false →
          buildSectLoop script obj_i objName (s :: rest) k acc row =
            .error (.unknownSegment objName s.segment_name)))
    ∧ (LinkGraph.new c7Script [mkObj1 "CODE" 0]).map (fun g => g.obj_sect_to_sect) =
        .ok [[none]]
    ∧ LinkGraph.new c7Script [mkObj1 "CODE" 4] =
        .error (.cannotHandleSegment "a.o" "CODE")
    ∧ LinkGraph.new c7Script [mkObj1 "FOO" 0] =
        .error (.unknownSegment "a.o" "FOO")
    ∧ (LinkGraph.new c7Script [mkObj1 "SEG" 4]).map
        (fun g => (g.obj_sect_to_sect, g.seg_to_sects, g.sect_to_obj_sect)) =
        .ok ([[some 0]], [[0]], [(0, 0)]) := by
  refine ⟨?_, rfl, rfl, rfl, rfl⟩
  intro script obj_i objName s rest k acc row
  refine ⟨?_, ?_, ?_⟩
  · intro seg_i hseg
    simp only [buildSectLoop, classify_section, hseg, ObjSection.is_empty]
    cases h1 : pushAt acc.seg_to_sects seg_i acc.sect_i <;>
      simp [bind, Except.bind, h1] <;>
      cases h2 : pushAt acc.obj_to_sects obj_i acc.sect_i <;>
      simp [bind, Except.bind, h2]
  · intro hseg hpre
    have hpre2 : s.segment_name ∈ PREDEF_SEG_NAMES := by simpa using hpre
    constructor
    · intro hlen
      simp [buildSectLoop, classify_section, hseg, hpre2, ObjSection.is_empty, hlen,
        bind, Except.bind]
    · intro hlen
      simp only [buildSectLoop, classify_section, hseg, ObjSection.is_empty, bind,
        Except.bind]
      rw [if_pos hpre, if_neg (by simpa using hlen)]
  · intro hseg hpre
    have hpre2 : ¬ s.segment_name ∈ PREDEF_SEG_NAMES := by simpa using hpre
    simp [buildSectLoop, classify_section, hseg, hpre2, bind, Except.bind]

theorem find_key_isSome {n : String} : ∀ {acc : Exports},
    (acc.find? (fun p => p.1 == n)).isSome = true ↔ n ∈ acc.map Prod.fst := by
  intro acc
  induction acc with
  | nil => simp
  | cons p rest ih =>
    simp only [List.find?, List.map_cons, List.mem_cons]
    by_cases h : p.1 = n
    · simp [h]
    · have hb : (p.1 == n) = false := by simpa using h
      simp [hb, ih, Ne.symm h]

theorem buildExportsInner_spec (obj_i : Nat) :
    ∀ (exps : List ObjExport) (acc : Exports),
      ((acc.map Prod.fst ++ exps.map ObjExport.name).Nodup →
        buildExportsInner obj_i exps acc =
          .ok (acc ++ exps.map (fun e => (e.name, mkDesc obj_i e))))
      ∧ (¬ (acc.map Prod.fst ++ exps.map ObjExport.name).Nodup →
        (acc.map Prod.fst).Nodup →
        ∃ n, buildExportsInner obj_i exps acc = .error (.duplicateExport n)) := by
  intro exps
  induction exps with
  | nil =>
    intro acc
    refine ⟨fun _ => by simp [buildExportsInner], fun hnd hacc => ?_⟩
    exact absurd (by simpa using hacc) hnd
  | cons e rest ih =>
    intro acc
    constructor
    · intro hnd
      have hmem : e.name ∉ acc.map Prod.fst := by
        intro hm
        rw [List.nodup_append] at hnd
        exact hnd.2.2 hm (by simp)
      have hfind : (acc.find? (fun p => p.1 == e.name)).isSome = false := by
        rw [Bool.eq_false_iff]
        intro hs
        exact hmem (find_key_isSome.mp hs)
      have hstep : buildExportsInner obj_i (e :: rest) acc =
          buildExportsInner obj_i rest (acc ++ [(e.name, mkDesc obj_i e)]) := by
        simp [buildExportsInner, hfind, mkDesc]
      have hnd2 : ((acc ++ [(e.name, mkDesc obj_i e)]).map Prod.fst ++
          (rest.map ObjExport.name)).Nodup := by
        simpa [List.append_assoc] using hnd
      rw [hstep, (ih _).1 hnd2]
      simp
    · intro hnd hacc
      by_cases hmem : e.name ∈ acc.map Prod.fst
      · have hfind : (acc.find? (fun p => p.1 == e.name)).isSome = true :=
          find_key_isSome.mpr hmem
        exact ⟨e.name, by simp [buildExportsInner, hfind]⟩
      · have hfind : (acc.find? (fun p => p.1 == e.name)).isSome = false := by
          rw [Bool.eq_false_iff]
          intro hs
          exact hmem (find_key_isSome.mp hs)
        have hstep : buildExportsInner obj_i (e :: rest) acc =
            buildExportsInner obj_i rest (acc ++ [(e.name, mkDesc obj_i e)]) := by
          simp [buildExportsInner, hfind, mkDesc]
        have hacc2 : ((acc ++ [(e.name, mkDesc obj_i e)]).map Prod.fst).Nodup := by
          rw [List.map_append, List.nodup_append]
          refine ⟨hacc, by simp, ?_⟩
          intro a ha hb
          simp only [List.map_cons, List.map_nil, List.mem_cons,
            List.not_mem_nil, or_false] at hb
          subst hb
          exact hmem ha
        have hnd2 : ¬ ((acc ++ [(e.name, mkDesc obj_i e)]).map Prod.fst ++
            (rest.map ObjExport.name)).Nodup := by
          intro hc
          exact hnd (by simpa [List.append_assoc] using hc)
        obtain ⟨n, hn⟩ := (ih _).2 hnd2 hacc2
        exact ⟨n, by rw [hstep]; exact hn⟩

theorem entriesFrom_keys : ∀ (objs : List Object) (base : Nat),
    (entriesFrom objs base).map Prod.fst =
      (objs.map (fun o => o.exports.map (fun e => e.name))).join
  | [], _ => by simp [entriesFrom]
  | o :: rest, base => by
    simp [entriesFrom, entriesFrom_keys rest (base + 1), Function.comp]

theorem buildExportsLoop_spec :
    ∀ (objs : List Object) (obj_i : Nat) (acc : Exports),
      ((acc.map Prod.fst ++ allExportNames objs).Nodup →
        buildExportsLoop objs obj_i acc = .ok (acc ++ entriesFrom objs obj_i))
      ∧ (¬ (acc.map Prod.fst ++ allExportNames objs).Nodup →
        (acc.map Prod.fst).Nodup →
        ∃ n, buildExportsLoop objs obj_i acc = .error (.duplicateExport n)) := by
  intro objs
  induction objs with
  | nil =>
    intro obj_i acc
    refine ⟨fun _ => by simp [buildExportsLoop, entriesFrom, allExportNames],
      fun hnd hacc => ?_⟩
    exact absurd (by simpa [allExportNames] using hacc) hnd
  | cons o rest ih =>
    intro obj_i acc
    have hnames : allExportNames (o :: rest) =
        o.exports.map ObjExport.name ++ allExportNames rest := by
      simp [allExportNames]
    constructor
    · intro hnd
      have hnd1 : (acc.map Prod.fst ++ o.exports.map ObjExport.name).Nodup := by
        rw [hnames, ← List.append_assoc] at hnd
        exact (List.nodup_append.mp hnd).1
      have heq := (buildExportsInner_spec obj_i o.exports acc).1 hnd1
      simp only [buildExportsLoop, heq, bind, Except.bind]
      have hnd2 : (((acc ++ o.exports.map (fun e => (e.name, mkDesc obj_i e))).map Prod.fst)
          ++ allExportNames rest).Nodup := by
        rw [hnames] at hnd
        simpa [List.append_assoc, Function.comp] using hnd
      rw [(ih (obj_i + 1) _).1 hnd2]
      simp [entriesFrom]
    · intro hnd hacc
      by_cases hnd1 : (acc.map Prod.fst ++ o.exports.map ObjExport.name).Nodup
      · have heq := (buildExportsInner_spec obj_i o.exports acc).1 hnd1
        simp only [buildExportsLoop, heq, bind, Except.bind]
        have hacc2 : ((acc ++ o.exports.map (fun e => (e.name, mkDesc obj_i e))).map
            Prod.fst).Nodup := by
          simpa [Function.comp] using hnd1
        have hnd2 : ¬ (((acc ++ o.exports.map (fun e => (e.name, mkDesc obj_i e))).map Prod.fst)
            ++ allExportNames rest).Nodup := by
          intro hc
          apply hnd
          rw [hnames, ← List.append_assoc]
          simpa [List.append_assoc, Function.comp] using hc
        obtain ⟨n, hn⟩ := (ih (obj_i + 1) _).2 hnd2 hacc2
        exact ⟨n, by simp [hn]⟩
      · obtain ⟨n, hn⟩ := (buildExportsInner_spec obj_i o.exports acc).2 hnd1 hacc
        exact ⟨n, by simp [buildExportsLoop, hn, bind, Except.bind]⟩

/-- C9: building the global export table succeeds, inserting every export
keyed by its symbol name in scan order, exactly when all exported names
(across all objects, including within one object) are distinct; any
duplicate name makes it fail fatally with a duplicate-export error, and —
shown on two single-export objects — the failure is the same whichever of
the two objects is scanned first. -/
theorem C9_duplicate_exports :
    (∀ objs : List Object,
      ((allExportNames objs).Nodup →
        build_exports objs = .ok (allExportEntries objs))
      ∧ (¬ (allExportNames objs).Nodup →
        ∃ n, build_exports objs = .error (.duplicateExport n)))
    ∧ build_exports [mkExpObj "a.o" "X", mkExpObj "b.o" "X"] =
        .error (.duplicateExport "X")
    ∧ build_exports [mkExpObj "b.o" "X", mkExpObj "a.o" "X"] =
        .error (.duplicateExport "X") := by
  refine ⟨fun objs => ⟨fun hnd => ?_, fun hnd => ?_⟩, rfl, rfl⟩
  · have h := (buildExportsLoop_spec objs 0 []).1 (by simpa using hnd)
    simpa [build_exports, allExportEntries] using h
  · obtain ⟨n, hn⟩ := (buildExportsLoop_spec objs 0 []).2 (by simpa using hnd)
      (by simp)
    exact ⟨n, by simpa [build_exports] using hn⟩

/-- C3: import resolution is a memoized depth-first evaluation over the
Done/Resolving/Unresolved state machine — a Done slot returns its cached
value with the resolve table unchanged (so its export expression is never
re-evaluated); re-entering a slot currently marked Resolving fails fatally
with a circular-reference error; the recursion never exhausts a budget of
(total weight of unresolved slots) + (current task weight), so resolution
of bounded-depth cycles terminates rather than looping; and the concrete
two-object cycle A imports B, B's export chains back to A's import fails
with the circular-reference error. -/
theorem C3_resolver_memoization_and_cycles :
    (∀ (objs : List Object) (graph : LinkGraph) (layout : LinkLayout)
      (exports : Exports) (fuel : Nat) (table : ResolveTable) (obj_i imp_i : Nat)
      (name : String) (entry : ResolveEntry),
      queryImportName objs obj_i imp_i = .ok name →
      getIdx2 table obj_i imp_i = .ok entry →
      (∀ v, entry.state = .done v →
        resolve_import objs graph layout exports (fuel + 1) table obj_i imp_i =
          .ok (v, table))
      ∧ (entry.state = .resolving →
        resolve_import objs graph layout exports (fuel + 1) table obj_i imp_i =
          .error (.circularReference name)))
    ∧ (∀ (objs : List Object) (graph : LinkGraph) (layout : LinkLayout)
        (exports : Exports) (fuel : Nat) (table : ResolveTable) (task : ResolveTask),
        tableWeight exports table + taskWeight task ≤ fuel →
        resolveGo objs graph layout exports fuel table task ≠ .error .outOfFuel)
    ∧ SymbolTable.new [c3ObjA, c3ObjB] emptyGraph emptyLayout 10 =
        .error (.circularReference "B") := by
  refine ⟨?_, ?_, rfl⟩
  · intro objs graph layout exports fuel table obj_i imp_i name entry hq hE
    obtain ⟨row, ho, hi⟩ := getIdx2_ok hE
    constructor
    · intro v hst
      have hentry : ({ entry with state := ResolveState.done v } : ResolveEntry)
          = entry := by
        cases entry
        simp_all
      simp only [resolve_import, resolveGo, hq, Bind.bind, Except.bind, hE, hst,
        pure, Except.pure]
      rw [setEntryState_ok ho hi, hentry, set_get_self row imp_i entry hi,
        set_get_self table obj_i row ho]
    · intro hst
      simp only [resolve_import, resolveGo, hq, Bind.bind, Except.bind, hE, hst]
  · intro objs graph layout exports fuel table task hwt
    exact (resolveGo_no_fuel_exhaustion objs graph layout exports fuel table
      task hwt).1

/-- C5: in every successfully computed layout each memory region's output
never exceeds its declared capacity; within a region (with each section
assigned to a single segment) every laid-out segment's output length is
the sum of the output lengths recorded for the sections assigned to it;
and a section whose addition would exceed the region capacity makes layout
fail fatally with the overflow error at that very section.  Concretely, a
segment of sections with lengths 3 and 4 gets output length 7, and a
5-byte section in a 4-byte region fails with the overflow error. -/
theorem C5_segment_sums_and_region_capacity :
    (∀ (script : LinkScript) (objs : List Object) (graph : LinkGraph)
      (layout : LinkLayout),
      LinkLayout.new script objs graph = .ok layout →
      ∀ i lm, layout.mems.get? i = some lm →
        ∃ sm, script.mems.get? i = some sm ∧ lm.output_len ≤ sm.len)
    ∧ (∀ (script : LinkScript) (objs : List Object) (graph : LinkGraph)
        (memName : String) (memCap : Nat) (seg_is : List Nat) (addr : Nat)
        (lmem : LinkLayoutMemory) (segs : List (Option LinkLayoutSegment))
        (sects : List (Option LinkLayoutSection)) (addr' : Nat)
        (lmem' : LinkLayoutMemory) (segs' : List (Option LinkLayoutSegment))
        (sects' : List (Option LinkLayoutSection)),
        layoutSegLoop script objs graph memName memCap seg_is addr lmem segs sects =
          .ok (addr', lmem', segs', sects') →
        seg_is.Nodup → (seg_is.map (rowOf graph)).join.Nodup →
        ∀ i, i ∈ seg_is → ∃ lseg, segs'.get? i = some (some lseg) ∧
          lseg.output_len = ((rowOf graph i).map (readOut sects')).sum)
    ∧ (∀ (objs : List Object) (graph : LinkGraph) (memName : String)
        (memCap : Nat) (bss : Bool) (sect_i addr : Nat)
        (lseg : LinkLayoutSegment) (lmem : LinkLayoutMemory)
        (sects : List (Option LinkLayoutSection)) (p : Nat × Nat) (obj : Object)
        (obj_sect : ObjSection),
        graph.sectToObjSect sect_i = .ok p →
        getIdx objs p.1 = .ok obj →
        getIdx obj.sections p.2 = .ok obj_sect →
        obj_sect.align = 1 →
        sect_i < sects.length →
        ¬ (lmem.output_len + (if bss then 0 else obj_sect.len) ≤ memCap) →
        layoutSectStep objs graph memName memCap bss sect_i addr lseg lmem sects =
          .error (.memOverflow memName))
    ∧ ((do
        let g ← LinkGraph.new c5aScript [c5aObj]
        let l ← LinkLayout.new c5aScript [c5aObj] g
        pure (l.segs.map LinkLayoutSegment.output_len,
          l.sects.map LinkLayoutSection.output_len)
        : Except LinkError (List Nat × List Nat))) = .ok ([7], [3, 4])
    ∧ ((do
        let g ← LinkGraph.new c5Script [mkObj1 "SEG" 5]
        let l ← LinkLayout.new c5Script [mkObj1 "SEG" 5] g
        pure l.segs : Except LinkError (List LinkLayoutSegment))) =
      .error (.memOverflow "MAIN") := by
  refine ⟨?_, ?_, ?_, rfl, rfl⟩
  · intro script objs graph layout h i lm hget
    obtain ⟨sm, hsm, hle, _⟩ := LinkLayout_new_memOk h i lm hget
    exact ⟨sm, hsm, hle⟩
  · intro script objs graph memName memCap seg_is addr lmem segs sects addr'
      lmem' segs' sects' h hnd hjoin
    exact (layoutSegLoop_spec script objs graph memName memCap seg_is addr lmem
      segs sects addr' lmem' segs' sects' h).2.2.2.2.2.2.2.2 hnd hjoin
  · intro objs graph memName memCap bss sect_i addr lseg lmem sects p obj
      obj_sect hp hobj hos halign hlt hcap
    unfold layoutSectStep
    rw [except_bind_ok_of hp]
    obtain ⟨oi, osi⟩ := p
    simp only
    rw [except_bind_ok_of hobj, except_bind_ok_of hos]
    have hla : lassert (obj_sect.align == 1) (.sectAlignUnsupported obj.name) =
        .ok () := lassert_eq_ok.mpr (by simpa using halign)
    rw [except_bind_ok_of hla]
    rw [except_bind_ok_of (setIdx_eq_ok.mpr ⟨hlt, rfl⟩)]
    have hla2 : lassert
        (decide (lmem.output_len + (if bss then 0 else obj_sect.len) ≤ memCap))
        (.memOverflow memName) = .error (.memOverflow memName) := by
      unfold lassert
      rw [if_neg (by simpa using hcap)]
    simp only at hla2
    rw [hla2]
    rfl

/-- C6: a region marked "filled" always gets output length equal to its
full declared capacity; and in the emitted file buffer (with regions'
file windows disjoint and segments within the region non-overlapping, as
holds for layouts of the forward pass), every byte of a region's emitted
window not covered by any segment equals the region's fill byte, and a
byte inside a segment but not covered by any of its sections' content
equals the segment's fill-byte override when one is set and the region's
fill byte otherwise.  The concrete scenario checks the emitted bytes of a
filled region with one plain and one override segment. -/
theorem C6_filled_regions_and_fill_bytes :
    (∀ (script : LinkScript) (objs : List Object) (graph : LinkGraph)
      (layout : LinkLayout),
      LinkLayout.new script objs graph = .ok layout →
      ∀ i lm, layout.mems.get? i = some lm → lm.filled = true →
        ∃ sm, script.mems.get? i = some sm ∧ lm.output_len = sm.len)
    ∧ (∀ (objs : List Object) (graph : LinkGraph) (layout : LinkLayout)
        (st : SymbolTable) (file_i : Nat) (buf' : List Nat) (mem_is : List Nat),
        emit_file objs graph layout st file_i = .ok buf' →
        getIdx graph.file_to_mems file_i = .ok mem_is →
        List.Pairwise (memWindowsDisjoint layout) mem_is →
        ∀ m, m ∈ mem_is → ∀ lmem, layout.mems.get? m = some lmem →
          lmem.output_len ≠ 0 →
          ∀ seg_is, graph.mem_to_segs.get? m = some seg_is →
          List.Pairwise (fun g1 g2 => ∀ k,
            ¬ (segCovers layout lmem.start k g1 ∧
               segCovers layout lmem.start k g2)) seg_is →
          ∀ j, j < lmem.output_len →
          ((∀ g, g ∈ seg_is → ¬ segCovers layout lmem.start j g) →
            buf'.get? (lmem.file_off + j) = some lmem.fill_byte)
          ∧ (∀ g, g ∈ seg_is → ∀ lseg, layout.segs.get? g = some lseg →
              lseg.output_len ≠ 0 →
              lseg.start - lmem.start ≤ j →
              j < lseg.start - lmem.start + lseg.output_len →
              (∀ sect_is, graph.seg_to_sects.get? g = some sect_is →
                ∀ s, s ∈ sect_is →
                  ¬ sectCovers layout lseg.start (j - (lseg.start - lmem.start)) s) →
              (∀ b, lseg.fill_byte = some b →
                buf'.get? (lmem.file_off + j) = some b)
              ∧ (lseg.fill_byte = none →
                buf'.get? (lmem.file_off + j) = some lmem.fill_byte)))
    ∧ ((do
        let g ← LinkGraph.new c6Script [c6Obj]
        let l ← LinkLayout.new c6Script [c6Obj] g
        let st ← SymbolTable.new [c6Obj] g l 10
        emit_file [c6Obj] g l st 0 : Except LinkError (List Nat))) =
      .ok [1, 2, 9, 0x77, 0x77, 0xEE, 0xEE, 0xEE] := by
  refine ⟨?_, ?_, rfl⟩
  · intro script objs graph layout h i lm hget hf
    obtain ⟨sm, hsm, _, hfe, _⟩ := LinkLayout_new_memOk h i lm hget
    exact ⟨sm, hsm, hfe hf⟩
  · intro objs graph layout st file_i buf' mem_is h hmi hpwm m hm lmem hget hnz
      seg_is hsi hpws j hj
    unfold emit_file at h
    obtain ⟨lf, hlf, h⟩ := except_bind_ok h
    obtain ⟨mem_is2, hmi2, h⟩ := except_bind_ok h
    have hmie : mem_is2 = mem_is := by
      rw [hmi] at hmi2
      injection hmi2 with h2
      exact h2.symm
    subst hmie
    obtain ⟨_, _, hval⟩ := emitMemLoop_spec h
    obtain ⟨sub', hsub', hwin⟩ := hval hpwm m hm lmem hget hnz
    obtain ⟨lmem3, seg_is3, hlm3, hsi3, _, hframe3, hval3⟩ := emit_memory_spec hsub'
    have hlme : lmem3 = lmem := by
      have := getIdx_eq_ok.mp hlm3
      rw [hget] at this
      injection this with h2
      exact h2.symm
    subst hlme
    have hsie : seg_is3 = seg_is := by
      have := getIdx_eq_ok.mp hsi3
      rw [hsi] at this
      injection this with h2
      exact h2.symm
    subst hsie
    constructor
    · intro hunc
      rw [hwin j hj, hframe3 j hunc, get?_replicate_lt _ hj]
    · intro g hg lseg hlseg hlnz hj1 hj2 hsunc
      obtain ⟨hov, hnov⟩ := hval3 hpws g hg lseg hlseg hlnz j hj1 hj2 hsunc
      refine ⟨?_, ?_⟩
      · intro b hb
        rw [hwin j hj, hov b hb]
      · intro hb
        rw [hwin j hj, hnov hb, get?_replicate_lt _ hj]

theorem LinkGraph_new_ok_inv {script : LinkScript} {objs : List Object}
    {g : LinkGraph} (h : LinkGraph.new script objs = .ok g) :
    ∃ acc, build_seg_obj_sect script objs = .ok acc
      ∧ g.sect_to_obj_sect = acc.sect_to_obj_sect
      ∧ g.obj_sect_to_sect = acc.obj_sect_to_sect := by
  unfold LinkGraph.new at h
  obtain ⟨fm, hfm, h⟩ := except_bind_ok h
  obtain ⟨fm1, fm2⟩ := fm
  simp only at h
  obtain ⟨ms, hms, h⟩ := except_bind_ok h
  obtain ⟨ms1, ms2⟩ := ms
  simp only at h
  obtain ⟨acc, hacc, h⟩ := except_bind_ok h
  simp only [Except.ok.injEq] at h
  subst h
  exact ⟨acc, hacc, rfl, rfl⟩

/-- C8: the global section identities assigned by graph construction are
exactly the positions of the `sect_to_obj_sect` table (contiguous from 0),
and that table is strictly sorted in the lexicographic order (object input
order first, local declaration order second); the two lookup tables are
mutually inverse on mapped sections — the owner recorded for identity `s`
points back to `s`, and every mapped local section's identity points back
to its owner — and a local section's entry is `none` exactly when
classification silently dropped it (an empty section whose default-named
segment is not in the script). -/
theorem C8_section_identity_tables :
    ∀ (script : LinkScript) (objs : List Object) (g : LinkGraph),
      LinkGraph.new script objs = .ok g →
      List.Pairwise lexLt g.sect_to_obj_sect
      ∧ g.obj_sect_to_sect.length = objs.length
      ∧ (∀ s p, g.sect_to_obj_sect.get? s = some p →
          ∃ row, g.obj_sect_to_sect.get? p.1 = some row
            ∧ row.get? p.2 = some (some s))
      ∧ (∀ o row, g.obj_sect_to_sect.get? o = some row →
          ∃ obj, objs.get? o = some obj ∧ row.length = obj.sections.length
          ∧ (∀ l s, row.get? l = some (some s) →
              g.sect_to_obj_sect.get? s = some (o, l))
          ∧ (∀ l sct, obj.sections.get? l = some sct →
              (row.get? l = some none ↔
                classify_section script obj.name sct.segment_name sct.is_empty =
                  .ok none))) := by
  intro script objs g h
  obtain ⟨acc, hacc, hg1, hg2⟩ := LinkGraph_new_ok_inv h
  unfold build_seg_obj_sect at hacc
  obtain ⟨new_sto, new_oss, f1, f2, f3, f4, f5, f6, f7, f8⟩ :=
    buildObjLoop_summary script objs 0 _ acc hacc rfl
  simp only [List.nil_append] at f1 f2
  refine ⟨by rw [hg1, f1]; exact f5, by rw [hg2, f2, f3], ?_, ?_⟩
  · intro s p hs
    rw [hg1, f1] at hs
    obtain ⟨t, r, hp1, hp2, hp3⟩ := f8 s p hs
    refine ⟨r, ?_, ?_⟩
    · rw [hg2, f2, hp1]
      simpa using hp2
    · simpa using hp3
  · intro o row ho
    rw [hg2, f2] at ho
    obtain ⟨obj, hobj, hlen, hcls, hval⟩ := f7 o row ho
    refine ⟨obj, hobj, hlen, ?_, hcls⟩
    intro l s hl
    have := hval l s hl
    rw [hg1]
    simpa using this

/-- Witness for C8 at a concrete one-object instance. -/
theorem C8_section_identity_tables_witness :
    List.Pairwise lexLt gC8.sect_to_obj_sect
    ∧ gC8.obj_sect_to_sect.length = 1
    ∧ (∀ s p, gC8.sect_to_obj_sect.get? s = some p →
        ∃ row, gC8.obj_sect_to_sect.get? p.1 = some row
          ∧ row.get? p.2 = some (some s))
    ∧ (∀ o row, gC8.obj_sect_to_sect.get? o = some row →
        ∃ obj, [mkObj1 "SEG" 4].get? o = some obj
        ∧ row.length = obj.sections.length
        ∧ (∀ l s, row.get? l = some (some s) →
            gC8.sect_to_obj_sect.get? s = some (o, l))
        ∧ (∀ l sct, obj.sections.get? l = some sct →
            (row.get? l = some none ↔
              classify_section c7Script obj.name sct.segment_name sct.is_empty =
                .ok none))) :=
  C8_section_identity_tables c7Script [mkObj1 "SEG" 4] gC8 rfl

theorem except_bind_error {ε α β : Type} {m : Except ε α} {f : α → Except ε β}
    {e : ε} (h : (m >>= f) = .error e) :
    m = .error e ∨ ∃ a, m = .ok a ∧ f a = .error e := by
  cases m with
  | ok a => exact Or.inr ⟨a, rfl, h⟩
  | error e2 =>
    left
    have h2 : e2 = e := by injection h
    rw [h2]

theorem except_bind_error_of {ε α β : Type} {m : Except ε α} {f : α → Except ε β}
    {e : ε} (h : m = .error e) : (m >>= f) = .error e := by
  subst h
  rfl

theorem leBytes_length (w : Nat) (v : Int) : (leBytes w v).length = w := by
  simp [leBytes]

theorem emit_bytes_ok_of_le {buf data : List Nat} {off : Nat}
    (h : off + data.length ≤ buf.length) :
    emit_bytes buf off data =
      .ok (buf.take off ++ data ++ buf.drop (off + data.length),
           off + data.length) := by
  have hl : lassert (decide (off + data.length ≤ buf.length))
      LinkError.indexError = .ok () := lassert_eq_ok.mpr (by simpa using h)
  unfold emit_bytes
  rw [except_bind_ok_of hl]

theorem emitExprFrag_safe {tf : Int → Option Int} {w : Nat} {v : Int}
    {buf : List Nat} {off : Nat} (hb : off + w ≤ buf.length) :
    emitExprFrag tf w v buf off ≠ .error .indexError
    ∧ ∀ buf' off', emitExprFrag tf w v buf off = .ok (buf', off') →
        buf'.length = buf.length ∧ off' = off + w := by
  cases htf : tf v with
  | some v2 =>
    have hlen : (leBytes w v2).length = w := leBytes_length w v2
    have hok := @emit_bytes_ok_of_le buf (leBytes w v2) off (by rw [hlen]; exact hb)
    have hform : emitExprFrag tf w v buf off = emit_bytes buf off (leBytes w v2) := by
      unfold emitExprFrag
      rw [htf]
    rw [hform, hok]
    constructor
    · intro hc
      cases hc
    · intro buf' off' h
      simp only [Except.ok.injEq, Prod.mk.injEq] at h
      obtain ⟨h1, h2⟩ := h
      subst h1
      subst h2
      constructor
      · rw [splice_length buf (leBytes w v2) off (by rw [hlen]; omega)]
      · rw [hlen]
  | none =>
    have hform : emitExprFrag tf w v buf off = .error .exprValueOverflow := by
      unfold emitExprFrag
      rw [htf]
    rw [hform]
    constructor
    · intro hc
      injection hc with hc
      exact LinkError.noConfusion hc
    · intro buf' off' h
      cases h

theorem emitFrag_safe {graph : LinkGraph} {layout : LinkLayout} {st : SymbolTable}
    {o fb : Nat} {frag : SectionFragmentBody} {buf : List Nat} {off : Nat}
    (hb : off + fragLen frag ≤ buf.length)
    (he : ∀ e, e ∈ fragExprs frag →
      eval_expr graph layout st o e ≠ .error .indexError) :
    emitFrag graph layout st o fb frag buf off ≠ .error .indexError
    ∧ ∀ buf' off', emitFrag graph layout st o fb frag buf off = .ok (buf', off') →
        buf'.length = buf.length ∧ off' = off + fragLen frag := by
  cases frag
  case literal lit =>
    simp only [fragLen] at hb
    have hok := emit_bytes_ok_of_le hb
    constructor
    · intro hc
      have hc2 : emit_bytes buf off lit = .error .indexError := hc
      rw [hok] at hc2
      cases hc2
    · intro buf' off' h
      have h2 : emit_bytes buf off lit = .ok (buf', off') := h
      rw [hok] at h2
      simp only [Except.ok.injEq, Prod.mk.injEq] at h2
      obtain ⟨h3, h4⟩ := h2
      subst h3
      subst h4
      exact ⟨splice_length buf lit off hb, rfl⟩
  case fill n =>
    simp only [fragLen] at hb
    have hlen : (List.replicate n fb).length = n := by simp
    have hok := @emit_bytes_ok_of_le buf (List.replicate n fb) off
      (by rw [hlen]; exact hb)
    constructor
    · intro hc
      have hc2 : emit_bytes buf off (List.replicate n fb) = .error .indexError := hc
      rw [hok] at hc2
      cases hc2
    · intro buf' off' h
      have h2 : emit_bytes buf off (List.replicate n fb) = .ok (buf', off') := h
      rw [hok] at h2
      simp only [Except.ok.injEq, Prod.mk.injEq] at h2
      obtain ⟨h3, h4⟩ := h2
      subst h3
      subst h4
      constructor
      · rw [splice_length buf (List.replicate n fb) off (by rw [hlen]; omega)]
      · simp [fragLen]
  all_goals rename_i e
  all_goals simp only [fragLen] at hb
  all_goals simp only [fragExprs] at he
  all_goals
    refine ⟨?_, ?_⟩
    · intro hc
      rcases except_bind_error hc with h1 | ⟨v, hv, h2⟩
      · exact (he e (by simp)) h1
      · exact (emitExprFrag_safe hb).1 h2
    · intro buf' off' h
      rcases except_bind_ok h with ⟨v, hv, h2⟩
      exact (emitExprFrag_safe hb).2 buf' off' h2

theorem emitFragLoop_safe {graph : LinkGraph} {layout : LinkLayout}
    {st : SymbolTable} {o fb : Nat} :
    ∀ {frags : List SectionFragmentBody} {buf : List Nat} {off : Nat},
      off + (frags.map fragLen).sum ≤ buf.length →
      (∀ frag, frag ∈ frags → ∀ e, e ∈ fragExprs frag →
        eval_expr graph layout st o e ≠ .error .indexError) →
      emitFragLoop graph layout st o fb frags buf off ≠ .error .indexError := by
  intro frags
  induction frags with
  | nil =>
    intro buf off hb he hc
    unfold emitFragLoop at hc
    cases hc
  | cons frag rest ih =>
    intro buf off hb he hc
    unfold emitFragLoop at hc
    simp only [List.map_cons, List.sum_cons] at hb
    obtain ⟨hsafe, hlen⟩ := @emitFrag_safe graph layout st o fb frag buf off
      (by omega) (fun e hee => he frag (List.mem_cons_self _ _) e hee)
    cases hstep : emitFrag graph layout st o fb frag buf off with
    | error e2 =>
      rw [except_bind_error_of hstep] at hc
      injection hc with hc2
      subst hc2
      exact hsafe hstep
    | ok p =>
      rw [except_bind_ok_of hstep] at hc
      obtain ⟨buf1, off1⟩ := p
      obtain ⟨hblen, hoe⟩ := hlen buf1 off1 hstep
      exact ih (by rw [hblen, hoe]; omega)
        (fun f2 hf2 => he f2 (List.mem_cons_of_mem _ hf2)) hc

theorem emit_section_safe {objs : List Object} {graph : LinkGraph}
    {layout : LinkLayout} {st : SymbolTable} {buf : List Nat} {o l fb : Nat}
    {obj : Object} {sect : ObjSection}
    (hobj : objs.get? o = some obj) (hsec : obj.sections.get? l = some sect)
    (hsum : (sect.fragments.map fragLen).sum ≤ buf.length)
    (he : ∀ frag, frag ∈ sect.fragments → ∀ e, e ∈ fragExprs frag →
      eval_expr graph layout st o e ≠ .error .indexError) :
    emit_section objs graph layout st buf o l fb ≠ .error .indexError := by
  intro hc
  unfold emit_section at hc
  rw [except_bind_ok_of (getIdx_eq_ok.mpr hobj)] at hc
  rw [except_bind_ok_of (getIdx_eq_ok.mpr hsec)] at hc
  cases hloop : emitFragLoop graph layout st o fb sect.fragments buf 0 with
  | error e2 =>
    rw [except_bind_error_of hloop] at hc
    injection hc with hc2
    subst hc2
    exact emitFragLoop_safe (by omega) he hloop
  | ok p =>
    obtain ⟨buf1, off1⟩ := p
    rw [except_bind_ok_of hloop] at hc
    cases hc

theorem sliceApply_safe {buf : List Nat} {off len : Nat}
    {f : List Nat → Except LinkError (List Nat)}
    (hb : off + len ≤ buf.length)
    (hf : f ((buf.drop off).take len) ≠ .error .indexError) :
    sliceApply buf off len f ≠ .error .indexError := by
  intro hc
  unfold sliceApply at hc
  have hl : lassert (decide (off + len ≤ buf.length)) LinkError.indexError
      = .ok () := lassert_eq_ok.mpr (by simpa using hb)
  rw [except_bind_ok_of hl] at hc
  cases hres : f ((buf.drop off).take len) with
  | error e2 =>
    rw [except_bind_error_of hres] at hc
    injection hc with hc2
    subst hc2
    exact hf hres
  | ok sub' =>
    rw [except_bind_ok_of hres] at hc
    cases hc

theorem emitSectLoop_safe {objs : List Object} {graph : LinkGraph}
    {layout : LinkLayout} {st : SymbolTable} {seg_start fb : Nat} :
    ∀ {sect_is : List Nat} {buf : List Nat},
      (∀ s, s ∈ sect_is → SectPre objs graph layout st seg_start buf.length s) →
      emitSectLoop objs graph layout st seg_start fb sect_is buf
        ≠ .error .indexError := by
  intro sect_is
  induction sect_is with
  | nil =>
    intro buf hpre hc
    unfold emitSectLoop at hc
    cases hc
  | cons s rest ih =>
    intro buf hpre hc
    unfold emitSectLoop at hc
    obtain ⟨lsec, hlsec, hbody⟩ := hpre s (List.mem_cons_self _ _)
    rcases except_bind_error hc with h1 | ⟨lsec2, hlsec2, hc⟩
    · rw [getIdx_eq_ok.mpr hlsec] at h1
      cases h1
    · have hee : lsec = lsec2 := by
        have h2 := getIdx_eq_ok.mp hlsec2
        rw [hlsec] at h2
        injection h2 with h3
      subst hee
      by_cases hz : (lsec.output_len == 0) = true
      · rw [if_pos hz] at hc
        exact ih (fun s2 hs2 => hpre s2 (List.mem_cons_of_mem _ hs2)) hc
      · rw [if_neg hz] at hc
        obtain ⟨hle, hcontain, p, obj, sect, hp, hobj, hsect, hsum, heval⟩ :=
          hbody (by simpa using hz)
        rcases except_bind_error hc with h1 | ⟨p2, hp2, hc⟩
        · unfold LinkGraph.sectToObjSect at h1
          rw [getIdx_eq_ok.mpr hp] at h1
          cases h1
        · have hpe : p2 = p := by
            unfold LinkGraph.sectToObjSect at hp2
            have h2 := getIdx_eq_ok.mp hp2
            rw [hp] at h2
            injection h2 with h3
            exact h3.symm
          subst hpe
          rcases except_bind_error hc with h1 | ⟨off, hoff, hc⟩
          · unfold checkedSub at h1
            rw [if_pos hle] at h1
            cases h1
          · have hoffv : off = lsec.start - seg_start := by
              unfold checkedSub at hoff
              rw [if_pos hle] at hoff
              injection hoff with h2
              exact h2.symm
            subst hoffv
            rcases except_bind_error hc with h1 | ⟨buf1, hsa, hc⟩
            · have hwl : ((buf.drop (lsec.start - seg_start)).take
                  lsec.output_len).length = lsec.output_len :=
                sub_extract_length _ _ _ hcontain
              exact sliceApply_safe hcontain
                (emit_section_safe hobj hsect (by rw [hwl]; omega) heval) h1
            · have hlen1 : buf1.length = buf.length := by
                obtain ⟨_, hlenp, _, _⟩ := sliceApply_spec hsa
                  (fun sub sub2 hsl hee2 => emit_section_length hee2)
                exact hlenp
              exact ih (fun s2 hs2 => by
                rw [hlen1]
                exact hpre s2 (List.mem_cons_of_mem _ hs2)) hc

theorem emit_segment_safe {objs : List Object} {graph : LinkGraph}
    {layout : LinkLayout} {st : SymbolTable} {buf : List Nat} {g fb : Nat}
    {lseg : LinkLayoutSegment} {sect_is : List Nat}
    (hg : layout.segs.get? g = some lseg)
    (hrow : graph.seg_to_sects.get? g = some sect_is)
    (hall : ∀ s, s ∈ sect_is →
      SectPre objs graph layout st lseg.start buf.length s) :
    emit_segment objs graph layout st buf g fb ≠ .error .indexError := by
  intro hc
  unfold emit_segment at hc
  rcases except_bind_error hc with h1 | ⟨lseg2, hl2, hc⟩
  · rw [getIdx_eq_ok.mpr hg] at h1
    cases h1
  · have hee : lseg2 = lseg := by
      have h2 := getIdx_eq_ok.mp hl2
      rw [hg] at h2
      injection h2 with h3
      exact h3.symm
    subst hee
    rcases except_bind_error hc with h1 | ⟨sect_is2, hs2, hc⟩
    · rw [getIdx_eq_ok.mpr hrow] at h1
      cases h1
    · have hee2 : sect_is2 = sect_is := by
        have h2 := getIdx_eq_ok.mp hs2
        rw [hrow] at h2
        injection h2 with h3
        exact h3.symm
      subst hee2
      exact emitSectLoop_safe hall hc

theorem emitSegLoop_safe {objs : List Object} {graph : LinkGraph}
    {layout : LinkLayout} {st : SymbolTable} {mem_start mem_fill : Nat} :
    ∀ {seg_is : List Nat} {buf : List Nat},
      (∀ g, g ∈ seg_is → SegPre objs graph layout st mem_start buf.length g) →
      emitSegLoop objs graph layout st mem_start mem_fill seg_is buf
        ≠ .error .indexError := by
  intro seg_is
  induction seg_is with
  | nil =>
    intro buf hpre hc
    unfold emitSegLoop at hc
    cases hc
  | cons g rest ih =>
    intro buf hpre hc
    unfold emitSegLoop at hc
    obtain ⟨lseg, hlseg, hbody⟩ := hpre g (List.mem_cons_self _ _)
    rcases except_bind_error hc with h1 | ⟨lseg2, hlseg2, hc⟩
    · rw [getIdx_eq_ok.mpr hlseg] at h1
      cases h1
    · have hee : lseg = lseg2 := by
        have h2 := getIdx_eq_ok.mp hlseg2
        rw [hlseg] at h2
        injection h2 with h3
      subst hee
      by_cases hz : (lseg.output_len == 0) = true
      · rw [if_pos hz] at hc
        exact ih (fun g2 hg2 => hpre g2 (List.mem_cons_of_mem _ hg2)) hc
      · rw [if_neg hz] at hc
        obtain ⟨hle, hcontain, sect_is, hrow, hsects, hpw⟩ :=
          hbody (by simpa using hz)
        rcases except_bind_error hc with h1 | ⟨off, hoff, hc⟩
        · unfold checkedSub at h1
          rw [if_pos hle] at h1
          cases h1
        · have hoffv : off = lseg.start - mem_start := by
            unfold checkedSub at hoff
            rw [if_pos hle] at hoff
            injection hoff with h2
            exact h2.symm
          subst hoffv
          have hwl : ((buf.drop (lseg.start - mem_start)).take
              lseg.output_len).length = lseg.output_len :=
            sub_extract_length _ _ _ hcontain
          rcases except_bind_error hc with h1 | ⟨buf1, hsa, hc⟩
          · refine sliceApply_safe hcontain ?_ h1
            cases hfb : lseg.fill_byte with
            | some b =>
              have hall2 : ∀ s, s ∈ sect_is → SectPre objs graph layout st
                  lseg.start (List.replicate ((buf.drop
                    (lseg.start - mem_start)).take lseg.output_len).length
                    b).length s := by
                intro s hs
                rw [List.length_replicate, hwl]
                exact hsects s hs
              intro hcc
              exact emit_segment_safe hlseg hrow hall2 hcc
            | none =>
              have hall2 : ∀ s, s ∈ sect_is → SectPre objs graph layout st
                  lseg.start ((buf.drop (lseg.start - mem_start)).take
                    lseg.output_len).length s := by
                intro s hs
                rw [hwl]
                exact hsects s hs
              intro hcc
              exact emit_segment_safe hlseg hrow hall2 hcc
          · have hF : ∀ (sub sub2 : List Nat), sub.length = lseg.output_len →
                (match lseg.fill_byte with
                  | some b => emit_segment objs graph layout st
                      (List.replicate sub.length b) g b
                  | none => emit_segment objs graph layout st sub g mem_fill)
                  = .ok sub2 → sub2.length = sub.length := by
              intro sub sub2 hsl hee2
              cases hfb : lseg.fill_byte with
              | some b =>
                rw [hfb] at hee2
                rw [emit_segment_length hee2]
                simp
              | none =>
                rw [hfb] at hee2
                exact emit_segment_length hee2
            have hlen1 : buf1.length = buf.length := by
              obtain ⟨_, hlenp, _, _⟩ := sliceApply_spec hsa hF
              exact hlenp
            exact ih (fun g2 hg2 => by
              rw [hlen1]
              exact hpre g2 (List.mem_cons_of_mem _ hg2)) hc

theorem emit_memory_safe {objs : List Object} {graph : LinkGraph}
    {layout : LinkLayout} {st : SymbolTable} {buf : List Nat} {m : Nat}
    {lm : LinkLayoutMemory} {seg_is : List Nat}
    (hm : layout.mems.get? m = some lm)
    (hrow : graph.mem_to_segs.get? m = some seg_is)
    (hall : ∀ g, g ∈ seg_is →
      SegPre objs graph layout st lm.start buf.length g) :
    emit_memory objs graph layout st buf m ≠ .error .indexError := by
  intro hc
  unfold emit_memory at hc
  rcases except_bind_error hc with h1 | ⟨lm2, hl2, hc⟩
  · rw [getIdx_eq_ok.mpr hm] at h1
    cases h1
  · have hee : lm2 = lm := by
      have h2 := getIdx_eq_ok.mp hl2
      rw [hm] at h2
      injection h2 with h3
      exact h3.symm
    subst hee
    rcases except_bind_error hc with h1 | ⟨seg_is2, hs2, hc⟩
    · rw [getIdx_eq_ok.mpr hrow] at h1
      cases h1
    · have hee2 : seg_is2 = seg_is := by
        have h2 := getIdx_eq_ok.mp hs2
        rw [hrow] at h2
        injection h2 with h3
        exact h3.symm
      subst hee2
      exact emitSegLoop_safe hall hc

theorem emitMemLoop_safe {objs : List Object} {graph : LinkGraph}
    {layout : LinkLayout} {st : SymbolTable} :
    ∀ {mem_is : List Nat} {buf : List Nat},
      (∀ m, m ∈ mem_is → MemPre objs graph layout st buf.length m) →
      emitMemLoop objs graph layout st mem_is buf ≠ .error .indexError := by
  intro mem_is
  induction mem_is with
  | nil =>
    intro buf hpre hc
    unfold emitMemLoop at hc
    cases hc
  | cons m rest ih =>
    intro buf hpre hc
    unfold emitMemLoop at hc
    obtain ⟨lm, hlm, hbody⟩ := hpre m (List.mem_cons_self _ _)
    rcases except_bind_error hc with h1 | ⟨lm2, hlm2, hc⟩
    · rw [getIdx_eq_ok.mpr hlm] at h1
      cases h1
    · have hee : lm = lm2 := by
        have h2 := getIdx_eq_ok.mp hlm2
        rw [hlm] at h2
        injection h2 with h3
      subst hee
      by_cases hz : (lm.output_len == 0) = true
      · rw [if_pos hz] at hc
        exact ih (fun m2 hm2 => hpre m2 (List.mem_cons_of_mem _ hm2)) hc
      · rw [if_neg hz] at hc
        obtain ⟨hfit, seg_is, hrow, hsegs, hpw⟩ := hbody (by simpa using hz)
        have hwl : ((buf.drop lm.file_off).take lm.output_len).length =
            lm.output_len := sub_extract_length _ _ _ hfit
        rcases except_bind_error hc with h1 | ⟨buf1, hsa, hc⟩
        · refine sliceApply_safe hfit ?_ h1
          have hall2 : ∀ g, g ∈ seg_is → SegPre objs graph layout st
              lm.start (List.replicate ((buf.drop lm.file_off).take
                lm.output_len).length lm.fill_byte).length g := by
            intro g hg
            rw [List.length_replicate, hwl]
            exact hsegs g hg
          exact emit_memory_safe hlm hrow hall2
        · have hlen1 : buf1.length = buf.length := by
            obtain ⟨_, hlenp, _, _⟩ := sliceApply_spec hsa
              (fun sub sub2 hsl hee2 => by
                rw [emit_memory_length hee2]
                simp)
            exact hlenp
          exact ih (fun m2 hm2 => by
            rw [hlen1]
            exact hpre m2 (List.mem_cons_of_mem _ hm2)) hc

theorem emitSectLoop_content {objs : List Object} {graph : LinkGraph}
    {layout : LinkLayout} {st : SymbolTable} {seg_start fb : Nat} :
    ∀ {sect_is : List Nat} {buf buf' : List Nat},
      emitSectLoop objs graph layout st seg_start fb sect_is buf = .ok buf' →
      List.Pairwise (fun s1 s2 => ∀ k,
        ¬ (sectCovers layout seg_start k s1
           ∧ sectCovers layout seg_start k s2)) sect_is →
      ∀ s, s ∈ sect_is → ∀ lsec, layout.sects.get? s = some lsec →
        lsec.output_len ≠ 0 →
        ∃ p sub sub2, graph.sect_to_obj_sect.get? s = some p
          ∧ seg_start ≤ lsec.start
          ∧ lsec.start - seg_start + lsec.output_len ≤ buf.length
          ∧ sub.length = lsec.output_len
          ∧ emit_section objs graph layout st sub p.1 p.2 fb = .ok sub2
          ∧ ∀ j, j < lsec.output_len →
              buf'.get? (lsec.start - seg_start + j) = sub2.get? j := by
  intro sect_is
  induction sect_is with
  | nil =>
    intro buf buf' h hpw s hs
    exact absurd hs (List.not_mem_nil s)
  | cons s2 rest ih =>
    intro buf buf' h hpw s hs lsec hlsec hnz
    unfold emitSectLoop at h
    obtain ⟨lsec2, hlsec2, hA⟩ := except_bind_ok h
    by_cases hz : (lsec2.output_len == 0) = true
    · rw [if_pos hz] at hA
      rcases List.mem_cons.mp hs with hss | hsr
      · subst hss
        have hee : lsec = lsec2 := by
          have h2 := getIdx_eq_ok.mp hlsec2
          rw [hlsec] at h2
          injection h2
        subst hee
        exact absurd (by simpa using hz) hnz
      · exact ih hA (List.pairwise_cons.mp hpw).2 s hsr lsec hlsec hnz
    · rw [if_neg hz] at hA
      obtain ⟨p2, hp2, hB⟩ := except_bind_ok hA
      obtain ⟨off2, hoff2, hC⟩ := except_bind_ok hB
      obtain ⟨buf1, hsa, hD⟩ := except_bind_ok hC
      have hle2 : seg_start ≤ lsec2.start := by
        unfold checkedSub at hoff2
        by_cases hcc : seg_start ≤ lsec2.start
        · exact hcc
        · rw [if_neg hcc] at hoff2
          cases hoff2
      have hoffv : off2 = lsec2.start - seg_start := by
        unfold checkedSub at hoff2
        rw [if_pos hle2] at hoff2
        injection hoff2 with h2
        exact h2.symm
      subst hoffv
      obtain ⟨hbound, hlenp, houts, sub2, hsub2, hsub2len, hins⟩ :=
        sliceApply_spec hsa (fun sub sub2 hsl he => emit_section_length he)
      rcases List.mem_cons.mp hs with hss | hsr
      · subst hss
        have hee : lsec = lsec2 := by
          have h2 := getIdx_eq_ok.mp hlsec2
          rw [hlsec] at h2
          injection h2
        subst hee
        refine ⟨p2, (buf.drop (lsec.start - seg_start)).take lsec.output_len,
          sub2, ?_, hle2, hbound, sub_extract_length _ _ _ hbound, hsub2, ?_⟩
        · have hp3 : graph.sectToObjSect s = .ok p2 := hp2
          unfold LinkGraph.sectToObjSect at hp3
          exact getIdx_eq_ok.mp hp3
        · intro j hj
          have hframe := (emitSectLoop_spec hD).2
          have hkeep : buf'.get? (lsec.start - seg_start + j) =
              buf1.get? (lsec.start - seg_start + j) := by
            apply hframe
            intro s' hs' hcov
            exact (List.pairwise_cons.mp hpw).1 s' hs'
              (lsec.start - seg_start + j)
              ⟨⟨lsec, hlsec, hnz, by omega, by omega⟩, hcov⟩
          rw [hkeep]
          exact hins j hj
      · obtain ⟨p, sub, sub2', hp, hle, hcont, hsublen, hemit, hplace⟩ :=
          ih hD (List.pairwise_cons.mp hpw).2 s hsr lsec hlsec hnz
        refine ⟨p, sub, sub2', hp, hle, ?_, hsublen, hemit, hplace⟩
        rw [← hlenp]
        exact hcont

theorem emitSegLoop_content {objs : List Object} {graph : LinkGraph}
    {layout : LinkLayout} {st : SymbolTable} {mem_start mem_fill : Nat} :
    ∀ {seg_is : List Nat} {buf buf' : List Nat},
      emitSegLoop objs graph layout st mem_start mem_fill seg_is buf = .ok buf' →
      List.Pairwise (fun g1 g2 => ∀ k,
        ¬ (segCovers layout mem_start k g1
           ∧ segCovers layout mem_start k g2)) seg_is →
      ∀ g, g ∈ seg_is → ∀ lseg, layout.segs.get? g = some lseg →
        lseg.output_len ≠ 0 →
        ∃ subg subg2, mem_start ≤ lseg.start
          ∧ lseg.start - mem_start + lseg.output_len ≤ buf.length
          ∧ subg.length = lseg.output_len
          ∧ emit_segment objs graph layout st subg g
              (effFill lseg.fill_byte mem_fill) = .ok subg2
          ∧ ∀ k, k < lseg.output_len →
              buf'.get? (lseg.start - mem_start + k) = subg2.get? k := by
  intro seg_is
  induction seg_is with
  | nil =>
    intro buf buf' h hpw g hg
    exact absurd hg (List.not_mem_nil g)
  | cons g2 rest ih =>
    intro buf buf' h hpw g hg lseg hlseg hnz
    unfold emitSegLoop at h
    obtain ⟨lseg2, hlseg2, hA⟩ := except_bind_ok h
    by_cases hz : (lseg2.output_len == 0) = true
    · rw [if_pos hz] at hA
      rcases List.mem_cons.mp hg with hgg | hgr
      · subst hgg
        have hee : lseg = lseg2 := by
          have h2 := getIdx_eq_ok.mp hlseg2
          rw [hlseg] at h2
          injection h2
        subst hee
        exact absurd (by simpa using hz) hnz
      · exact ih hA (List.pairwise_cons.mp hpw).2 g hgr lseg hlseg hnz
    · rw [if_neg hz] at hA
      obtain ⟨off2, hoff2, hC⟩ := except_bind_ok hA
      obtain ⟨buf1, hsa, hD⟩ := except_bind_ok hC
      have hle2 : mem_start ≤ lseg2.start := by
        unfold checkedSub at hoff2
        by_cases hcc : mem_start ≤ lseg2.start
        · exact hcc
        · rw [if_neg hcc] at hoff2
          cases hoff2
      have hoffv : off2 = lseg2.start - mem_start := by
        unfold checkedSub at hoff2
        rw [if_pos hle2] at hoff2
        injection hoff2 with h2
        exact h2.symm
      subst hoffv
      have hF : ∀ (sub sub2 : List Nat), sub.length = lseg2.output_len →
          (match lseg2.fill_byte with
            | some b => emit_segment objs graph layout st
                (List.replicate sub.length b) g2 b
            | none => emit_segment objs graph layout st sub g2 mem_fill)
            = .ok sub2 → sub2.length = sub.length := by
        intro sub sub2 hsl hee2
        cases hfb : lseg2.fill_byte with
        | some b =>
          rw [hfb] at hee2
          rw [emit_segment_length hee2]
          simp
        | none =>
          rw [hfb] at hee2
          exact emit_segment_length hee2
      obtain ⟨hbound, hlenp, houts, sub2, hsub2, hsub2len, hins⟩ :=
        sliceApply_spec hsa hF
      rcases List.mem_cons.mp hg with hgg | hgr
      · subst hgg
        have hee : lseg = lseg2 := by
          have h2 := getIdx_eq_ok.mp hlseg2
          rw [hlseg] at h2
          injection h2
        subst hee
        have hwl : ((buf.drop (lseg.start - mem_start)).take
            lseg.output_len).length = lseg.output_len :=
          sub_extract_length _ _ _ hbound
        have hplace : ∀ k, k < lseg.output_len →
            buf'.get? (lseg.start - mem_start + k) = sub2.get? k := by
          intro k hk
          have hframe := (emitSegLoop_spec hD).2.1
          have hkeep : buf'.get? (lseg.start - mem_start + k) =
              buf1.get? (lseg.start - mem_start + k) := by
            apply hframe
            intro g' hg' hcov
            exact (List.pairwise_cons.mp hpw).1 g' hg'
              (lseg.start - mem_start + k)
              ⟨⟨lseg, hlseg, hnz, by omega, by omega⟩, hcov⟩
          rw [hkeep]
          exact hins k hk
        cases hfb : lseg.fill_byte with
        | some b =>
          rw [hfb] at hsub2
          refine ⟨List.replicate ((buf.drop (lseg.start - mem_start)).take
              lseg.output_len).length b, sub2, hle2, hbound,
            by rw [List.length_replicate, hwl], ?_, hplace⟩
          exact hsub2
        | none =>
          rw [hfb] at hsub2
          refine ⟨(buf.drop (lseg.start - mem_start)).take lseg.output_len,
            sub2, hle2, hbound, hwl, ?_, hplace⟩
          exact hsub2
      · obtain ⟨subg, subg2, hle, hcont, hsublen, hemit, hplace⟩ :=
          ih hD (List.pairwise_cons.mp hpw).2 g hgr lseg hlseg hnz
        refine ⟨subg, subg2, hle, ?_, hsublen, hemit, hplace⟩
        rw [← hlenp]
        exact hcont

/-- C10 (amended): when every emitted window is contained in its parent
window and windows are pairwise disjoint at each level (region in file,
segment in region, section in segment — as holds when segments and
sections tile their parents contiguously in emitted-output order), every
referenced table row exists, every mapped section's fragment byte lengths
sum to its output length, and expression evaluation never aborts on a
table index, then `emit_file` never reaches an out-of-bounds abort, and on
success each emitted section's bytes land at file offset
`region.file_off + section.start - region.start`. -/
theorem C10_emit_bounds_and_placement :
    ∀ (objs : List Object) (graph : LinkGraph) (layout : LinkLayout)
      (st : SymbolTable) (file_i : Nat),
      EmitPre objs graph layout st file_i →
      emit_file objs graph layout st file_i ≠ .error .indexError
      ∧ (∀ out, emit_file objs graph layout st file_i = .ok out →
          ∀ m lm, layout.mems.get? m = some lm → lm.output_len ≠ 0 →
          ∀ mem_is, graph.file_to_mems.get? file_i = some mem_is → m ∈ mem_is →
          ∀ seg_is, graph.mem_to_segs.get? m = some seg_is →
          ∀ g lseg, g ∈ seg_is → layout.segs.get? g = some lseg →
            lseg.output_len ≠ 0 →
          ∀ sect_is, graph.seg_to_sects.get? g = some sect_is →
          ∀ s lsec, s ∈ sect_is → layout.sects.get? s = some lsec →
            lsec.output_len ≠ 0 →
            ∃ p sub sub2, graph.sect_to_obj_sect.get? s = some p
              ∧ lm.start ≤ lsec.start
              ∧ sub.length = lsec.output_len
              ∧ emit_section objs graph layout st sub p.1 p.2
                  (effFill lseg.fill_byte lm.fill_byte) = .ok sub2
              ∧ ∀ j, j < lsec.output_len →
                  out.get? (lm.file_off + (lsec.start - lm.start) + j)
                    = sub2.get? j) := by
  intro objs graph layout st file_i hpre
  obtain ⟨lf0, mem_is0, hlf0, hmi0, hmems, hpwm⟩ := hpre
  constructor
  · intro hc
    unfold emit_file at hc
    rcases except_bind_error hc with h1 | ⟨lf2, hlf2, hc⟩
    · rw [getIdx_eq_ok.mpr hlf0] at h1
      cases h1
    · have hq1 : lf0 = lf2 := by
        have h2 := getIdx_eq_ok.mp hlf2
        rw [hlf0] at h2
        injection h2
      subst hq1
      rcases except_bind_error hc with h1 | ⟨mem_is2, hmi2, hc⟩
      · rw [getIdx_eq_ok.mpr hmi0] at h1
        cases h1
      · have hq2 : mem_is0 = mem_is2 := by
          have h2 := getIdx_eq_ok.mp hmi2
          rw [hmi0] at h2
          injection h2
        subst hq2
        refine emitMemLoop_safe ?_ hc
        intro m hm
        have hmp := hmems m hm
        rw [List.length_replicate]
        exact hmp
  · intro out hout m lm hlm hmnz mem_is hmi hm seg_is hsi g lseg hg hlseg hgnz
      sect_is hsects s lsec hs hlsec hsnz
    have hq3 : mem_is0 = mem_is := by
      rw [hmi0] at hmi
      injection hmi
    subst hq3
    unfold emit_file at hout
    obtain ⟨lf3, hlf3, hout⟩ := except_bind_ok hout
    obtain ⟨mem_is3, hmi3, hout⟩ := except_bind_ok hout
    have hq4 : mem_is0 = mem_is3 := by
      have h2 := getIdx_eq_ok.mp hmi3
      rw [hmi0] at h2
      injection h2
    subst hq4
    obtain ⟨_, _, hval⟩ := emitMemLoop_spec hout
    obtain ⟨subm, hsubm, hwin⟩ := hval hpwm m hm lm hlm hmnz
    unfold emit_memory at hsubm
    obtain ⟨lm3, hlm3, hsubm⟩ := except_bind_ok hsubm
    have hq5 : lm = lm3 := by
      have h2 := getIdx_eq_ok.mp hlm3
      rw [hlm] at h2
      injection h2
    subst hq5
    obtain ⟨seg_is3, hsi3, hsubm⟩ := except_bind_ok hsubm
    have hq6 : seg_is = seg_is3 := by
      have h2 := getIdx_eq_ok.mp hsi3
      rw [hsi] at h2
      injection h2
    subst hq6
    obtain ⟨lm4, hlm4, hmb⟩ := hmems m hm
    have hq7 : lm = lm4 := by
      rw [hlm] at hlm4
      injection hlm4
    subst hq7
    obtain ⟨hfit, seg_is4, hsi4, hsegs, hpws⟩ := hmb hmnz
    have hq8 : seg_is = seg_is4 := by
      rw [hsi] at hsi4
      injection hsi4
    subst hq8
    obtain ⟨subg, subg2, hleg, hcontg, hsubglen, hemitg, hplaceg⟩ :=
      emitSegLoop_content hsubm hpws g hg lseg hlseg hgnz
    rw [List.length_replicate] at hcontg
    unfold emit_segment at hemitg
    obtain ⟨lseg3, hlseg3, hemitg⟩ := except_bind_ok hemitg
    have hq9 : lseg = lseg3 := by
      have h2 := getIdx_eq_ok.mp hlseg3
      rw [hlseg] at h2
      injection h2
    subst hq9
    obtain ⟨sect_is3, hsects3, hemitg⟩ := except_bind_ok hemitg
    have hq10 : sect_is = sect_is3 := by
      have h2 := getIdx_eq_ok.mp hsects3
      rw [hsects] at h2
      injection h2
    subst hq10
    obtain ⟨lseg4, hlseg4, hgb⟩ := hsegs g hg
    have hq11 : lseg = lseg4 := by
      rw [hlseg] at hlseg4
      injection hlseg4
    subst hq11
    obtain ⟨hleg2, hcontg2, sect_is4, hsects4, hsectsPre, hpwsec⟩ := hgb hgnz
    have hq12 : sect_is = sect_is4 := by
      rw [hsects] at hsects4
      injection hsects4
    subst hq12
    obtain ⟨p, sub, sub2, hp, hles, hconts, hsublen, hemits, hplaces⟩ :=
      emitSectLoop_content hemitg hpwsec s hs lsec hlsec hsnz
    rw [hsubglen] at hconts
    refine ⟨p, sub, sub2, hp, by omega, hsublen, hemits, ?_⟩
    intro j hj
    have hidx : lm.file_off + (lsec.start - lm.start) + j =
        lm.file_off + (lseg.start - lm.start + (lsec.start - lseg.start + j)) := by
      omega
    rw [hidx]
    rw [hwin (lseg.start - lm.start + (lsec.start - lseg.start + j)) (by omega)]
    rw [hplaceg (lsec.start - lseg.start + j) (by omega)]
    exact hplaces j hj

/-- The well-tiled emission scenario satisfies the amended emission
preconditions. -/
theorem c10bPre : EmitPre [c10bObj] c10bGraph c10bLayout c10bSym 0 := by
  refine ⟨_, _, rfl, rfl, ?_, ?_⟩
  · intro m hm
    have hm0 : m = 0 := by simpa using hm
    subst hm0
    refine ⟨_, rfl, ?_⟩
    intro hnz
    refine ⟨by decide, _, rfl, ?_, ?_⟩
    · intro g hg
      have hg0 : g = 0 := by simpa using hg
      subst hg0
      refine ⟨_, rfl, ?_⟩
      intro hnz2
      refine ⟨by decide, by decide, _, rfl, ?_, ?_⟩
      · intro s hs
        have hs0 : s = 0 := by simpa using hs
        subst hs0
        refine ⟨_, rfl, ?_⟩
        intro hnz3
        refine ⟨by decide, by decide, _, _, _, rfl, rfl, rfl, by decide, ?_⟩
        intro frag hf e he
        have hf0 : frag = .literal [7, 8] := by simpa using hf
        subst hf0
        simp [fragExprs] at he
      · simp
    · simp
  · simp

/-- Witness for the amended bounds theorem at the well-tiled scenario: its
emission reaches no out-of-bounds abort. -/
theorem C10_emit_bounds_and_placement_witness :
    emit_file [c10bObj] c10bGraph c10bLayout c10bSym 0 ≠ .error .indexError :=
  (C10_emit_bounds_and_placement [c10bObj] c10bGraph c10bLayout c10bSym 0
    c10bPre).1

/-- C10 as stated is refuted: with the cursor precondition (every segment
starts exactly at the address cursor) and the fragment-sum precondition
both holding, `emit_file` still reaches an out-of-bounds abort — a BSS
segment advances the address cursor without producing output, so in a
non-filled region the following data segment's offset exceeds the region's
emitted window. -/
theorem C10_emit_bounds_counterexample :
    LinkGraph.new c10Script [c10Obj] = .ok c10Graph
    ∧ LinkLayout.new c10Script [c10Obj] c10Graph = .ok c10Layout
    ∧ SymbolTable.new [c10Obj] c10Graph c10Layout 9 = .ok c10Sym
    ∧ regionsStartAtCursor [c10Obj] c10Graph c10Layout = true
    ∧ fragSumsMatch [c10Obj] = true
    ∧ emit_file [c10Obj] c10Graph c10Layout c10Sym 0 = .error .indexError :=
  ⟨rfl, rfl, rfl, rfl, rfl, rfl⟩

end Ld65
